import Mathlib

/-!
# cpplox: the static resolver, the expression evaluator and the scanner

A shallow embedding of `src/resolver.hpp` (the `NameResolver` visitor and
`Resolver::resolve`), of `src/interpreter.h` (the expression visitor
`Interpreter` with `check_number_operand`), of `src/scanner.cpp` (the `Cursor`
and `Scanner::scan_tokens`) and of the `report` members of the error types,
followed by theorems about them.

Conventions of the embedding:

* a C++ `throw` is the `error` branch of `Except`; a `void` member function
  that mutates the visitor returns the new visitor state;
* `std::vector<T>` used as a stack (`scopes_`) is a `List T` whose head is
  `scopes_.back()`, so `emplace_back` is `cons` and `pop_back` is `tail`;
* `std::unordered_map<K, V>` is an association list with `find` and the
  insert-or-assign of `operator[]`;
* `std::size_t` values (lines, distances) are natural numbers;
* a `std::string` that is indexed (the scanner's source) is the list of its
  characters, and a `while` loop of the scanner is a recursion on a bound of
  its iterations, the number of characters left, which is shown to suffice.
-/

namespace Lox

/-! ## Doubles -/

/-- An IEEE-754 binary64 value given by its three bit fields. -/
structure Double where
  sign : Bool
  exponent : Fin 2048
  fraction : Fin 4503599627370496
deriving DecidableEq, Repr

namespace Double

/-- Not-a-number: all exponent bits set and a non-zero fraction. -/
def isNaN (d : Double) : Bool := d.exponent.val == 2047 && d.fraction.val != 0

/-- Positive or negative zero. -/
def isZero (d : Double) : Bool := d.exponent.val == 0 && d.fraction.val == 0

/-- The built-in `==` on `double`: false when an operand is NaN, the two
zeros compare equal, otherwise the bit patterns are compared. -/
def eq (a b : Double) : Bool :=
  !a.isNaN && !b.isNaN && ((a.isZero && b.isZero) || decide (a = b))

/-- The built-in `!=` on `double`: true when an operand is NaN, false on two
zeros, otherwise true when the bit patterns differ. -/
def ne (a b : Double) : Bool :=
  a.isNaN || b.isNaN || (!(a.isZero && b.isZero) && decide (a ≠ b))

/-- The built-in unary `-` on `double` flips the sign bit. -/
def neg (a : Double) : Double := { a with sign := !a.sign }

end Double

/-- The remaining built-in operations on `double` that the evaluator uses
(rounded arithmetic and ordering); they are parameters of the embedding. -/
structure DoubleOps where
  add : Double → Double → Double
  sub : Double → Double → Double
  mul : Double → Double → Double
  div : Double → Double → Double
  lt : Double → Double → Bool
  le : Double → Double → Bool
  gt : Double → Double → Bool
  ge : Double → Double → Bool

/-! ## Tokens -/

/-- Modelled from the spec: the enumeration `TokenType` of `token.hpp`, which
is not among the sources; the enumerators are the ones the scanner, the parser
utilities and the interpreter name, with the keywords of the language. -/
inductive TokenType where
  | LEFT_PAREN | RIGHT_PAREN | LEFT_BRACE | RIGHT_BRACE
  | COMMA | DOT | MINUS | PLUS | SEMICOLON | SLASH | STAR
  | BANG | BANG_EQUAL | EQUAL | EQUAL_EQUAL
  | GREATER | GREATER_EQUAL | LESS | LESS_EQUAL
  | IDENTIFIER | STRING | NUMBER
  | AND | CLASS | ELSE | FALSE | FUN | FOR | IF | NIL | OR
  | PRINT | RETURN | SUPER | THIS | TRUE | VAR | WHILE
  | EOFF
deriving DecidableEq, Repr

/-- The literal payload of a token:
`std::variant<std::monostate, std::string, double>` (scanner.cpp). -/
inductive Literal where
  | monostate
  | string (s : String)
  | number (d : Double)
deriving DecidableEq, Repr

/-- Modelled from the spec: the struct `Token` of `token.hpp`, which is not
among the sources. Its four members are the ones `make_token` passes to the
constructor; two tokens are the same key of a map when all members agree. -/
structure Token where
  type_ : TokenType
  lexeme_ : String
  literal_ : Literal
  line_ : Nat
deriving DecidableEq, Repr

/-! ## Association lists for `std::unordered_map` -/

/-- The bindings of a `std::unordered_map`. -/
abbrev UnorderedMap (κ ν : Type) := List (κ × ν)

namespace UnorderedMap

variable {κ ν : Type} [DecidableEq κ]

/-- The member `find`: the mapped value, or `none` for `end()`. -/
def find : UnorderedMap κ ν → κ → Option ν
  | [], _ => none
  | (k, v) :: rest, key => if k = key then some v else find rest key

/-- The statement `m[key] = value`: overwrite the binding or add one. -/
def assign : UnorderedMap κ ν → κ → ν → UnorderedMap κ ν
  | [], key, value => [(key, value)]
  | (k, v) :: rest, key, value =>
    if k = key then (k, value) :: rest else (k, v) :: assign rest key value

end UnorderedMap

/-! ## Syntax trees -/

/-- The runtime value `Object` of interpreter.h:
`std::variant<std::monostate, bool, double, std::string>`. -/
inductive Object where
  | monostate
  | bool (b : Bool)
  | number (d : Double)
  | string (s : String)
deriving DecidableEq, Repr

/-- Modelled from the spec: the variant `Expression` of `expression.hpp`, which
is not among the sources; one alternative for each `operator()` of
`NameResolver` that takes an expression, with the members the visitor reads. -/
inductive Expression where
  | monostate
  | literal (value_ : Object)
  | this (keyword_ : Token)
  | variable (name_ : Token)
  | assignment (name_ : Token) (value_ : Expression)
  | binary (left_ : Expression) (op_ : Token) (right_ : Expression)
  | call (callee_ : Expression) (paren_ : Token) (arguments_ : List Expression)
  | get (object_ : Expression) (name_ : Token)
  | grouping (expression_ : Expression)
  | logical (left_ : Expression) (op_ : Token) (right_ : Expression)
  | set (object_ : Expression) (name_ : Token) (value_ : Expression)
  | unary (op_ : Token) (right_ : Expression)
deriving Repr

mutual
/-- The variant `Statement` as `NameResolver` visits it: the alternatives of
statement.hpp together with the return, function and class statements. -/
inductive Statement where
  | monostate
  | expression (expression_ : Expression)
  | print (expression_ : Expression)
  | return_ (keyword_ : Token) (value_ : Expression)
  | variable (name_ : Token) (initializer_ : Expression)
  | block (statements_ : List Statement)
  | function (stmt : FunctionStatement)
  | class_ (name_ : Token) (methods_ : List FunctionStatement)
  | if_ (condition_ : Expression) (then_branch_ else_branch_ : Statement)
  | while_ (condition_ : Expression) (body_ : Statement)
/-- The struct `FunctionStatement`: name, parameters and body. -/
inductive FunctionStatement where
  | mk (name_ : Token) (params_ : List Token) (body_ : List Statement)
end

/-- The member `name_` of a function statement. -/
def FunctionStatement.name_ : FunctionStatement → Token
  | .mk name_ _ _ => name_

/-- The member `params_` of a function statement. -/
def FunctionStatement.params_ : FunctionStatement → List Token
  | .mk _ params_ _ => params_

/-- The member `body_` of a function statement. -/
def FunctionStatement.body_ : FunctionStatement → List Statement
  | .mk _ _ body_ => body_

/-! ## The resolver (resolver.hpp) -/

namespace Resolver

/-- The struct `Resolver::Error`: a line and a message. -/
structure Error where
  line_ : Nat
  message_ : String
deriving DecidableEq, Repr

/-- The function `Resolver::error`. -/
def error (line : Nat) (message : String) : Error := ⟨line, message⟩

end Resolver

/-- The enumeration `NameResolver::FunctionType`. -/
inductive FunctionType where
  | NONE | FUNCTION | METHOD
deriving DecidableEq, Repr

/-- The enumeration `NameResolver::ClassType`. -/
inductive ClassType where
  | NONE | CLASS
deriving DecidableEq, Repr

/-- One element of `scopes_`: name to "is defined". -/
abbrev Scope := UnorderedMap String Bool

/-- The data members of `NameResolver`. The head of `scopes_` is
`scopes_.back()`, the innermost scope. -/
structure NameResolver where
  scopes_ : List Scope
  current_function_type_ : FunctionType
  current_class_type_ : ClassType
  resolution_ : UnorderedMap Token Nat
deriving DecidableEq, Repr

namespace NameResolver

/-- The constructor: one empty scope, both flags `NONE`; the table is the
caller's (empty in `Resolver::resolve`). -/
def new (resolution : UnorderedMap Token Nat) : NameResolver :=
  { scopes_ := [[]],
    current_function_type_ := FunctionType.NONE,
    current_class_type_ := ClassType.NONE,
    resolution_ := resolution }

/-- The member `begin_scope`: `scopes_.emplace_back()`. -/
def begin_scope (r : NameResolver) : NameResolver :=
  { r with scopes_ := [] :: r.scopes_ }

/-- The member `end_scope`: `scopes_.pop_back()`. -/
def end_scope (r : NameResolver) : NameResolver :=
  { r with scopes_ := r.scopes_.tail }

/-- The member `declare`. -/
def declare (name : Token) (r : NameResolver) : Except Resolver.Error NameResolver :=
  match r.scopes_ with
  | [] => .ok r
  | scope :: rest =>
    if (scope.find name.lexeme_).isSome then
      .error (Resolver.error name.line_
        "Already a variable with this name declared in this scope.")
    else
      .ok { r with scopes_ := scope.assign name.lexeme_ false :: rest }

/-- The member `define`. -/
def define (name : Token) (r : NameResolver) : NameResolver :=
  match r.scopes_ with
  | [] => r
  | scope :: rest => { r with scopes_ := scope.assign name.lexeme_ true :: rest }

/-- The loop of `resolve_local`: walks from `scopes_.crbegin()` on, `distance`
being `std::distance(scopes_.crbegin(), scope)`; the result is the distance
stored at the `return`, or `none` when the loop runs to `crend()`. -/
def resolve_local_loop (lexeme : String) : List Scope → Nat → Option Nat
  | [], _ => none
  | scope :: rest, distance =>
    if (scope.find lexeme).isSome then some distance
    else resolve_local_loop lexeme rest (distance + 1)

/-- The member `resolve_local`. -/
def resolve_local (name : Token) (r : NameResolver) : NameResolver :=
  match resolve_local_loop name.lexeme_ r.scopes_ 0 with
  | some distance => { r with resolution_ := r.resolution_.assign name distance }
  | none => r

mutual
/-- The overload `resolve(Expression const&)`: `std::visit` over the
expression alternatives. -/
def resolveExpression : Expression → NameResolver → Except Resolver.Error NameResolver
  | .monostate, r => .ok r
  | .literal _, r => .ok r
  | .this keyword_, r =>
    if r.current_class_type_ = ClassType.NONE then
      .error (Resolver.error keyword_.line_ "Can\x27t use \x27this\x27 outside of a class.")
    else
      .ok (r.resolve_local keyword_)
  | .variable name_, r =>
    match r.scopes_ with
    | [] => .ok (r.resolve_local name_)
    | scope :: _ =>
      if scope.find name_.lexeme_ = some false then
        .error (Resolver.error name_.line_
          "Can\x27t read local variable in its own initializer.")
      else
        .ok (r.resolve_local name_)
  | .assignment name_ value_, r => do
    let r ← resolveExpression value_ r
    .ok (r.resolve_local name_)
  | .binary left_ _ right_, r => do
    let r ← resolveExpression left_ r
    resolveExpression right_ r
  | .call callee_ _ arguments_, r => do
    let r ← resolveExpression callee_ r
    resolveExpressions arguments_ r
  | .get object_ _, r => resolveExpression object_ r
  | .grouping expression_, r => resolveExpression expression_ r
  | .logical left_ _ right_, r => do
    let r ← resolveExpression left_ r
    resolveExpression right_ r
  | .set object_ _ value_, r => do
    let r ← resolveExpression value_ r
    resolveExpression object_ r
  | .unary _ right_, r => resolveExpression right_ r
/-- The loop over `expr->arguments_` of a call. -/
def resolveExpressions : List Expression → NameResolver → Except Resolver.Error NameResolver
  | [], r => .ok r
  | argument :: rest, r => do
    let r ← resolveExpression argument r
    resolveExpressions rest r
end

/-- The loop over `stmt.params_` in `resolve_function`. -/
def declareParams : List Token → NameResolver → Except Resolver.Error NameResolver
  | [], r => .ok r
  | param :: rest, r => do
    let r ← r.declare param
    declareParams rest (r.define param)

mutual
/-- The overload `resolve(Statement const&)`: `std::visit` over the statement
alternatives. -/
def resolveStatement : Statement → NameResolver → Except Resolver.Error NameResolver
  | .monostate, r => .ok r
  | .expression expression_, r => resolveExpression expression_ r
  | .print expression_, r => resolveExpression expression_ r
  | .return_ keyword_ value_, r =>
    if r.current_function_type_ = FunctionType.NONE then
      .error (Resolver.error keyword_.line_ "Can\x27t return from top-level code.")
    else
      resolveExpression value_ r
  | .variable name_ initializer_, r => do
    let r ← r.declare name_
    let r ← resolveExpression initializer_ r
    .ok (r.define name_)
  | .block statements_, r => do
    let r ← resolveStatements statements_ r.begin_scope
    .ok r.end_scope
  | .function stmt, r => do
    let r ← r.declare stmt.name_
    let r := r.define stmt.name_
    resolve_function stmt FunctionType.FUNCTION r
  | .class_ name_ methods_, r => do
    let enclosing_class := r.current_class_type_
    let r := { r with current_class_type_ := ClassType.CLASS }
    let r ← r.declare name_
    let r := r.define name_
    let r := r.begin_scope
    let r := { r with scopes_ :=
      match r.scopes_ with
      | [] => []
      | scope :: rest => scope.assign "this" true :: rest }
    let r ← resolveMethods methods_ r
    let r := r.end_scope
    .ok { r with current_class_type_ := enclosing_class }
  | .if_ condition_ then_branch_ else_branch_, r => do
    let r ← resolveExpression condition_ r
    let r ← resolveStatement then_branch_ r
    match else_branch_ with
    | .monostate => .ok r
    | else_branch_ => resolveStatement else_branch_ r
  | .while_ condition_ body_, r => do
    let r ← resolveExpression condition_ r
    resolveStatement body_ r
/-- The overload `resolve(std::vector<Statement> const&)`. -/
def resolveStatements : List Statement → NameResolver → Except Resolver.Error NameResolver
  | [], r => .ok r
  | statement :: rest, r => do
    let r ← resolveStatement statement r
    resolveStatements rest r
/-- The member `resolve_function`. -/
def resolve_function : FunctionStatement → FunctionType → NameResolver →
    Except Resolver.Error NameResolver
  | .mk _ params_ body_, function_type, r => do
    let enclosing_function := r.current_function_type_
    let r := { r with current_function_type_ := function_type }
    let r := r.begin_scope
    let r ← declareParams params_ r
    let r ← resolveStatements body_ r
    let r := r.end_scope
    .ok { r with current_function_type_ := enclosing_function }
/-- The loop over `stmt->methods_` of a class statement. -/
def resolveMethods : List FunctionStatement → NameResolver → Except Resolver.Error NameResolver
  | [], r => .ok r
  | method :: rest, r => do
    let r ← resolve_function method FunctionType.METHOD r
    resolveMethods rest r
end

end NameResolver

namespace Resolver

/-- The function `Resolver::resolve`: a fresh table and visitor, every
statement visited in order, the table returned. -/
def resolve (statements : List Statement) : Except Error (UnorderedMap Token Nat) := do
  let resolver ← NameResolver.resolveStatements statements (NameResolver.new [])
  .ok resolver.resolution_

end Resolver

/-! ## The expression evaluator (interpreter.h) -/

namespace Interpreter

/-- Modelled from the spec: the variant `Expression` of `expression.h` at the
revision of interpreter.h, which is not among the sources; one alternative for
each `operator()` of `Interpreter`, with the members it reads. -/
inductive Expression where
  | literal (value_ : Object)
  | grouping (expression_ : Expression)
  | unary (op_ : Token) (right_ : Expression)
  | binary (left_ : Expression) (op_ : Token) (right_ : Expression)
deriving Repr

/-- What an evaluation can throw: the `RuntimeError` built from a token and a
message, or the `std::bad_variant_access` of a `std::get` on the wrong
alternative. -/
inductive Exception where
  | RuntimeError (token : Token) (message : String)
  | bad_variant_access
deriving DecidableEq, Repr

/-- The member `index()` of the variant `Object`. -/
def index : Object → Nat
  | .monostate => 0
  | .bool _ => 1
  | .number _ => 2
  | .string _ => 3

/-- The test `std::holds_alternative<double>`. -/
def holds_double : Object → Bool
  | .number _ => true
  | _ => false

/-- The test `std::holds_alternative<std::string>`. -/
def holds_string : Object → Bool
  | .string _ => true
  | _ => false

/-- The access `std::get<double>`. -/
def get_double : Object → Except Exception Double
  | .number d => .ok d
  | _ => .error Exception.bad_variant_access

/-- The access `std::get<std::string>`. -/
def get_string : Object → Except Exception String
  | .string s => .ok s
  | _ => .error Exception.bad_variant_access

/-- The `operator==` of `std::variant`: equal indices and equal held values. -/
def variant_eq (v w : Object) : Bool :=
  if index v ≠ index w then false
  else
    match v, w with
    | .bool a, .bool b => a == b
    | .number a, .number b => Double.eq a b
    | .string a, .string b => a == b
    | _, _ => true

/-- The `operator!=` of `std::variant`: different indices or different held
values. -/
def variant_ne (v w : Object) : Bool :=
  if index v ≠ index w then true
  else
    match v, w with
    | .bool a, .bool b => a != b
    | .number a, .number b => Double.ne a b
    | .string a, .string b => a != b
    | _, _ => false

/-- The function template `check_number_operand`: throws when
`std::all_of` finds every operand of the pack not to hold a `double`; the
message depends on `sizeof...(operands)`. -/
def check_number_operand (token : Token) (operands : List Object) : Except Exception Unit :=
  if operands.all (fun obj => !holds_double obj) then
    .error (Exception.RuntimeError token
      (if operands.length > 1 then "Operands must be numbers."
       else "Operand must be a number."))
  else
    .ok ()

/-- The lambda `is_truthy` of the unary visitor. -/
def is_truthy : Object → Bool
  | .monostate => false
  | .bool b => b
  | _ => true

/-- The `operator()` overloads of `Interpreter` under `std::visit`. -/
def visit (ops : DoubleOps) : Expression → Except Exception Object
  | .literal value_ => .ok value_
  | .grouping expression_ => visit ops expression_
  | .unary op expr_right => do
    let right ← visit ops expr_right
    if op.type_ = TokenType.MINUS then
      check_number_operand op [right]
      let r ← get_double right
      .ok (Object.number (Double.neg r))
    else if op.type_ = TokenType.BANG then
      .ok (Object.bool (!is_truthy right))
    else
      .ok Object.monostate
  | .binary expr_left op expr_right => do
    let left ← visit ops expr_left
    let right ← visit ops expr_right
    if op.type_ = TokenType.MINUS then
      check_number_operand op [left, right]
      let l ← get_double left
      let r ← get_double right
      .ok (Object.number (ops.sub l r))
    else if op.type_ = TokenType.SLASH then
      check_number_operand op [left, right]
      let l ← get_double left
      let r ← get_double right
      .ok (Object.number (ops.div l r))
    else if op.type_ = TokenType.STAR then
      check_number_operand op [left, right]
      let l ← get_double left
      let r ← get_double right
      .ok (Object.number (ops.mul l r))
    else if op.type_ = TokenType.PLUS then
      if holds_double left && holds_double right then do
        let l ← get_double left
        let r ← get_double right
        .ok (Object.number (ops.add l r))
      else if holds_string left && holds_string right then do
        let l ← get_string left
        let r ← get_string right
        .ok (Object.string (l ++ r))
      else
        .error (Exception.RuntimeError op "Operands must be two numbers or two strings.")
    else if op.type_ = TokenType.GREATER then
      check_number_operand op [left, right]
      let l ← get_double left
      let r ← get_double right
      .ok (Object.bool (ops.gt l r))
    else if op.type_ = TokenType.GREATER_EQUAL then
      check_number_operand op [left, right]
      let l ← get_double left
      let r ← get_double right
      .ok (Object.bool (ops.ge l r))
    else if op.type_ = TokenType.LESS then
      check_number_operand op [left, right]
      let l ← get_double left
      let r ← get_double right
      .ok (Object.bool (ops.lt l r))
    else if op.type_ = TokenType.LESS_EQUAL then
      check_number_operand op [left, right]
      let l ← get_double left
      let r ← get_double right
      .ok (Object.bool (ops.le l r))
    else if op.type_ = TokenType.BANG_EQUAL then
      .ok (Object.bool (variant_ne left right))
    else if op.type_ = TokenType.EQUAL_EQUAL then
      .ok (Object.bool (variant_eq left right))
    else
      .ok Object.monostate

end Interpreter

/-! ## The scanner (scanner.cpp) -/

namespace Scanner

/-- What a scan can throw: the `LoxError` built from a line and a message, or
a standard-library exception (`std::out_of_range` of `at` and `std::stod`). -/
inductive Exception where
  | LoxError (line : Nat) (message : String)
  | std_out_of_range
deriving DecidableEq, Repr

/-- The parts of the scanner's environment that are not among the sources:
`match_keyword_token_type` of token.h and the library function `std::stod`
(`none` when it throws). -/
structure Externals where
  match_keyword_token_type : String → Option TokenType
  stod : String → Option Double

/-- The test `is_word_char`; `std::isalnum` classifies as in the "C" locale. -/
def is_word_char (c : Char) : Bool := c.isAlphanum || c == '_'

/-- The data members of the class `Cursor`; the source string is the list of
its characters. -/
structure Cursor where
  source_ : List Char
  start_ : Nat
  current_ : Nat
  line_ : Nat
deriving DecidableEq, Repr

namespace Cursor

/-- The constructor `Cursor(source)`. -/
def new (source : String) : Cursor := ⟨source.data, 0, 0, 1⟩

/-- The member `advance_char`. -/
def advance_char (c : Cursor) : Cursor := { c with current_ := c.current_ + 1 }

/-- The member `advance_line`. -/
def advance_line (c : Cursor) : Cursor := { c with line_ := c.line_ + 1 }

/-- The member `reset_start_to_current`. -/
def reset_start_to_current (c : Cursor) : Cursor := { c with start_ := c.current_ }

/-- The member `take_char`: `source_.at(current_)`, `none` when `at` throws. -/
def take_char (c : Cursor) : Option Char := c.source_[c.current_]?

/-- The member `take_word`: `source_.substr(start_, current_ - start_)`. -/
def take_word (c : Cursor) : String :=
  String.mk ((c.source_.drop c.start_).take (c.current_ - c.start_))

/-- The member `at_line`. -/
def at_line (c : Cursor) : Nat := c.line_

/-- The member `is_at_end`. -/
def is_at_end (c : Cursor) : Bool := decide (c.current_ ≥ c.source_.length)

/-- The member `peek`: the NUL character at the end of the source or when
`at` throws. -/
def peek (c : Cursor) (forward : Nat) : Char :=
  if c.is_at_end then Char.ofNat 0 else c.source_.getD (c.current_ + forward) (Char.ofNat 0)

/-- The member `match`. -/
def match_ (c : Cursor) (expected : Char) : Bool :=
  if c.is_at_end || c.peek 0 != expected then false else true

/-- The number of characters from `current_` to the end of the source. -/
def remaining (c : Cursor) : Nat := c.source_.length - c.current_

end Cursor

/-- A loop `while (cond) body` over a cursor. Every loop of the scanner
consumes one character per iteration and stops at the end of the source, so
the number of remaining characters bounds the number of iterations; `fuel` is
that bound. -/
def while_loop (cond : Cursor → Bool) (body : Cursor → Cursor) : Nat → Cursor → Cursor
  | 0, c => c
  | fuel + 1, c => if cond c then while_loop cond body fuel (body c) else c

/-- The function `make_token`. -/
def make_token (cursor : Cursor) (token_type : TokenType) (literal : Literal) : Token :=
  ⟨token_type, cursor.take_word, literal, cursor.at_line⟩

/-- The function `handle_string_literal`; the cursor is passed by reference,
so the new cursor is returned with the token. -/
def handle_string_literal (cursor : Cursor) : Except Exception (Token × Cursor) :=
  let cursor := while_loop (fun c => c.peek 0 != '"' && !c.is_at_end)
    (fun c => (if c.peek 0 == Char.ofNat 10 then c.advance_line else c).advance_char)
    cursor.remaining cursor
  if cursor.is_at_end then
    .error (Exception.LoxError cursor.at_line "Unterminated string literal")
  else
    let cursor := cursor.advance_char
    let text := cursor.take_word
    let value := String.mk ((text.data.drop 1).take (text.length - 2))
    .ok (make_token cursor TokenType.STRING (Literal.string value), cursor)

/-- The function `handle_number_literal`. -/
def handle_number_literal (env : Externals) (cursor : Cursor) :
    Except Exception (Token × Cursor) :=
  let cursor := while_loop (fun c => (c.peek 0).isDigit) Cursor.advance_char
    cursor.remaining cursor
  let cursor :=
    if cursor.peek 0 == '.' && (cursor.peek 1).isDigit then
      let cursor := cursor.advance_char
      while_loop (fun c => (c.peek 0).isDigit) Cursor.advance_char cursor.remaining cursor
    else cursor
  match env.stod cursor.take_word with
  | none => .error Exception.std_out_of_range
  | some value => .ok (make_token cursor TokenType.NUMBER (Literal.number value), cursor)

/-- The function `handle_identifier`. -/
def handle_identifier (env : Externals) (cursor : Cursor) : Token × Cursor :=
  let cursor := while_loop (fun c => is_word_char (c.peek 0)) Cursor.advance_char
    cursor.remaining cursor
  let text := cursor.take_word
  let token_type := (env.match_keyword_token_type text).getD TokenType.IDENTIFIER
  (make_token cursor token_type Literal.monostate, cursor)

/-- The lambda `single_char` of `build_special_character_token`. -/
def single_char (cursor : Cursor) (token_type : TokenType) : Token × Cursor :=
  (make_token cursor token_type Literal.monostate, cursor)

/-- The lambda `single_or_double_char` of `build_special_character_token`. -/
def single_or_double_char (cursor : Cursor) (with_equal without_equal : TokenType) :
    Token × Cursor :=
  if cursor.match_ '=' then
    let cursor := cursor.advance_char
    (make_token cursor with_equal Literal.monostate, cursor)
  else
    (make_token cursor without_equal Literal.monostate, cursor)

/-- The function `build_special_character_token`: the token with the new
cursor, or `none` for `std::nullopt` (the cursor is then untouched). -/
def build_special_character_token (cursor : Cursor) (c : Char) : Option (Token × Cursor) :=
  if c == '(' then some (single_char cursor TokenType.LEFT_PAREN)
  else if c == ')' then some (single_char cursor TokenType.RIGHT_PAREN)
  else if c == Char.ofNat 123 then some (single_char cursor TokenType.LEFT_BRACE)
  else if c == Char.ofNat 125 then some (single_char cursor TokenType.RIGHT_BRACE)
  else if c == ',' then some (single_char cursor TokenType.COMMA)
  else if c == '.' then some (single_char cursor TokenType.DOT)
  else if c == '-' then some (single_char cursor TokenType.MINUS)
  else if c == '+' then some (single_char cursor TokenType.PLUS)
  else if c == ';' then some (single_char cursor TokenType.SEMICOLON)
  else if c == '*' then some (single_char cursor TokenType.STAR)
  else if c == '!' then
    some (single_or_double_char cursor TokenType.BANG_EQUAL TokenType.BANG)
  else if c == '=' then
    some (single_or_double_char cursor TokenType.EQUAL_EQUAL TokenType.EQUAL)
  else if c == '<' then
    some (single_or_double_char cursor TokenType.LESS_EQUAL TokenType.LESS)
  else if c == '>' then
    some (single_or_double_char cursor TokenType.GREATER_EQUAL TokenType.GREATER)
  else none

/-- The function `handle_slash`. -/
def handle_slash (cursor : Cursor) : Option Token × Cursor :=
  if cursor.match_ '/' then
    (none, while_loop (fun c => c.peek 0 != Char.ofNat 10 && !c.is_at_end) Cursor.advance_char
      cursor.remaining cursor)
  else
    (some (make_token cursor TokenType.SLASH Literal.monostate), cursor)

/-- The function `handle_newline`. -/
def handle_newline (cursor : Cursor) : Option Token × Cursor := (none, cursor.advance_line)

/-- The function `scan_token`. -/
def scan_token (env : Externals) (cursor : Cursor) : Except Exception (Option Token × Cursor) :=
  match cursor.take_char with
  | none => .error Exception.std_out_of_range
  | some c =>
    let cursor := cursor.advance_char
    if c == ' ' || c == Char.ofNat 13 || c == Char.ofNat 9 then .ok (none, cursor)
    else if c == Char.ofNat 10 then .ok (handle_newline cursor)
    else if c == '/' then .ok (handle_slash cursor)
    else if c == '"' then
      (handle_string_literal cursor).map (fun result => (some result.1, result.2))
    else if c.isDigit then
      (handle_number_literal env cursor).map (fun result => (some result.1, result.2))
    else if c.isAlpha || c == '_' then
      let result := handle_identifier env cursor
      .ok (some result.1, result.2)
    else
      match build_special_character_token cursor c with
      | some (token, cursor) => .ok (some token, cursor)
      | none =>
        .error (Exception.LoxError cursor.at_line
          ("Unexpected character \x27" ++ String.singleton c ++ "\x27"))

/-- The loop of `scan_tokens`. Every call of `scan_token` consumes at least
one character, so the number of remaining characters bounds the number of
iterations; `fuel` is that bound. -/
def scan_tokens_loop (env : Externals) : Nat → Cursor → List Token →
    Except Exception (List Token × Cursor)
  | 0, cursor, tokens => .ok (tokens, cursor)
  | fuel + 1, cursor, tokens =>
    if !cursor.is_at_end then
      let cursor := cursor.reset_start_to_current
      match scan_token env cursor with
      | .error e => .error e
      | .ok (some token, cursor) => scan_tokens_loop env fuel cursor (tokens ++ [token])
      | .ok (none, cursor) => scan_tokens_loop env fuel cursor tokens
    else .ok (tokens, cursor)

/-- The function `Scanner::scan_tokens`. -/
def scan_tokens (env : Externals) (contents : String) : Except Exception (List Token) :=
  let cursor := Cursor.new contents
  match scan_tokens_loop env cursor.remaining cursor [] with
  | .error e => .error e
  | .ok (tokens, cursor) =>
    .ok (tokens ++ [⟨TokenType.EOFF, "", Literal.monostate, cursor.at_line⟩])

/-- The keywords of the language with their token types. -/
def keywords : UnorderedMap String TokenType :=
  [("and", TokenType.AND), ("class", TokenType.CLASS), ("else", TokenType.ELSE),
    ("false", TokenType.FALSE), ("for", TokenType.FOR), ("fun", TokenType.FUN),
    ("if", TokenType.IF), ("nil", TokenType.NIL), ("or", TokenType.OR),
    ("print", TokenType.PRINT), ("return", TokenType.RETURN), ("super", TokenType.SUPER),
    ("this", TokenType.THIS), ("true", TokenType.TRUE), ("var", TokenType.VAR),
    ("while", TokenType.WHILE)]

/-- One choice of the environment, for stating examples: the keyword table
above, and a `std::stod` that always throws. -/
def Externals.sample : Externals :=
  { match_keyword_token_type := fun text => keywords.find text,
    stod := fun _ => none }

end Scanner

/-! ## Error reports (resolver.hpp, utils/error.hpp) -/

/-- The stream insertion `out << s` of a string: the characters are appended. -/
def ostream_string (out : String) (s : String) : String := out ++ s

/-- The stream insertion `out << n` of a `std::size_t`: its decimal digits are
appended. -/
def ostream_size_t (out : String) (n : Nat) : String := out ++ Nat.repr n

/-- The stream insertion `out << c` of a `char`. -/
def ostream_char (out : String) (c : Char) : String := out.push c

/-- The member `Resolver::Error::report`, as the new contents of `std::cerr`. -/
def Resolver.Error.report (e : Resolver.Error) (cerr : String) : String :=
  ostream_char
    (ostream_string
      (ostream_string (ostream_size_t (ostream_string cerr "[line ") e.line_)
        "] Resolver error: ")
      e.message_)
    (Char.ofNat 10)

/-- The struct `RuntimeError` of utils/error.hpp: a line and a message. -/
structure RuntimeError where
  line_ : Nat
  message_ : String
deriving DecidableEq, Repr

/-- The member `RuntimeError::report`, as the new contents of `std::cerr`. -/
def RuntimeError.report (e : RuntimeError) (cerr : String) : String :=
  ostream_char
    (ostream_string (ostream_string (ostream_size_t (ostream_string cerr "[line ") e.line_) "] ")
      e.message_)
    (Char.ofNat 10)

/-! ## Programs and lexical predicates used in the statements below -/

/-- An identifier token as the scanner builds it: no literal payload. -/
def identifier (lexeme : String) (line : Nat) : Token :=
  ⟨TokenType.IDENTIFIER, lexeme, Literal.monostate, line⟩

/-- An operator token as the scanner builds it: no literal payload. -/
def operator (type : TokenType) (lexeme : String) (line : Nat) : Token :=
  ⟨type, lexeme, Literal.monostate, line⟩

/-- The double 1.0: sign 0, biased exponent 1023, fraction 0. -/
def Double.one : Double := ⟨false, 1023, 0⟩

/-- The double 0.0: all bits clear. -/
def Double.zero : Double := ⟨false, 0, 0⟩

/-- One choice of the parameters, for stating examples: arithmetic returns
its left operand and every ordering test is false. -/
def DoubleOps.sample : DoubleOps :=
  { add := fun a _ => a, sub := fun a _ => a, mul := fun a _ => a, div := fun a _ => a,
    lt := fun _ _ => false, le := fun _ _ => false,
    gt := fun _ _ => false, ge := fun _ _ => false }

/-- The statement `stmt` inside `depth` nested blocks: `{ { ... stmt ... } }`. -/
def nestBlocks : Nat → Statement → Statement
  | 0, stmt => stmt
  | depth + 1, stmt => Statement.block [nestBlocks depth stmt]

mutual
/-- The statement contains a return statement that is not inside the body of
a function or method declaration of the statement itself. -/
def returnsOutsideFunction : Statement → Bool
  | .return_ _ _ => true
  | .block statements_ => returnsOutsideFunctionList statements_
  | .if_ _ then_branch_ else_branch_ =>
    returnsOutsideFunction then_branch_ || returnsOutsideFunction else_branch_
  | .while_ _ body_ => returnsOutsideFunction body_
  | .monostate => false
  | .expression _ => false
  | .print _ => false
  | .variable _ _ => false
  | .function _ => false
  | .class_ _ _ => false
/-- Some statement of the list contains a return outside every function body. -/
def returnsOutsideFunctionList : List Statement → Bool
  | [] => false
  | statement :: rest => returnsOutsideFunction statement || returnsOutsideFunctionList rest
end

mutual
/-- The expression contains a this-reference. -/
def mentionsThis : Expression → Bool
  | .this _ => true
  | .monostate => false
  | .literal _ => false
  | .variable _ => false
  | .assignment _ value_ => mentionsThis value_
  | .binary left_ _ right_ => mentionsThis left_ || mentionsThis right_
  | .call callee_ _ arguments_ => mentionsThis callee_ || mentionsThisList arguments_
  | .get object_ _ => mentionsThis object_
  | .grouping expression_ => mentionsThis expression_
  | .logical left_ _ right_ => mentionsThis left_ || mentionsThis right_
  | .set object_ _ value_ => mentionsThis value_ || mentionsThis object_
  | .unary _ right_ => mentionsThis right_
/-- Some expression of the list contains a this-reference. -/
def mentionsThisList : List Expression → Bool
  | [] => false
  | argument :: rest => mentionsThis argument || mentionsThisList rest
end

mutual
/-- The statement contains a this-reference that is not inside a class
declaration of the statement itself. -/
def thisOutsideClass : Statement → Bool
  | .monostate => false
  | .expression expression_ => mentionsThis expression_
  | .print expression_ => mentionsThis expression_
  | .return_ _ value_ => mentionsThis value_
  | .variable _ initializer_ => mentionsThis initializer_
  | .block statements_ => thisOutsideClassList statements_
  | .function stmt => thisOutsideClassFunction stmt
  | .class_ _ _ => false
  | .if_ condition_ then_branch_ else_branch_ =>
    mentionsThis condition_ || thisOutsideClass then_branch_ || thisOutsideClass else_branch_
  | .while_ condition_ body_ => mentionsThis condition_ || thisOutsideClass body_
/-- Some statement of the list contains a this-reference outside every class. -/
def thisOutsideClassList : List Statement → Bool
  | [] => false
  | statement :: rest => thisOutsideClass statement || thisOutsideClassList rest
/-- The body of the function contains a this-reference outside every class. -/
def thisOutsideClassFunction : FunctionStatement → Bool
  | .mk _ _ body_ => thisOutsideClassList body_
end

/-- The flags are the same and the scope stack has the same depth and the same
scopes below the innermost one. -/
def NameResolver.SameFrame (r r' : NameResolver) : Prop :=
  r'.current_function_type_ = r.current_function_type_ ∧
  r'.current_class_type_ = r.current_class_type_ ∧
  r'.scopes_.tail = r.scopes_.tail ∧
  r'.scopes_.length = r.scopes_.length

/-- Where a static error can come from: the self-reference and duplicate
rules, or the `this` rule under `thisCase`, or the return rule under
`returnCase`. -/
def Resolver.Raised (err : Resolver.Error) (thisCase returnCase : Prop) : Prop :=
  err.message_ = "Can\x27t read local variable in its own initializer." ∨
  err.message_ = "Already a variable with this name declared in this scope." ∨
  (err.message_ = "Can\x27t use \x27this\x27 outside of a class." ∧ thisCase) ∨
  (err.message_ = "Can\x27t return from top-level code." ∧ returnCase)

/-- Every binding of `old` is a binding of `new`, with the same flag: `new`
may only have gained names. -/
def ScopeExtends (old new : Scope) : Prop :=
  ∀ key defined, old.find key = some defined → new.find key = some defined

/-- The scope stack of `r'` is the one of `r` except that the innermost scope
may have gained names. -/
def NameResolver.Extends (r r' : NameResolver) : Prop :=
  (r.scopes_ = [] ∧ r'.scopes_ = []) ∨
  ∃ scope scope' rest, r.scopes_ = scope :: rest ∧ r'.scopes_ = scope' :: rest ∧
    ScopeExtends scope scope'

mutual
/-- The keyword tokens of the this-references of an expression. -/
def thisTokens : Expression → List Token
  | .this keyword_ => [keyword_]
  | .monostate => []
  | .literal _ => []
  | .variable _ => []
  | .assignment _ value_ => thisTokens value_
  | .binary left_ _ right_ => thisTokens left_ ++ thisTokens right_
  | .call callee_ _ arguments_ => thisTokens callee_ ++ thisTokensList arguments_
  | .get object_ _ => thisTokens object_
  | .grouping expression_ => thisTokens expression_
  | .logical left_ _ right_ => thisTokens left_ ++ thisTokens right_
  | .set object_ _ value_ => thisTokens value_ ++ thisTokens object_
  | .unary _ right_ => thisTokens right_
/-- The keyword tokens of the this-references of a list of expressions. -/
def thisTokensList : List Expression → List Token
  | [] => []
  | argument :: rest => thisTokens argument ++ thisTokensList rest
end

mutual
/-- The keyword tokens of all this-references of a statement, those inside
function bodies and class declarations included. -/
def thisTokensStatement : Statement → List Token
  | .monostate => []
  | .expression expression_ => thisTokens expression_
  | .print expression_ => thisTokens expression_
  | .return_ _ value_ => thisTokens value_
  | .variable _ initializer_ => thisTokens initializer_
  | .block statements_ => thisTokensStatements statements_
  | .function stmt => thisTokensFunction stmt
  | .class_ _ methods_ => thisTokensMethods methods_
  | .if_ condition_ then_branch_ else_branch_ =>
    thisTokens condition_ ++ (thisTokensStatement then_branch_ ++ thisTokensStatement else_branch_)
  | .while_ condition_ body_ => thisTokens condition_ ++ thisTokensStatement body_
/-- The keyword tokens of all this-references of a statement list. -/
def thisTokensStatements : List Statement → List Token
  | [] => []
  | statement :: rest => thisTokensStatement statement ++ thisTokensStatements rest
/-- The keyword tokens of all this-references of a function body. -/
def thisTokensFunction : FunctionStatement → List Token
  | .mk _ _ body_ => thisTokensStatements body_
/-- The keyword tokens of all this-references of a list of methods. -/
def thisTokensMethods : List FunctionStatement → List Token
  | [] => []
  | method :: rest => thisTokensFunction method ++ thisTokensMethods rest
end

/-- Some scope of the stack binds the name `this`. -/
def NameResolver.BindsThis (r : NameResolver) : Prop :=
  ∃ scope ∈ r.scopes_, (scope.find "this").isSome

/-- When the class flag is `CLASS`, some scope of the stack binds `this`. -/
def NameResolver.ThisBound (r : NameResolver) : Prop :=
  r.current_class_type_ = ClassType.CLASS → r.BindsThis

/-- The table of `r'` has an entry for every key of the table of `r` and for
every token of `tokens` whose lexeme is `this`. -/
def NameResolver.Resolved (r r' : NameResolver) (tokens : List Token) : Prop :=
  (∀ t, (r.resolution_.find t).isSome → (r'.resolution_.find t).isSome) ∧
  ∀ kw ∈ tokens, kw.lexeme_ = "this" → (r'.resolution_.find kw).isSome

/-- The name a declaration statement declares in the current scope: the name
of a variable, function or class statement. -/
def declaredName : Statement → Option Token
  | .variable name_ _ => some name_
  | .function stmt => some stmt.name_
  | .class_ name_ _ => some name_
  | _ => none

/-- The line counter agrees with the characters consumed so far: it is one
more than the number of newline characters before `current_`. -/
def Scanner.Cursor.LineCounted (c : Scanner.Cursor) : Prop :=
  c.line_ = 1 + (c.source_.take c.current_).count (Char.ofNat 10)

/-- The cursor `c'` reads the same source as `c`, is not behind it, and its
line counter agrees with the characters consumed. -/
def Scanner.Cursor.Follows (c c' : Scanner.Cursor) : Prop :=
  c'.source_ = c.source_ ∧ c.current_ ≤ c'.current_ ∧ c'.LineCounted

/-! ## The parenthesized lists of the parser (parser/utils.hpp) -/

namespace Parser

/-- Modelled from the spec: what the members of the parser's cursor throw.
The headers parser/cursor.hpp and parser/error.hpp are not among the sources;
a member fails on a token of another type than the one to take, or when no
token is left. -/
inductive Exception where
  | unexpected_token (found : Token) (expected : TokenType)
  | out_of_tokens
deriving DecidableEq, Repr

/-- Modelled from the spec: the value `error(token, message)` of
parser/error.hpp, which is not among the sources: the token the error is at
and the message. Calling `report()` on it is recorded by listing the value. -/
structure Error where
  token_ : Token
  message_ : String
deriving DecidableEq, Repr

/-- Modelled from the spec: the class `Cursor` of parser/cursor.hpp, which is
not among the sources. The state is the tokens not taken yet, the next one
first. -/
structure Cursor where
  tokens_ : List Token
deriving DecidableEq, Repr

namespace Cursor

/-- Modelled from the spec: the member `peek()`, the next token without taking
it. -/
def peek (cursor : Cursor) : Except Exception Token :=
  match cursor.tokens_ with
  | [] => .error .out_of_tokens
  | token :: _ => .ok token

/-- Modelled from the spec: the member `match(type)`, whether the next token
has the type; no token is taken (the source calls `take` after a successful
`match`). -/
def match_ (cursor : Cursor) (type_ : TokenType) : Bool :=
  match cursor.tokens_ with
  | [] => false
  | token :: _ => token.type_ == type_

/-- Modelled from the spec: the member `take()`, which takes the next token. -/
def take (cursor : Cursor) : Except Exception (Token × Cursor) :=
  match cursor.tokens_ with
  | [] => .error .out_of_tokens
  | token :: rest => .ok (token, ⟨rest⟩)

/-- Modelled from the spec: the member `take(type)`, which takes the next
token when it has the type and throws otherwise. -/
def take_type (cursor : Cursor) (type_ : TokenType) : Except Exception (Token × Cursor) :=
  match cursor.tokens_ with
  | [] => .error .out_of_tokens
  | token :: rest =>
    if token.type_ == type_ then .ok (token, ⟨rest⟩) else .error (.unexpected_token token type_)

end Cursor

/-- The loop `while (cursor.match(COMMA)) { cursor.take(); list.push_back(f(cursor)); }`
of `parse_parenthesized_list`. The element parser `f` returns the element and
the cursor it leaves, or what it throws. `none` when the fuel runs out before
the condition is false. -/
def parse_parenthesized_list_loop {T : Type} (f : Cursor → Except Exception (T × Cursor)) :
    Nat → Cursor → List T → Option (Except Exception (List T × Cursor))
  | 0, cursor, list =>
    if cursor.match_ TokenType.COMMA then none else some (.ok (list, cursor))
  | fuel + 1, cursor, list =>
    if cursor.match_ TokenType.COMMA then
      match cursor.take with
      | .error e => some (.error e)
      | .ok (_, cursor) =>
        match f cursor with
        | .error e => some (.error e)
        | .ok (element, cursor) => parse_parenthesized_list_loop f fuel cursor (list ++ [element])
    else some (.ok (list, cursor))

/-- The function template `parse_parenthesized_list`. The result is the errors
it reported, in order, with the returned list and the cursor it leaves, or with
what was thrown. The loop runs on as much fuel as tokens are left when it is
entered; `none` when that fuel runs out. -/
def parse_parenthesized_list {T : Type} (f : Cursor → Except Exception (T × Cursor))
    (cursor : Cursor) : Option (List Error × Except Exception (List T × Cursor)) :=
  match cursor.take_type TokenType.LEFT_PAREN with
  | .error e => some ([], .error e)
  | .ok (_, cursor) =>
    let parsed : Option (Except Exception (List T × Cursor)) :=
      if !cursor.match_ TokenType.RIGHT_PAREN then
        match f cursor with
        | .error e => some (.error e)
        | .ok (element, cursor) =>
          parse_parenthesized_list_loop f cursor.tokens_.length cursor [element]
      else some (.ok ([], cursor))
    match parsed with
    | none => none
    | some (.error e) => some ([], .error e)
    | some (.ok (list, cursor)) =>
      let reported : Except Exception (List Error) :=
        if list.length ≥ 255 then
          match cursor.peek with
          | .error e => .error e
          | .ok token => .ok [⟨token, "Can\x27t have more than 255 constituents."⟩]
        else .ok []
      match reported with
      | .error e => some ([], .error e)
      | .ok reports =>
        match cursor.take_type TokenType.RIGHT_PAREN with
        | .error e => some (reports, .error e)
        | .ok (_, cursor) => some (reports, .ok (list, cursor))

/-- The tokens `tokens` hold the constituents `elements` in this order,
separated by commas, and then go on with `rest`: on each constituent `f`
returns the element and leaves the cursor right behind the constituent. -/
inductive Constituents {T : Type} (f : Cursor → Except Exception (T × Cursor)) :
    List Token → List T → List Token → Prop where
  | last (constituent : List Token) (element : T) (rest : List Token) :
      f ⟨constituent ++ rest⟩ = .ok (element, ⟨rest⟩) →
      Constituents f (constituent ++ rest) [element] rest
  | more (constituent : List Token) (element : T) (comma : Token) (tokens : List Token)
      (elements : List T) (rest : List Token) :
      f ⟨constituent ++ comma :: tokens⟩ = .ok (element, ⟨comma :: tokens⟩) →
      comma.type_ = TokenType.COMMA →
      Constituents f tokens elements rest →
      Constituents f (constituent ++ comma :: tokens) (element :: elements) rest

/-- The element parser never leaves more tokens than it was given. -/
def Consumes {T : Type} (f : Cursor → Except Exception (T × Cursor)) : Prop :=
  ∀ (cursor : Cursor) (element : T) (cursor' : Cursor),
    f cursor = .ok (element, cursor') → cursor'.tokens_.length ≤ cursor.tokens_.length

/-- The tokens of `n + 1` copies of one token `element`, separated by the token
`comma`, before `rest`. -/
def commaSeparated (element comma : Token) : Nat → List Token → List Token
  | 0, rest => element :: rest
  | n + 1, rest => element :: comma :: commaSeparated element comma n rest

end Parser

/-! ## References to variables -/

mutual
/-- The name tokens of the variable references of an expression: the variables
it reads and the targets of its assignments. -/
def referenceTokens : Expression → List Token
  | .variable name_ => [name_]
  | .assignment name_ value_ => referenceTokens value_ ++ [name_]
  | .monostate => []
  | .literal _ => []
  | .this _ => []
  | .binary left_ _ right_ => referenceTokens left_ ++ referenceTokens right_
  | .call callee_ _ arguments_ => referenceTokens callee_ ++ referenceTokensList arguments_
  | .get object_ _ => referenceTokens object_
  | .grouping expression_ => referenceTokens expression_
  | .logical left_ _ right_ => referenceTokens left_ ++ referenceTokens right_
  | .set object_ _ value_ => referenceTokens value_ ++ referenceTokens object_
  | .unary _ right_ => referenceTokens right_
/-- The name tokens of the variable references of a list of expressions. -/
def referenceTokensList : List Expression → List Token
  | [] => []
  | argument :: rest => referenceTokens argument ++ referenceTokensList rest
end

mutual
/-- The name tokens of all variable references of a statement, at any depth:
those inside blocks, function bodies and class declarations included. -/
def referenceTokensStatement : Statement → List Token
  | .monostate => []
  | .expression expression_ => referenceTokens expression_
  | .print expression_ => referenceTokens expression_
  | .return_ _ value_ => referenceTokens value_
  | .variable _ initializer_ => referenceTokens initializer_
  | .block statements_ => referenceTokensStatements statements_
  | .function stmt => referenceTokensFunction stmt
  | .class_ _ methods_ => referenceTokensMethods methods_
  | .if_ condition_ then_branch_ else_branch_ =>
    referenceTokens condition_ ++
      (referenceTokensStatement then_branch_ ++ referenceTokensStatement else_branch_)
  | .while_ condition_ body_ => referenceTokens condition_ ++ referenceTokensStatement body_
/-- The name tokens of all variable references of a statement list. -/
def referenceTokensStatements : List Statement → List Token
  | [] => []
  | statement :: rest => referenceTokensStatement statement ++ referenceTokensStatements rest
/-- The name tokens of all variable references of a function body. -/
def referenceTokensFunction : FunctionStatement → List Token
  | .mk _ _ body_ => referenceTokensStatements body_
/-- The name tokens of all variable references of a list of methods. -/
def referenceTokensMethods : List FunctionStatement → List Token
  | [] => []
  | method :: rest => referenceTokensFunction method ++ referenceTokensMethods rest
end

/-- Some scope of the stack holds the name. -/
def NameResolver.Binds (r : NameResolver) (name : String) : Prop :=
  ∃ scope ∈ r.scopes_, (scope.find name).isSome

/-- The table of `r'` has an entry for every key of the table of `r` and for
every token of `tokens` whose lexeme is `name`. -/
def NameResolver.ResolvedName (r r' : NameResolver) (name : String) (tokens : List Token) :
    Prop :=
  (∀ t, (r.resolution_.find t).isSome → (r'.resolution_.find t).isSome) ∧
  ∀ ref ∈ tokens, ref.lexeme_ = name → (r'.resolution_.find ref).isSome

/-! ## Basic facts about the association lists -/

namespace UnorderedMap

variable {κ ν : Type} [DecidableEq κ]

theorem find_assign_self (m : UnorderedMap κ ν) (key : κ) (value : ν) :
    (m.assign key value).find key = some value := by
  induction m with
  | nil => simp [assign, find]
  | cons head rest ih =>
    obtain ⟨k, v⟩ := head
    by_cases hk : k = key
    · simp [assign, find, hk]
    · simp [assign, find, hk, ih]

theorem find_assign_of_ne (m : UnorderedMap κ ν) (key other : κ) (value : ν)
    (hne : other ≠ key) : (m.assign key value).find other = m.find other := by
  induction m with
  | nil =>
    have : ¬ key = other := fun h => hne h.symm
    simp [assign, find, this]
  | cons head rest ih =>
    obtain ⟨k, v⟩ := head
    by_cases hk : k = key
    · subst hk
      have : ¬ k = other := fun h => hne h.symm
      simp [assign, find, this]
    · by_cases hko : k = other
      · subst hko
        simp [assign, find, hk]
      · simp [assign, find, hk, hko, ih]

end UnorderedMap

namespace NameResolver

/-! ## The scope search of `resolve_local` -/

theorem resolve_local_loop_none (lexeme : String) (scopes : List Scope) (distance : Nat)
    (hnone : ∀ scope ∈ scopes, scope.find lexeme = none) :
    resolve_local_loop lexeme scopes distance = none := by
  induction scopes generalizing distance with
  | nil => rfl
  | cons scope rest ih =>
    have h0 : scope.find lexeme = none := hnone scope (List.mem_cons_self _ _)
    have hrest : ∀ s ∈ rest, s.find lexeme = none :=
      fun s hs => hnone s (List.mem_cons_of_mem _ hs)
    simp [resolve_local_loop, h0, ih _ hrest]

theorem resolve_local_loop_some (lexeme : String) (scopes : List Scope) (distance : Nat)
    (hsome : ∃ scope ∈ scopes, (scope.find lexeme).isSome) :
    ∃ k scope, scopes[k]? = some scope ∧ (scope.find lexeme).isSome ∧
      (∀ inner ∈ scopes.take k, inner.find lexeme = none) ∧
      resolve_local_loop lexeme scopes distance = some (distance + k) := by
  induction scopes generalizing distance with
  | nil =>
    obtain ⟨s, hs, _⟩ := hsome
    cases hs
  | cons scope rest ih =>
    by_cases h0 : (scope.find lexeme).isSome
    · exact ⟨0, scope, by simp, h0, by simp, by simp [resolve_local_loop, h0]⟩
    · have hrest : ∃ s ∈ rest, (s.find lexeme).isSome := by
        obtain ⟨s, hs, hfound⟩ := hsome
        rcases List.mem_cons.mp hs with rfl | hmem
        · exact absurd hfound h0
        · exact ⟨s, hmem, hfound⟩
      obtain ⟨k, s, hk, hfound, hinner, hloop⟩ := ih (distance + 1) hrest
      refine ⟨k + 1, s, by simpa using hk, hfound, ?_, ?_⟩
      · intro inner hmem
        rw [List.take_succ_cons] at hmem
        rcases List.mem_cons.mp hmem with rfl | hmem
        · simpa using h0
        · exact hinner inner hmem
      · simp only [resolve_local_loop, h0]
        rw [hloop]
        simp [Nat.add_assoc, Nat.add_comm 1 k]

theorem resolve_local_loop_shift (lexeme : String) (scopes : List Scope) (distance : Nat) :
    resolve_local_loop lexeme scopes distance =
      (resolve_local_loop lexeme scopes 0).map (fun k => distance + k) := by
  induction scopes generalizing distance with
  | nil => rfl
  | cons scope rest ih =>
    by_cases h0 : (scope.find lexeme).isSome
    · simp [resolve_local_loop, h0]
    · simp only [resolve_local_loop, h0, Bool.false_eq_true, if_false]
      rw [ih (distance + 1), ih (0 + 1)]
      cases resolve_local_loop lexeme rest 0 <;> simp [Nat.add_assoc]

theorem resolve_local_frame (name : Token) (r : NameResolver) :
    (r.resolve_local name).scopes_ = r.scopes_ ∧
    (r.resolve_local name).current_function_type_ = r.current_function_type_ ∧
    (r.resolve_local name).current_class_type_ = r.current_class_type_ := by
  unfold resolve_local
  cases resolve_local_loop name.lexeme_ r.scopes_ 0 <;> simp

/-- C1. `resolve_local`: when some scope of the stack contains the name, the
table afterwards maps the token to the number `k` of scopes lying inside the
innermost scope that contains it (that scope sits at position `k` from the
innermost end and no scope before it contains the name), other keys keep their
entries and the scopes and flags are untouched; when no scope contains the
name the visitor is left as it was. A variable reference whose name is not
"declared, not defined" in the innermost scope, and an assignment whose value
resolves, end in exactly this lookup; `{ var a; { a; } }` gives 1. -/
theorem resolve_local_hops (r : NameResolver) (name : Token) :
    ((∃ scope ∈ r.scopes_, (scope.find name.lexeme_).isSome) →
      ∃ k scope, r.scopes_[k]? = some scope ∧ (scope.find name.lexeme_).isSome ∧
        (∀ inner ∈ r.scopes_.take k, inner.find name.lexeme_ = none) ∧
        (r.resolve_local name).resolution_.find name = some k ∧
        (∀ other, other ≠ name →
          (r.resolve_local name).resolution_.find other = r.resolution_.find other) ∧
        (r.resolve_local name).scopes_ = r.scopes_ ∧
        (r.resolve_local name).current_function_type_ = r.current_function_type_ ∧
        (r.resolve_local name).current_class_type_ = r.current_class_type_) ∧
    ((∀ scope ∈ r.scopes_, scope.find name.lexeme_ = none) → r.resolve_local name = r) ∧
    ((∀ scope rest, r.scopes_ = scope :: rest → scope.find name.lexeme_ ≠ some false) →
      resolveExpression (Expression.variable name) r = .ok (r.resolve_local name)) ∧
    (∀ value r', resolveExpression value r = .ok r' →
      resolveExpression (Expression.assignment name value) r = .ok (r'.resolve_local name)) ∧
    (∀ decl : Token, decl.lexeme_ = name.lexeme_ →
      Resolver.resolve [Statement.block [Statement.variable decl Expression.monostate,
        Statement.block [Statement.expression (Expression.variable name)]]] = .ok [(name, 1)]) := by
  refine ⟨?_, ?_, ?_, ?_, ?_⟩
  · intro hsome
    obtain ⟨k, scope, hk, hfound, hinner, hloop⟩ :=
      resolve_local_loop_some name.lexeme_ r.scopes_ 0 hsome
    refine ⟨k, scope, hk, hfound, hinner, ?_, ?_, resolve_local_frame name r⟩
    · simp [resolve_local, hloop, UnorderedMap.find_assign_self]
    · intro other hne
      simp [resolve_local, hloop, UnorderedMap.find_assign_of_ne _ _ _ _ hne]
  · intro hnone
    simp [resolve_local, resolve_local_loop_none name.lexeme_ r.scopes_ 0 hnone]
  · intro hhead
    simp only [resolveExpression]
    split
    · rfl
    · rename_i scope rest heq
      simp [hhead scope rest heq]
  · intro value r' hvalue
    simp [resolveExpression, hvalue, bind, Except.bind]
  · intro decl hlex
    simp [Resolver.resolve, NameResolver.new, resolveStatements, resolveStatement,
      resolveExpression, begin_scope, end_scope, declare, define, resolve_local,
      resolve_local_loop, UnorderedMap.find, UnorderedMap.assign, hlex, bind, Except.bind]

/-- Witness for C1 on the stack of `{ var a; { a; } }` at the reference. -/
theorem resolve_local_hops_witness :
    ∃ k scope, ([[], [("a", true)], []] : List Scope)[k]? = some scope ∧
      (scope.find "a").isSome ∧
      (∀ inner ∈ ([[], [("a", true)], []] : List Scope).take k, inner.find "a" = none) ∧
      ((NameResolver.mk [[], [("a", true)], []] FunctionType.NONE ClassType.NONE []).resolve_local
        (identifier "a" 1)).resolution_.find (identifier "a" 1) = some k :=
  have h := (resolve_local_hops
    (NameResolver.mk [[], [("a", true)], []] FunctionType.NONE ClassType.NONE [])
    (identifier "a" 1)).1 ⟨[("a", true)], by simp, by decide⟩
  let ⟨k, scope, h1, h2, h3, h4, _⟩ := h
  ⟨k, scope, h1, h2, h3, h4⟩

/-! ## Top-level names and nested blocks -/

theorem resolveStatement_block_singleton (stmt : Statement) (r : NameResolver) :
    resolveStatement (Statement.block [stmt]) r =
      (resolveStatement stmt r.begin_scope).map end_scope := by
  simp only [resolveStatement, resolveStatements, bind, Except.bind, Except.map]
  cases resolveStatement stmt r.begin_scope <;> rfl

theorem resolve_nested_self_initializer (decl ref : Token) (hlex : decl.lexeme_ = ref.lexeme_) :
    ∀ (depth : Nat) (r : NameResolver),
      (∃ scope rest, r.scopes_ = scope :: rest ∧ scope.find decl.lexeme_ = none) →
      resolveStatement (nestBlocks depth (Statement.variable decl (Expression.variable ref))) r =
        .error (Resolver.error ref.line_ "Can\x27t read local variable in its own initializer.")
  | 0, r, hscope => by
    obtain ⟨scope, rest, heq, hnone⟩ := hscope
    have hfound : (scope.assign ref.lexeme_ false).find ref.lexeme_ = some false :=
      UnorderedMap.find_assign_self scope ref.lexeme_ false
    rw [hlex] at hnone
    simp [nestBlocks, resolveStatement, resolveExpression, declare, heq, hnone, hlex, hfound,
      bind, Except.bind]
  | depth + 1, r, _ => by
    have ih := resolve_nested_self_initializer decl ref hlex depth r.begin_scope
      ⟨[], r.scopes_, rfl, rfl⟩
    rw [nestBlocks, resolveStatement_block_singleton, ih]
    rfl

/-- C3. For every nesting depth (0 is the top level) resolving the program
whose only statement is `var a = a;` inside `depth` nested blocks fails with
"Can't read local variable in its own initializer." at the line of the
referencing token; the same holds from any visitor state once the statement is
inside at least one block, or directly when the innermost scope exists and
does not yet contain the name. -/
theorem self_initializer_rejected (depth : Nat) (decl ref : Token)
    (hlex : decl.lexeme_ = ref.lexeme_) :
    Resolver.resolve [nestBlocks depth (Statement.variable decl (Expression.variable ref))] =
      .error (Resolver.error ref.line_ "Can\x27t read local variable in its own initializer.") ∧
    (∀ r : NameResolver,
      resolveStatement
        (nestBlocks (depth + 1) (Statement.variable decl (Expression.variable ref))) r =
        .error (Resolver.error ref.line_ "Can\x27t read local variable in its own initializer.")) ∧
    (∀ (r : NameResolver) (scope : Scope) (rest : List Scope), r.scopes_ = scope :: rest →
      scope.find decl.lexeme_ = none →
      resolveStatement (Statement.variable decl (Expression.variable ref)) r =
        .error (Resolver.error ref.line_ "Can\x27t read local variable in its own initializer.")) := by
  refine ⟨?_, ?_, ?_⟩
  · have h := resolve_nested_self_initializer decl ref hlex depth (NameResolver.new [])
      ⟨[], [], rfl, rfl⟩
    simp [Resolver.resolve, resolveStatements, h, bind, Except.bind]
  · intro r
    have h := resolve_nested_self_initializer decl ref hlex depth r.begin_scope
      ⟨[], r.scopes_, rfl, rfl⟩
    rw [nestBlocks, resolveStatement_block_singleton, h]
    rfl
  · intro r scope rest heq hnone
    exact resolve_nested_self_initializer decl ref hlex 0 r ⟨scope, rest, heq, hnone⟩

/-- Witness for C3: `{ { { var a = a; } } }` with the reference on line 7. -/
theorem self_initializer_rejected_witness :
    Resolver.resolve [nestBlocks 3
        (Statement.variable (identifier "a" 7) (Expression.variable (identifier "a" 7)))] =
      .error (Resolver.error 7 "Can\x27t read local variable in its own initializer.") :=
  (self_initializer_rejected 3 (identifier "a" 7) (identifier "a" 7) rfl).1

/-- C4. A block that declares the same name twice (`{ var x; var x; }`) fails,
from any visitor state, with the duplicate-declaration error at the line of the
second declaration; `declare` raises that error whenever the innermost scope
already contains the name, be it marked defined or not; and a declaration in a
nested block of a name of the enclosing block (`{ var x; { var x; } }`)
raises no error and leaves the visitor as it was. -/
theorem duplicate_declaration (first second : Token) (hlex : first.lexeme_ = second.lexeme_) :
    (∀ r : NameResolver,
      resolveStatement (Statement.block [Statement.variable first Expression.monostate,
        Statement.variable second Expression.monostate]) r =
        .error (Resolver.error second.line_
          "Already a variable with this name declared in this scope.")) ∧
    (∀ (r : NameResolver) (scope : Scope) (rest : List Scope) (defined : Bool),
      r.scopes_ = scope :: rest → scope.find second.lexeme_ = some defined →
      r.declare second = .error (Resolver.error second.line_
        "Already a variable with this name declared in this scope.")) ∧
    (∀ r : NameResolver,
      resolveStatement (Statement.block [Statement.variable first Expression.monostate,
        Statement.block [Statement.variable second Expression.monostate]]) r = .ok r) := by
  refine ⟨?_, ?_, ?_⟩
  · intro r
    simp [resolveStatement, resolveStatements, resolveExpression, declare, define, begin_scope,
      UnorderedMap.find, UnorderedMap.assign, hlex, bind, Except.bind]
  · intro r scope rest defined heq hfound
    simp [declare, heq, hfound]
  · intro r
    simp [resolveStatement, resolveStatements, resolveExpression, declare, define, begin_scope,
      end_scope, UnorderedMap.find, UnorderedMap.assign, hlex, bind, Except.bind]

/-- Witness for C4 from the initial visitor state, `x` on lines 1 and 2. -/
theorem duplicate_declaration_witness :
    resolveStatement (Statement.block [Statement.variable (identifier "x" 1) Expression.monostate,
        Statement.variable (identifier "x" 2) Expression.monostate]) (NameResolver.new []) =
      .error (Resolver.error 2 "Already a variable with this name declared in this scope.") :=
  (duplicate_declaration (identifier "x" 1) (identifier "x" 2) rfl).1 (NameResolver.new [])

/-! ## Sequencing in `Except` -/

theorem bind_eq_ok {ε α β : Type} (x : Except ε α) (f : α → Except ε β) (b : β) :
    (x >>= f) = .ok b ↔ ∃ a, x = .ok a ∧ f a = .ok b := by
  cases x <;> simp [bind, Except.bind]

theorem bind_eq_error {ε α β : Type} (x : Except ε α) (f : α → Except ε β) (e : ε) :
    (x >>= f) = .error e ↔ x = .error e ∨ ∃ a, x = .ok a ∧ f a = .error e := by
  cases x <;> simp [bind, Except.bind]

/-! ## What a successful resolution leaves unchanged -/

theorem SameFrame.refl (r : NameResolver) : SameFrame r r := ⟨rfl, rfl, rfl, rfl⟩

theorem SameFrame.trans {a b c : NameResolver} (hab : SameFrame a b) (hbc : SameFrame b c) :
    SameFrame a c :=
  ⟨hbc.1.trans hab.1, hbc.2.1.trans hab.2.1, hbc.2.2.1.trans hab.2.2.1,
    hbc.2.2.2.trans hab.2.2.2⟩

theorem SameFrame.of_scopes_eq {r r' : NameResolver} (hscopes : r'.scopes_ = r.scopes_)
    (hfun : r'.current_function_type_ = r.current_function_type_)
    (hclass : r'.current_class_type_ = r.current_class_type_) : SameFrame r r' :=
  ⟨hfun, hclass, by rw [hscopes], by rw [hscopes]⟩

theorem declare_sameFrame (name : Token) (r r' : NameResolver) (h : r.declare name = .ok r') :
    SameFrame r r' := by
  unfold declare at h
  split at h
  · cases h; exact SameFrame.refl r
  · rename_i scope rest heq
    split at h
    · cases h
    · cases h
      exact ⟨rfl, rfl, by simp [heq], by simp [heq]⟩

theorem define_sameFrame (name : Token) (r : NameResolver) : SameFrame r (r.define name) := by
  unfold define
  split
  · exact SameFrame.refl r
  · rename_i scope rest heq
    exact ⟨rfl, rfl, by simp [heq], by simp [heq]⟩

theorem declareParams_sameFrame : ∀ (params : List Token) (r r' : NameResolver),
    declareParams params r = .ok r' → SameFrame r r'
  | [], r, r', h => by
    simp only [declareParams, Except.ok.injEq] at h
    subst h
    exact SameFrame.refl r
  | param :: rest, r, r', h => by
    simp only [declareParams] at h
    obtain ⟨r1, h1, h2⟩ := (bind_eq_ok _ _ _).mp h
    exact ((declare_sameFrame param r r1 h1).trans (define_sameFrame param r1)).trans
      (declareParams_sameFrame rest _ r' h2)

mutual
theorem resolveExpression_rel (P : NameResolver → NameResolver → Prop)
    (hrefl : ∀ r, P r r) (htrans : ∀ a b c, P a b → P b c → P a c)
    (hlocal : ∀ name r, P r (r.resolve_local name)) :
    ∀ (e : Expression) (r r' : NameResolver), resolveExpression e r = .ok r' → P r r'
  | .monostate, r, r', h => by
    simp only [resolveExpression, Except.ok.injEq] at h
    subst h; exact hrefl r
  | .literal _, r, r', h => by
    simp only [resolveExpression, Except.ok.injEq] at h
    subst h; exact hrefl r
  | .this kw, r, r', h => by
    simp only [resolveExpression] at h
    split at h
    · cases h
    · cases h; exact hlocal kw r
  | .variable name, r, r', h => by
    simp only [resolveExpression] at h
    split at h
    · cases h; exact hlocal name r
    · split at h
      · cases h
      · cases h; exact hlocal name r
  | .assignment name value, r, r', h => by
    simp only [resolveExpression] at h
    obtain ⟨r1, h1, h2⟩ := (bind_eq_ok _ _ _).mp h
    cases h2
    exact htrans _ _ _ (resolveExpression_rel P hrefl htrans hlocal value r r1 h1) (hlocal name r1)
  | .binary left _ right, r, r', h => by
    simp only [resolveExpression] at h
    obtain ⟨r1, h1, h2⟩ := (bind_eq_ok _ _ _).mp h
    exact htrans _ _ _ (resolveExpression_rel P hrefl htrans hlocal left r r1 h1)
      (resolveExpression_rel P hrefl htrans hlocal right r1 r' h2)
  | .call callee _ args, r, r', h => by
    simp only [resolveExpression] at h
    obtain ⟨r1, h1, h2⟩ := (bind_eq_ok _ _ _).mp h
    exact htrans _ _ _ (resolveExpression_rel P hrefl htrans hlocal callee r r1 h1)
      (resolveExpressions_rel P hrefl htrans hlocal args r1 r' h2)
  | .get object _, r, r', h => by
    simp only [resolveExpression] at h
    exact resolveExpression_rel P hrefl htrans hlocal object r r' h
  | .grouping e, r, r', h => by
    simp only [resolveExpression] at h
    exact resolveExpression_rel P hrefl htrans hlocal e r r' h
  | .logical left _ right, r, r', h => by
    simp only [resolveExpression] at h
    obtain ⟨r1, h1, h2⟩ := (bind_eq_ok _ _ _).mp h
    exact htrans _ _ _ (resolveExpression_rel P hrefl htrans hlocal left r r1 h1)
      (resolveExpression_rel P hrefl htrans hlocal right r1 r' h2)
  | .set object _ value, r, r', h => by
    simp only [resolveExpression] at h
    obtain ⟨r1, h1, h2⟩ := (bind_eq_ok _ _ _).mp h
    exact htrans _ _ _ (resolveExpression_rel P hrefl htrans hlocal value r r1 h1)
      (resolveExpression_rel P hrefl htrans hlocal object r1 r' h2)
  | .unary _ right, r, r', h => by
    simp only [resolveExpression] at h
    exact resolveExpression_rel P hrefl htrans hlocal right r r' h
theorem resolveExpressions_rel (P : NameResolver → NameResolver → Prop)
    (hrefl : ∀ r, P r r) (htrans : ∀ a b c, P a b → P b c → P a c)
    (hlocal : ∀ name r, P r (r.resolve_local name)) :
    ∀ (es : List Expression) (r r' : NameResolver), resolveExpressions es r = .ok r' → P r r'
  | [], r, r', h => by
    simp only [resolveExpressions, Except.ok.injEq] at h
    subst h; exact hrefl r
  | e :: es, r, r', h => by
    simp only [resolveExpressions] at h
    obtain ⟨r1, h1, h2⟩ := (bind_eq_ok _ _ _).mp h
    exact htrans _ _ _ (resolveExpression_rel P hrefl htrans hlocal e r r1 h1)
      (resolveExpressions_rel P hrefl htrans hlocal es r1 r' h2)
end

theorem resolveExpression_scopes (e : Expression) (r r' : NameResolver)
    (h : resolveExpression e r = .ok r') :
    r'.scopes_ = r.scopes_ ∧ r'.current_function_type_ = r.current_function_type_ ∧
      r'.current_class_type_ = r.current_class_type_ :=
  resolveExpression_rel
    (fun r r' => r'.scopes_ = r.scopes_ ∧
      r'.current_function_type_ = r.current_function_type_ ∧
      r'.current_class_type_ = r.current_class_type_)
    (fun _ => ⟨rfl, rfl, rfl⟩)
    (fun _ _ _ hab hbc => ⟨hbc.1.trans hab.1, hbc.2.1.trans hab.2.1, hbc.2.2.trans hab.2.2⟩)
    (fun name r => resolve_local_frame name r) e r r' h

theorem resolveExpression_sameFrame (e : Expression) (r r' : NameResolver)
    (h : resolveExpression e r = .ok r') : SameFrame r r' :=
  let ⟨hs, hf, hc⟩ := resolveExpression_scopes e r r' h
  SameFrame.of_scopes_eq hs hf hc

theorem resolveStatement_if (condition : Expression) (then_branch else_branch : Statement)
    (r : NameResolver) :
    resolveStatement (Statement.if_ condition then_branch else_branch) r =
      (resolveExpression condition r >>= fun r1 =>
        resolveStatement then_branch r1 >>= fun r2 => resolveStatement else_branch r2) := by
  cases else_branch <;> simp only [resolveStatement]

mutual
theorem resolveStatement_sameFrame : ∀ (s : Statement) (r r' : NameResolver),
    resolveStatement s r = .ok r' → SameFrame r r'
  | .monostate, r, r', h => by
    simp only [resolveStatement, Except.ok.injEq] at h
    subst h; exact SameFrame.refl r
  | .expression e, r, r', h => by
    simp only [resolveStatement] at h
    exact resolveExpression_sameFrame e r r' h
  | .print e, r, r', h => by
    simp only [resolveStatement] at h
    exact resolveExpression_sameFrame e r r' h
  | .return_ _ value, r, r', h => by
    simp only [resolveStatement] at h
    split at h
    · cases h
    · exact resolveExpression_sameFrame value r r' h
  | .variable name init, r, r', h => by
    simp only [resolveStatement] at h
    obtain ⟨r1, h1, h⟩ := (bind_eq_ok _ _ _).mp h
    obtain ⟨r2, h2, h⟩ := (bind_eq_ok _ _ _).mp h
    cases h
    exact ((declare_sameFrame name r r1 h1).trans (resolveExpression_sameFrame init r1 r2 h2)).trans
      (define_sameFrame name r2)
  | .block ss, r, r', h => by
    simp only [resolveStatement] at h
    obtain ⟨r1, h1, h⟩ := (bind_eq_ok _ _ _).mp h
    cases h
    have ih := resolveStatements_sameFrame ss r.begin_scope r1 h1
    obtain ⟨hf, hc, ht, _⟩ := ih
    exact SameFrame.of_scopes_eq (by simpa [end_scope, begin_scope] using ht) hf hc
  | .function stmt, r, r', h => by
    simp only [resolveStatement] at h
    obtain ⟨r1, h1, h⟩ := (bind_eq_ok _ _ _).mp h
    exact ((declare_sameFrame _ r r1 h1).trans (define_sameFrame _ r1)).trans
      (resolve_function_sameFrame stmt FunctionType.FUNCTION _ r' h)
  | .class_ name methods, r, r', h => by
    simp only [resolveStatement] at h
    obtain ⟨r1, h1, h⟩ := (bind_eq_ok _ _ _).mp h
    obtain ⟨r2, h2, h⟩ := (bind_eq_ok _ _ _).mp h
    cases h
    have hd := (declare_sameFrame name _ r1 h1).trans (define_sameFrame name r1)
    obtain ⟨hf, hc, ht, hl⟩ := hd
    obtain ⟨hf2, _, ht2, _⟩ := resolveMethods_sameFrame methods _ r2 h2
    simp only [begin_scope, List.tail_cons] at ht2 hf2
    exact ⟨by simp only [end_scope]; rw [hf2, hf], rfl,
      by simp only [end_scope]; rw [ht2, ht], by simp only [end_scope]; rw [ht2, hl]⟩
  | .if_ condition then_branch else_branch, r, r', h => by
    rw [resolveStatement_if] at h
    obtain ⟨r1, h1, h⟩ := (bind_eq_ok _ _ _).mp h
    obtain ⟨r2, h2, h⟩ := (bind_eq_ok _ _ _).mp h
    exact ((resolveExpression_sameFrame condition r r1 h1).trans
      (resolveStatement_sameFrame then_branch r1 r2 h2)).trans
      (resolveStatement_sameFrame else_branch r2 r' h)
  | .while_ condition body, r, r', h => by
    simp only [resolveStatement] at h
    obtain ⟨r1, h1, h⟩ := (bind_eq_ok _ _ _).mp h
    exact (resolveExpression_sameFrame condition r r1 h1).trans
      (resolveStatement_sameFrame body r1 r' h)
theorem resolveStatements_sameFrame : ∀ (ss : List Statement) (r r' : NameResolver),
    resolveStatements ss r = .ok r' → SameFrame r r'
  | [], r, r', h => by
    simp only [resolveStatements, Except.ok.injEq] at h
    subst h; exact SameFrame.refl r
  | s :: ss, r, r', h => by
    simp only [resolveStatements] at h
    obtain ⟨r1, h1, h⟩ := (bind_eq_ok _ _ _).mp h
    exact (resolveStatement_sameFrame s r r1 h1).trans (resolveStatements_sameFrame ss r1 r' h)
theorem resolve_function_sameFrame : ∀ (f : FunctionStatement) (kind : FunctionType)
    (r r' : NameResolver), resolve_function f kind r = .ok r' → SameFrame r r'
  | .mk _ params body, kind, r, r', h => by
    simp only [resolve_function] at h
    obtain ⟨r1, h1, h⟩ := (bind_eq_ok _ _ _).mp h
    obtain ⟨r2, h2, h⟩ := (bind_eq_ok _ _ _).mp h
    cases h
    obtain ⟨_, hc, ht, _⟩ := (declareParams_sameFrame params _ r1 h1).trans
      (resolveStatements_sameFrame body r1 r2 h2)
    simp only [begin_scope, List.tail_cons] at ht hc
    exact SameFrame.of_scopes_eq (by simpa [end_scope] using ht) rfl
      (by simpa [end_scope] using hc)
theorem resolveMethods_sameFrame : ∀ (ms : List FunctionStatement) (r r' : NameResolver),
    resolveMethods ms r = .ok r' → SameFrame r r'
  | [], r, r', h => by
    simp only [resolveMethods, Except.ok.injEq] at h
    subst h; exact SameFrame.refl r
  | m :: ms, r, r', h => by
    simp only [resolveMethods] at h
    obtain ⟨r1, h1, h⟩ := (bind_eq_ok _ _ _).mp h
    exact (resolve_function_sameFrame m FunctionType.METHOD r r1 h1).trans
      (resolveMethods_sameFrame ms r1 r' h)
end

/-! ## Where a static error comes from -/

theorem Raised.mono {err : Resolver.Error} {p p' q q' : Prop} (h : Resolver.Raised err p q)
    (hp : p → p') (hq : q → q') : Resolver.Raised err p' q' := by
  rcases h with h | h | ⟨h, hc⟩ | ⟨h, hc⟩
  · exact Or.inl h
  · exact Or.inr (Or.inl h)
  · exact Or.inr (Or.inr (Or.inl ⟨h, hp hc⟩))
  · exact Or.inr (Or.inr (Or.inr ⟨h, hq hc⟩))

theorem declare_error (name : Token) (r : NameResolver) (err : Resolver.Error)
    (h : r.declare name = .error err) (p q : Prop) : Resolver.Raised err p q := by
  unfold declare at h
  split at h
  · cases h
  · split at h
    · cases h; exact Or.inr (Or.inl rfl)
    · cases h

theorem declareParams_error : ∀ (params : List Token) (r : NameResolver) (err : Resolver.Error),
    declareParams params r = .error err → ∀ p q : Prop, Resolver.Raised err p q
  | [], r, err, h, _, _ => by simp [declareParams] at h
  | param :: rest, r, err, h, p, q => by
    simp only [declareParams] at h
    rcases (bind_eq_error _ _ _).mp h with h1 | ⟨r1, _, h2⟩
    · exact declare_error param r err h1 p q
    · exact declareParams_error rest _ err h2 p q

mutual
theorem resolveExpression_error : ∀ (e : Expression) (r : NameResolver) (err : Resolver.Error),
    resolveExpression e r = .error err → ∀ q : Prop,
    Resolver.Raised err (r.current_class_type_ = ClassType.NONE ∧ mentionsThis e = true) q
  | .monostate, r, err, h, _ => by simp [resolveExpression] at h
  | .literal _, r, err, h, _ => by simp [resolveExpression] at h
  | .this kw, r, err, h, _ => by
    simp only [resolveExpression] at h
    split at h
    · rename_i hnone
      cases h
      exact Or.inr (Or.inr (Or.inl ⟨rfl, hnone, rfl⟩))
    · cases h
  | .variable name, r, err, h, _ => by
    simp only [resolveExpression] at h
    split at h
    · cases h
    · split at h
      · cases h; exact Or.inl rfl
      · cases h
  | .assignment name value, r, err, h, q => by
    simp only [resolveExpression] at h
    rcases (bind_eq_error _ _ _).mp h with h1 | ⟨r1, _, h2⟩
    · exact Raised.mono (resolveExpression_error value r err h1 q)
        (fun hc => ⟨hc.1, by simp [mentionsThis, hc.2]⟩) id
    · cases h2
  | .binary left _ right, r, err, h, q => by
    simp only [resolveExpression] at h
    rcases (bind_eq_error _ _ _).mp h with h1 | ⟨r1, h1, h2⟩
    · exact Raised.mono (resolveExpression_error left r err h1 q)
        (fun hc => ⟨hc.1, by simp [mentionsThis, hc.2]⟩) id
    · exact Raised.mono (resolveExpression_error right r1 err h2 q)
        (fun hc => ⟨(resolveExpression_scopes left r r1 h1).2.2 ▸ hc.1,
          by simp [mentionsThis, hc.2]⟩) id
  | .call callee _ args, r, err, h, q => by
    simp only [resolveExpression] at h
    rcases (bind_eq_error _ _ _).mp h with h1 | ⟨r1, h1, h2⟩
    · exact Raised.mono (resolveExpression_error callee r err h1 q)
        (fun hc => ⟨hc.1, by simp [mentionsThis, hc.2]⟩) id
    · exact Raised.mono (resolveExpressions_error args r1 err h2 q)
        (fun hc => ⟨(resolveExpression_scopes callee r r1 h1).2.2 ▸ hc.1,
          by simp [mentionsThis, hc.2]⟩) id
  | .get object _, r, err, h, q => by
    simp only [resolveExpression] at h
    exact Raised.mono (resolveExpression_error object r err h q)
      (fun hc => ⟨hc.1, by simp [mentionsThis, hc.2]⟩) id
  | .grouping e, r, err, h, q => by
    simp only [resolveExpression] at h
    exact Raised.mono (resolveExpression_error e r err h q)
      (fun hc => ⟨hc.1, by simp [mentionsThis, hc.2]⟩) id
  | .logical left _ right, r, err, h, q => by
    simp only [resolveExpression] at h
    rcases (bind_eq_error _ _ _).mp h with h1 | ⟨r1, h1, h2⟩
    · exact Raised.mono (resolveExpression_error left r err h1 q)
        (fun hc => ⟨hc.1, by simp [mentionsThis, hc.2]⟩) id
    · exact Raised.mono (resolveExpression_error right r1 err h2 q)
        (fun hc => ⟨(resolveExpression_scopes left r r1 h1).2.2 ▸ hc.1,
          by simp [mentionsThis, hc.2]⟩) id
  | .set object _ value, r, err, h, q => by
    simp only [resolveExpression] at h
    rcases (bind_eq_error _ _ _).mp h with h1 | ⟨r1, h1, h2⟩
    · exact Raised.mono (resolveExpression_error value r err h1 q)
        (fun hc => ⟨hc.1, by simp [mentionsThis, hc.2]⟩) id
    · exact Raised.mono (resolveExpression_error object r1 err h2 q)
        (fun hc => ⟨(resolveExpression_scopes value r r1 h1).2.2 ▸ hc.1,
          by simp [mentionsThis, hc.2]⟩) id
  | .unary _ right, r, err, h, q => by
    simp only [resolveExpression] at h
    exact Raised.mono (resolveExpression_error right r err h q)
      (fun hc => ⟨hc.1, by simp [mentionsThis, hc.2]⟩) id
theorem resolveExpressions_error : ∀ (es : List Expression) (r : NameResolver)
    (err : Resolver.Error), resolveExpressions es r = .error err → ∀ q : Prop,
    Resolver.Raised err (r.current_class_type_ = ClassType.NONE ∧ mentionsThisList es = true) q
  | [], r, err, h, _ => by simp [resolveExpressions] at h
  | e :: es, r, err, h, q => by
    simp only [resolveExpressions] at h
    rcases (bind_eq_error _ _ _).mp h with h1 | ⟨r1, h1, h2⟩
    · exact Raised.mono (resolveExpression_error e r err h1 q)
        (fun hc => ⟨hc.1, by simp [mentionsThisList, hc.2]⟩) id
    · exact Raised.mono (resolveExpressions_error es r1 err h2 q)
        (fun hc => ⟨(resolveExpression_scopes e r r1 h1).2.2 ▸ hc.1,
          by simp [mentionsThisList, hc.2]⟩) id
end

mutual
theorem resolveStatement_error : ∀ (s : Statement) (r : NameResolver) (err : Resolver.Error),
    resolveStatement s r = .error err →
    Resolver.Raised err (r.current_class_type_ = ClassType.NONE ∧ thisOutsideClass s = true)
      (r.current_function_type_ = FunctionType.NONE ∧ returnsOutsideFunction s = true)
  | .monostate, r, err, h => by simp [resolveStatement] at h
  | .expression e, r, err, h => by
    simp only [resolveStatement] at h
    exact Raised.mono (resolveExpression_error e r err h False)
      (fun hc => ⟨hc.1, by simp [thisOutsideClass, hc.2]⟩) False.elim
  | .print e, r, err, h => by
    simp only [resolveStatement] at h
    exact Raised.mono (resolveExpression_error e r err h False)
      (fun hc => ⟨hc.1, by simp [thisOutsideClass, hc.2]⟩) False.elim
  | .return_ kw value, r, err, h => by
    simp only [resolveStatement] at h
    split at h
    · rename_i hnone
      cases h
      exact Or.inr (Or.inr (Or.inr ⟨rfl, hnone, rfl⟩))
    · exact Raised.mono (resolveExpression_error value r err h False)
        (fun hc => ⟨hc.1, by simp [thisOutsideClass, hc.2]⟩) False.elim
  | .variable name init, r, err, h => by
    simp only [resolveStatement] at h
    rcases (bind_eq_error _ _ _).mp h with h1 | ⟨r1, h1, h2⟩
    · exact declare_error name r err h1 _ _
    · rcases (bind_eq_error _ _ _).mp h2 with h3 | ⟨r2, _, h4⟩
      · exact Raised.mono (resolveExpression_error init r1 err h3 False)
          (fun hc => ⟨(declare_sameFrame name r r1 h1).2.1 ▸ hc.1,
            by simp [thisOutsideClass, hc.2]⟩) False.elim
      · cases h4
  | .block ss, r, err, h => by
    simp only [resolveStatement] at h
    rcases (bind_eq_error _ _ _).mp h with h1 | ⟨r1, _, h2⟩
    · exact Raised.mono (resolveStatements_error ss r.begin_scope err h1)
        (fun hc => ⟨hc.1, by simp [thisOutsideClass, hc.2]⟩)
        (fun hc => ⟨hc.1, by simp [returnsOutsideFunction, hc.2]⟩)
    · cases h2
  | .function stmt, r, err, h => by
    simp only [resolveStatement] at h
    rcases (bind_eq_error _ _ _).mp h with h1 | ⟨r1, h1, h2⟩
    · exact declare_error _ r err h1 _ _
    · have hframe := (declare_sameFrame _ r r1 h1).trans (define_sameFrame stmt.name_ r1)
      exact Raised.mono (resolve_function_error stmt FunctionType.FUNCTION _ err h2)
        (fun hc => ⟨hframe.2.1 ▸ hc.1, by simp [thisOutsideClass, hc.2]⟩)
        (fun hc => by cases hc)
  | .class_ name methods, r, err, h => by
    simp only [resolveStatement] at h
    rcases (bind_eq_error _ _ _).mp h with h1 | ⟨r1, h1, h2⟩
    · exact declare_error _ _ err h1 _ _
    · rcases (bind_eq_error _ _ _).mp h2 with h3 | ⟨r2, _, h4⟩
      · have hframe := (declare_sameFrame name _ r1 h1).trans (define_sameFrame name r1)
        have hclass : (r1.define name).current_class_type_ = ClassType.CLASS := hframe.2.1
        exact Raised.mono (resolveMethods_error methods _ err h3)
          (fun hc => by
            simp only [begin_scope] at hc
            rw [hclass] at hc
            cases hc)
          False.elim
      · cases h4
  | .if_ condition then_branch else_branch, r, err, h => by
    rw [resolveStatement_if] at h
    rcases (bind_eq_error _ _ _).mp h with h1 | ⟨r1, h1, h2⟩
    · exact Raised.mono (resolveExpression_error condition r err h1 False)
        (fun hc => ⟨hc.1, by simp [thisOutsideClass, hc.2]⟩) False.elim
    · have hf1 := resolveExpression_sameFrame condition r r1 h1
      rcases (bind_eq_error _ _ _).mp h2 with h3 | ⟨r2, h3, h4⟩
      · exact Raised.mono (resolveStatement_error then_branch r1 err h3)
          (fun hc => ⟨hf1.2.1 ▸ hc.1, by simp [thisOutsideClass, hc.2]⟩)
          (fun hc => ⟨hf1.1 ▸ hc.1, by simp [returnsOutsideFunction, hc.2]⟩)
      · have hf2 := hf1.trans (resolveStatement_sameFrame then_branch r1 r2 h3)
        exact Raised.mono (resolveStatement_error else_branch r2 err h4)
          (fun hc => ⟨hf2.2.1 ▸ hc.1, by simp [thisOutsideClass, hc.2]⟩)
          (fun hc => ⟨hf2.1 ▸ hc.1, by simp [returnsOutsideFunction, hc.2]⟩)
  | .while_ condition body, r, err, h => by
    simp only [resolveStatement] at h
    rcases (bind_eq_error _ _ _).mp h with h1 | ⟨r1, h1, h2⟩
    · exact Raised.mono (resolveExpression_error condition r err h1 False)
        (fun hc => ⟨hc.1, by simp [thisOutsideClass, hc.2]⟩) False.elim
    · have hf1 := resolveExpression_sameFrame condition r r1 h1
      exact Raised.mono (resolveStatement_error body r1 err h2)
        (fun hc => ⟨hf1.2.1 ▸ hc.1, by simp [thisOutsideClass, hc.2]⟩)
        (fun hc => ⟨hf1.1 ▸ hc.1, by simp [returnsOutsideFunction, hc.2]⟩)
theorem resolveStatements_error : ∀ (ss : List Statement) (r : NameResolver)
    (err : Resolver.Error), resolveStatements ss r = .error err →
    Resolver.Raised err (r.current_class_type_ = ClassType.NONE ∧ thisOutsideClassList ss = true)
      (r.current_function_type_ = FunctionType.NONE ∧ returnsOutsideFunctionList ss = true)
  | [], r, err, h => by simp [resolveStatements] at h
  | s :: ss, r, err, h => by
    simp only [resolveStatements] at h
    rcases (bind_eq_error _ _ _).mp h with h1 | ⟨r1, h1, h2⟩
    · exact Raised.mono (resolveStatement_error s r err h1)
        (fun hc => ⟨hc.1, by simp [thisOutsideClassList, hc.2]⟩)
        (fun hc => ⟨hc.1, by simp [returnsOutsideFunctionList, hc.2]⟩)
    · have hf1 := resolveStatement_sameFrame s r r1 h1
      exact Raised.mono (resolveStatements_error ss r1 err h2)
        (fun hc => ⟨hf1.2.1 ▸ hc.1, by simp [thisOutsideClassList, hc.2]⟩)
        (fun hc => ⟨hf1.1 ▸ hc.1, by simp [returnsOutsideFunctionList, hc.2]⟩)
theorem resolve_function_error : ∀ (f : FunctionStatement) (kind : FunctionType)
    (r : NameResolver) (err : Resolver.Error), resolve_function f kind r = .error err →
    Resolver.Raised err
      (r.current_class_type_ = ClassType.NONE ∧ thisOutsideClassFunction f = true)
      (kind = FunctionType.NONE)
  | .mk _ params body, kind, r, err, h => by
    simp only [resolve_function] at h
    rcases (bind_eq_error _ _ _).mp h with h1 | ⟨r1, h1, h2⟩
    · exact declareParams_error params _ err h1 _ _
    · have hf1 := declareParams_sameFrame params _ r1 h1
      rcases (bind_eq_error _ _ _).mp h2 with h3 | ⟨r2, _, h4⟩
      · exact Raised.mono (resolveStatements_error body r1 err h3)
          (fun hc => ⟨hf1.2.1 ▸ hc.1, by simp [thisOutsideClassFunction, hc.2]⟩)
          (fun hc => hf1.1.symm.trans hc.1)
      · cases h4
theorem resolveMethods_error : ∀ (ms : List FunctionStatement) (r : NameResolver)
    (err : Resolver.Error), resolveMethods ms r = .error err →
    Resolver.Raised err (r.current_class_type_ = ClassType.NONE) False
  | [], r, err, h => by simp [resolveMethods] at h
  | m :: ms, r, err, h => by
    simp only [resolveMethods] at h
    rcases (bind_eq_error _ _ _).mp h with h1 | ⟨r1, h1, h2⟩
    · exact Raised.mono (resolve_function_error m FunctionType.METHOD r err h1)
        (fun hc => hc.1) (fun hc => by cases hc)
    · have hf1 := resolve_function_sameFrame m FunctionType.METHOD r r1 h1
      exact Raised.mono (resolveMethods_error ms r1 err h2) (fun hc => hf1.2.1 ▸ hc) id
end

/-! ## Programs that cannot resolve -/

theorem fails_bind_left {ε α β : Type} {x : Except ε α} (f : α → Except ε β)
    (h : ∃ e, x = .error e) : ∃ e, (x >>= f) = .error e := by
  obtain ⟨e, he⟩ := h
  exact ⟨e, by simp [he, bind, Except.bind]⟩

theorem fails_bind_right {ε α β : Type} (x : Except ε α) {f : α → Except ε β}
    (h : ∀ a, x = .ok a → ∃ e, f a = .error e) : ∃ e, (x >>= f) = .error e := by
  cases x with
  | error e => exact ⟨e, rfl⟩
  | ok a => exact h a rfl

mutual
theorem resolveStatement_fails_of_return : ∀ (s : Statement) (r : NameResolver),
    r.current_function_type_ = FunctionType.NONE → returnsOutsideFunction s = true →
    ∃ err, resolveStatement s r = .error err
  | .return_ kw _, r, hnone, _ =>
    ⟨Resolver.error kw.line_ "Can\x27t return from top-level code.",
      by simp [resolveStatement, hnone]⟩
  | .block ss, r, hnone, hret => by
    simp only [resolveStatement]
    exact fails_bind_left _ (resolveStatements_fails_of_return ss r.begin_scope hnone
      (by simpa [returnsOutsideFunction] using hret))
  | .if_ condition then_branch else_branch, r, hnone, hret => by
    rw [resolveStatement_if]
    simp only [returnsOutsideFunction, Bool.or_eq_true] at hret
    refine fails_bind_right _ (fun r1 h1 => ?_)
    have hf1 := resolveExpression_sameFrame condition r r1 h1
    rcases hret with hthen | helse
    · exact fails_bind_left _
        (resolveStatement_fails_of_return then_branch r1 (hf1.1.trans hnone) hthen)
    · refine fails_bind_right _ (fun r2 h2 => ?_)
      have hf2 := resolveStatement_sameFrame then_branch r1 r2 h2
      exact resolveStatement_fails_of_return else_branch r2 (hf2.1.trans (hf1.1.trans hnone)) helse
  | .while_ condition body, r, hnone, hret => by
    simp only [resolveStatement]
    refine fails_bind_right _ (fun r1 h1 => ?_)
    have hf1 := resolveExpression_sameFrame condition r r1 h1
    exact resolveStatement_fails_of_return body r1 (hf1.1.trans hnone)
      (by simpa [returnsOutsideFunction] using hret)
  | .monostate, _, _, hret => by simp [returnsOutsideFunction] at hret
  | .expression _, _, _, hret => by simp [returnsOutsideFunction] at hret
  | .print _, _, _, hret => by simp [returnsOutsideFunction] at hret
  | .variable _ _, _, _, hret => by simp [returnsOutsideFunction] at hret
  | .function _, _, _, hret => by simp [returnsOutsideFunction] at hret
  | .class_ _ _, _, _, hret => by simp [returnsOutsideFunction] at hret
theorem resolveStatements_fails_of_return : ∀ (ss : List Statement) (r : NameResolver),
    r.current_function_type_ = FunctionType.NONE → returnsOutsideFunctionList ss = true →
    ∃ err, resolveStatements ss r = .error err
  | [], _, _, hret => by simp [returnsOutsideFunctionList] at hret
  | s :: ss, r, hnone, hret => by
    simp only [resolveStatements]
    simp only [returnsOutsideFunctionList, Bool.or_eq_true] at hret
    rcases hret with hhead | hrest
    · exact fails_bind_left _ (resolveStatement_fails_of_return s r hnone hhead)
    · refine fails_bind_right _ (fun r1 h1 => ?_)
      have hf1 := resolveStatement_sameFrame s r r1 h1
      exact resolveStatements_fails_of_return ss r1 (hf1.1.trans hnone) hrest
end

mutual
theorem resolveExpression_fails_of_this : ∀ (e : Expression) (r : NameResolver),
    r.current_class_type_ = ClassType.NONE → mentionsThis e = true →
    ∃ err, resolveExpression e r = .error err
  | .this kw, r, hnone, _ =>
    ⟨Resolver.error kw.line_ "Can\x27t use \x27this\x27 outside of a class.",
      by simp [resolveExpression, hnone]⟩
  | .monostate, _, _, hthis => by simp [mentionsThis] at hthis
  | .literal _, _, _, hthis => by simp [mentionsThis] at hthis
  | .variable _, _, _, hthis => by simp [mentionsThis] at hthis
  | .assignment name value, r, hnone, hthis => by
    simp only [resolveExpression]
    exact fails_bind_left _ (resolveExpression_fails_of_this value r hnone
      (by simpa [mentionsThis] using hthis))
  | .binary left _ right, r, hnone, hthis => by
    simp only [resolveExpression]
    simp only [mentionsThis, Bool.or_eq_true] at hthis
    rcases hthis with hl | hr
    · exact fails_bind_left _ (resolveExpression_fails_of_this left r hnone hl)
    · refine fails_bind_right _ (fun r1 h1 => ?_)
      exact resolveExpression_fails_of_this right r1
        ((resolveExpression_scopes left r r1 h1).2.2.trans hnone) hr
  | .call callee _ args, r, hnone, hthis => by
    simp only [resolveExpression]
    simp only [mentionsThis, Bool.or_eq_true] at hthis
    rcases hthis with hl | hr
    · exact fails_bind_left _ (resolveExpression_fails_of_this callee r hnone hl)
    · refine fails_bind_right _ (fun r1 h1 => ?_)
      exact resolveExpressions_fails_of_this args r1
        ((resolveExpression_scopes callee r r1 h1).2.2.trans hnone) hr
  | .get object _, r, hnone, hthis => by
    simp only [resolveExpression]
    exact resolveExpression_fails_of_this object r hnone (by simpa [mentionsThis] using hthis)
  | .grouping e, r, hnone, hthis => by
    simp only [resolveExpression]
    exact resolveExpression_fails_of_this e r hnone (by simpa [mentionsThis] using hthis)
  | .logical left _ right, r, hnone, hthis => by
    simp only [resolveExpression]
    simp only [mentionsThis, Bool.or_eq_true] at hthis
    rcases hthis with hl | hr
    · exact fails_bind_left _ (resolveExpression_fails_of_this left r hnone hl)
    · refine fails_bind_right _ (fun r1 h1 => ?_)
      exact resolveExpression_fails_of_this right r1
        ((resolveExpression_scopes left r r1 h1).2.2.trans hnone) hr
  | .set object _ value, r, hnone, hthis => by
    simp only [resolveExpression]
    simp only [mentionsThis, Bool.or_eq_true] at hthis
    rcases hthis with hl | hr
    · exact fails_bind_left _ (resolveExpression_fails_of_this value r hnone hl)
    · refine fails_bind_right _ (fun r1 h1 => ?_)
      exact resolveExpression_fails_of_this object r1
        ((resolveExpression_scopes value r r1 h1).2.2.trans hnone) hr
  | .unary _ right, r, hnone, hthis => by
    simp only [resolveExpression]
    exact resolveExpression_fails_of_this right r hnone (by simpa [mentionsThis] using hthis)
theorem resolveExpressions_fails_of_this : ∀ (es : List Expression) (r : NameResolver),
    r.current_class_type_ = ClassType.NONE → mentionsThisList es = true →
    ∃ err, resolveExpressions es r = .error err
  | [], _, _, hthis => by simp [mentionsThisList] at hthis
  | e :: es, r, hnone, hthis => by
    simp only [resolveExpressions]
    simp only [mentionsThisList, Bool.or_eq_true] at hthis
    rcases hthis with hl | hr
    · exact fails_bind_left _ (resolveExpression_fails_of_this e r hnone hl)
    · refine fails_bind_right _ (fun r1 h1 => ?_)
      exact resolveExpressions_fails_of_this es r1
        ((resolveExpression_scopes e r r1 h1).2.2.trans hnone) hr
end

mutual
theorem resolveStatement_fails_of_this : ∀ (s : Statement) (r : NameResolver),
    r.current_class_type_ = ClassType.NONE → thisOutsideClass s = true →
    ∃ err, resolveStatement s r = .error err
  | .monostate, _, _, hthis => by simp [thisOutsideClass] at hthis
  | .class_ _ _, _, _, hthis => by simp [thisOutsideClass] at hthis
  | .expression e, r, hnone, hthis => by
    simp only [resolveStatement]
    exact resolveExpression_fails_of_this e r hnone (by simpa [thisOutsideClass] using hthis)
  | .print e, r, hnone, hthis => by
    simp only [resolveStatement]
    exact resolveExpression_fails_of_this e r hnone (by simpa [thisOutsideClass] using hthis)
  | .return_ kw value, r, hnone, hthis => by
    simp only [resolveStatement]
    split
    · exact ⟨_, rfl⟩
    · exact resolveExpression_fails_of_this value r hnone
        (by simpa [thisOutsideClass] using hthis)
  | .variable name init, r, hnone, hthis => by
    simp only [resolveStatement]
    refine fails_bind_right _ (fun r1 h1 => ?_)
    exact fails_bind_left _ (resolveExpression_fails_of_this init r1
      ((declare_sameFrame name r r1 h1).2.1.trans hnone)
      (by simpa [thisOutsideClass] using hthis))
  | .block ss, r, hnone, hthis => by
    simp only [resolveStatement]
    exact fails_bind_left _ (resolveStatements_fails_of_this ss r.begin_scope hnone
      (by simpa [thisOutsideClass] using hthis))
  | .function stmt, r, hnone, hthis => by
    simp only [resolveStatement]
    refine fails_bind_right _ (fun r1 h1 => ?_)
    have hframe := (declare_sameFrame _ r r1 h1).trans (define_sameFrame stmt.name_ r1)
    exact resolve_function_fails_of_this stmt FunctionType.FUNCTION _ (hframe.2.1.trans hnone)
      (by simpa [thisOutsideClass] using hthis)
  | .if_ condition then_branch else_branch, r, hnone, hthis => by
    rw [resolveStatement_if]
    simp only [thisOutsideClass, Bool.or_eq_true] at hthis
    rcases hthis with (hcond | hthen) | helse
    · exact fails_bind_left _ (resolveExpression_fails_of_this condition r hnone hcond)
    · refine fails_bind_right _ (fun r1 h1 => ?_)
      have hf1 := resolveExpression_sameFrame condition r r1 h1
      exact fails_bind_left _
        (resolveStatement_fails_of_this then_branch r1 (hf1.2.1.trans hnone) hthen)
    · refine fails_bind_right _ (fun r1 h1 => ?_)
      have hf1 := resolveExpression_sameFrame condition r r1 h1
      refine fails_bind_right _ (fun r2 h2 => ?_)
      have hf2 := resolveStatement_sameFrame then_branch r1 r2 h2
      exact resolveStatement_fails_of_this else_branch r2
        (hf2.2.1.trans (hf1.2.1.trans hnone)) helse
  | .while_ condition body, r, hnone, hthis => by
    simp only [resolveStatement]
    simp only [thisOutsideClass, Bool.or_eq_true] at hthis
    rcases hthis with hcond | hbody
    · exact fails_bind_left _ (resolveExpression_fails_of_this condition r hnone hcond)
    · refine fails_bind_right _ (fun r1 h1 => ?_)
      have hf1 := resolveExpression_sameFrame condition r r1 h1
      exact resolveStatement_fails_of_this body r1 (hf1.2.1.trans hnone) hbody
theorem resolveStatements_fails_of_this : ∀ (ss : List Statement) (r : NameResolver),
    r.current_class_type_ = ClassType.NONE → thisOutsideClassList ss = true →
    ∃ err, resolveStatements ss r = .error err
  | [], _, _, hthis => by simp [thisOutsideClassList] at hthis
  | s :: ss, r, hnone, hthis => by
    simp only [resolveStatements]
    simp only [thisOutsideClassList, Bool.or_eq_true] at hthis
    rcases hthis with hhead | hrest
    · exact fails_bind_left _ (resolveStatement_fails_of_this s r hnone hhead)
    · refine fails_bind_right _ (fun r1 h1 => ?_)
      have hf1 := resolveStatement_sameFrame s r r1 h1
      exact resolveStatements_fails_of_this ss r1 (hf1.2.1.trans hnone) hrest
theorem resolve_function_fails_of_this : ∀ (f : FunctionStatement) (kind : FunctionType)
    (r : NameResolver), r.current_class_type_ = ClassType.NONE →
    thisOutsideClassFunction f = true → ∃ err, resolve_function f kind r = .error err
  | .mk _ params body, kind, r, hnone, hthis => by
    simp only [resolve_function]
    refine fails_bind_right _ (fun r1 h1 => ?_)
    have hf1 := declareParams_sameFrame params _ r1 h1
    exact fails_bind_left _ (resolveStatements_fails_of_this body r1 (hf1.2.1.trans hnone)
      (by simpa [thisOutsideClassFunction] using hthis))
end

/-! ## Return outside a function, `this` outside a class -/

/-- C5. A return statement resolved with the function flag `NONE` raises
"Can't return from top-level code." at the keyword's line; with any other flag
it raises no such error and its value expression is resolved. The flag is
`NONE` exactly outside function and method bodies: starting from `NONE`, a
statement (or program) that raises this error contains a return outside every
function body, and one that contains such a return never resolves; so does a
return in a top-level block, if or while, and a top-level return after a
completed function declaration, while a return in a function or method body
resolves. -/
theorem return_outside_function :
    (∀ (r : NameResolver) (kw : Token) (value : Expression),
      r.current_function_type_ = FunctionType.NONE →
      resolveStatement (Statement.return_ kw value) r =
        .error (Resolver.error kw.line_ "Can\x27t return from top-level code.")) ∧
    (∀ (r : NameResolver) (kw : Token) (value : Expression),
      r.current_function_type_ ≠ FunctionType.NONE →
      resolveStatement (Statement.return_ kw value) r = resolveExpression value r) ∧
    (∀ (s : Statement) (r : NameResolver) (err : Resolver.Error),
      resolveStatement s r = .error err →
      err.message_ = "Can\x27t return from top-level code." →
      r.current_function_type_ = FunctionType.NONE ∧ returnsOutsideFunction s = true) ∧
    (∀ (program : List Statement) (err : Resolver.Error),
      Resolver.resolve program = .error err →
      err.message_ = "Can\x27t return from top-level code." →
      returnsOutsideFunctionList program = true) ∧
    (∀ (s : Statement) (r : NameResolver),
      r.current_function_type_ = FunctionType.NONE → returnsOutsideFunction s = true →
      ∃ err, resolveStatement s r = .error err) ∧
    (∀ program : List Statement, returnsOutsideFunctionList program = true →
      ∃ err, Resolver.resolve program = .error err) ∧
    (∀ (kw : Token) (value : Expression),
      Resolver.resolve [Statement.block [Statement.return_ kw value]] =
        .error (Resolver.error kw.line_ "Can\x27t return from top-level code.")) ∧
    (∀ (kw : Token) (value : Expression) (condition : Object) (else_branch : Statement),
      Resolver.resolve [Statement.if_ (Expression.literal condition)
        (Statement.return_ kw value) else_branch] =
        .error (Resolver.error kw.line_ "Can\x27t return from top-level code.")) ∧
    (∀ (kw : Token) (value : Expression) (condition : Object),
      Resolver.resolve [Statement.while_ (Expression.literal condition)
        (Statement.return_ kw value)] =
        .error (Resolver.error kw.line_ "Can\x27t return from top-level code.")) ∧
    (∀ (f : FunctionStatement) (r r' : NameResolver) (kw : Token) (value : Expression),
      r.current_function_type_ = FunctionType.NONE →
      resolveStatement (Statement.function f) r = .ok r' →
      resolveStatements [Statement.function f, Statement.return_ kw value] r =
        .error (Resolver.error kw.line_ "Can\x27t return from top-level code.")) ∧
    (∀ (name kw : Token) (value : Object),
      Resolver.resolve [Statement.function
        (FunctionStatement.mk name [] [Statement.return_ kw (Expression.literal value)])] =
        .ok []) ∧
    (∀ (name method kw : Token) (value : Object),
      Resolver.resolve [Statement.class_ name
        [FunctionStatement.mk method [] [Statement.return_ kw (Expression.literal value)]]] =
        .ok []) := by
  have hmsg1 : ¬ ("Can\x27t return from top-level code." =
      "Can\x27t read local variable in its own initializer.") := by decide
  have hmsg2 : ¬ ("Can\x27t return from top-level code." =
      "Already a variable with this name declared in this scope.") := by decide
  have hmsg3 : ¬ ("Can\x27t return from top-level code." =
      "Can\x27t use \x27this\x27 outside of a class.") := by decide
  refine ⟨?_, ?_, ?_, ?_, ?_, ?_, ?_, ?_, ?_, ?_, ?_, ?_⟩
  · intro r kw value hnone
    simp [resolveStatement, hnone]
  · intro r kw value hflag
    simp [resolveStatement, hflag]
  · intro s r err herr hmsg
    rcases resolveStatement_error s r err herr with h | h | ⟨h, _⟩ | ⟨_, hc⟩
    · exact absurd (hmsg.symm.trans h) hmsg1
    · exact absurd (hmsg.symm.trans h) hmsg2
    · exact absurd (hmsg.symm.trans h) hmsg3
    · exact hc
  · intro program err herr hmsg
    simp only [Resolver.resolve] at herr
    rcases (bind_eq_error _ _ _).mp herr with h1 | ⟨_, _, h2⟩
    · rcases resolveStatements_error program _ err h1 with h | h | ⟨h, _⟩ | ⟨_, hc⟩
      · exact absurd (hmsg.symm.trans h) hmsg1
      · exact absurd (hmsg.symm.trans h) hmsg2
      · exact absurd (hmsg.symm.trans h) hmsg3
      · exact hc.2
    · cases h2
  · exact resolveStatement_fails_of_return
  · intro program hret
    simp only [Resolver.resolve]
    exact fails_bind_left _ (resolveStatements_fails_of_return program _ rfl hret)
  · intro kw value
    simp [Resolver.resolve, NameResolver.new, resolveStatements, resolveStatement, begin_scope,
      bind, Except.bind]
  · intro kw value condition else_branch
    rw [Resolver.resolve, resolveStatements, resolveStatement_if]
    simp [NameResolver.new, resolveStatement, resolveExpression, bind, Except.bind]
  · intro kw value condition
    simp [Resolver.resolve, NameResolver.new, resolveStatements, resolveStatement,
      resolveExpression, bind, Except.bind]
  · intro f r r' kw value hnone hf
    have hframe := resolveStatement_sameFrame _ r r' hf
    have hnone' : r'.current_function_type_ = FunctionType.NONE := hframe.1.trans hnone
    simp only [resolveStatements, hf, bind, Except.bind]
    simp [resolveStatement, hnone']
  · intro name kw value
    simp [Resolver.resolve, NameResolver.new, resolveStatements, resolveStatement,
      resolve_function, declareParams, resolveExpression, declare, define, begin_scope,
      end_scope, FunctionStatement.name_, UnorderedMap.find, UnorderedMap.assign,
      bind, Except.bind]
  · intro name method kw value
    simp [Resolver.resolve, NameResolver.new, resolveStatements, resolveStatement,
      resolveMethods, resolve_function, declareParams, resolveExpression, declare, define,
      begin_scope, end_scope, UnorderedMap.find, UnorderedMap.assign, bind, Except.bind]

/-- Witness for C5: `fun f() {} return;` with the return on line 2. -/
theorem return_outside_function_witness :
    resolveStatements
      [Statement.function (FunctionStatement.mk (identifier "f" 1) [] []),
        Statement.return_ (operator TokenType.RETURN "return" 2) Expression.monostate]
      (NameResolver.new []) =
      .error (Resolver.error 2 "Can\x27t return from top-level code.") :=
  return_outside_function.2.2.2.2.2.2.2.2.2.1
    (FunctionStatement.mk (identifier "f" 1) [] []) (NameResolver.new [])
    (NameResolver.mk [[("f", true)]] FunctionType.NONE ClassType.NONE [])
    (operator TokenType.RETURN "return" 2) Expression.monostate rfl rfl

/-- C6. A this-reference resolved with the class flag `NONE` raises "Can't use
'this' outside of a class." at the keyword's line; with the flag `CLASS` it
raises no error and is looked up by `resolve_local`, the scope search of a
variable reference. The flag is `NONE` exactly outside class declarations:
starting from `NONE`, a statement (or program) that raises this error contains
a this-reference outside every class declaration, and one that contains such a
reference never resolves; so does a top-level `this` after a completed class
declaration, while a `this` in a method body resolves, with hop count 1. -/
theorem this_outside_class :
    (∀ (r : NameResolver) (kw : Token), r.current_class_type_ = ClassType.NONE →
      resolveExpression (Expression.this kw) r =
        .error (Resolver.error kw.line_ "Can\x27t use \x27this\x27 outside of a class.")) ∧
    (∀ (r : NameResolver) (kw : Token), r.current_class_type_ ≠ ClassType.NONE →
      resolveExpression (Expression.this kw) r = .ok (r.resolve_local kw)) ∧
    (∀ (s : Statement) (r : NameResolver) (err : Resolver.Error),
      resolveStatement s r = .error err →
      err.message_ = "Can\x27t use \x27this\x27 outside of a class." →
      r.current_class_type_ = ClassType.NONE ∧ thisOutsideClass s = true) ∧
    (∀ (program : List Statement) (err : Resolver.Error),
      Resolver.resolve program = .error err →
      err.message_ = "Can\x27t use \x27this\x27 outside of a class." →
      thisOutsideClassList program = true) ∧
    (∀ (s : Statement) (r : NameResolver),
      r.current_class_type_ = ClassType.NONE → thisOutsideClass s = true →
      ∃ err, resolveStatement s r = .error err) ∧
    (∀ program : List Statement, thisOutsideClassList program = true →
      ∃ err, Resolver.resolve program = .error err) ∧
    (∀ (name kw : Token) (methods : List FunctionStatement) (r r' : NameResolver),
      r.current_class_type_ = ClassType.NONE →
      resolveStatement (Statement.class_ name methods) r = .ok r' →
      resolveStatements [Statement.class_ name methods,
        Statement.expression (Expression.this kw)] r =
        .error (Resolver.error kw.line_ "Can\x27t use \x27this\x27 outside of a class.")) ∧
    (∀ name method kw : Token, kw.lexeme_ = "this" →
      Resolver.resolve [Statement.class_ name
        [FunctionStatement.mk method [] [Statement.expression (Expression.this kw)]]] =
        .ok [(kw, 1)]) := by
  have hmsg1 : ¬ ("Can\x27t use \x27this\x27 outside of a class." =
      "Can\x27t read local variable in its own initializer.") := by decide
  have hmsg2 : ¬ ("Can\x27t use \x27this\x27 outside of a class." =
      "Already a variable with this name declared in this scope.") := by decide
  have hmsg3 : ¬ ("Can\x27t use \x27this\x27 outside of a class." =
      "Can\x27t return from top-level code.") := by decide
  refine ⟨?_, ?_, ?_, ?_, ?_, ?_, ?_, ?_⟩
  · intro r kw hnone
    simp [resolveExpression, hnone]
  · intro r kw hflag
    simp [resolveExpression, hflag]
  · intro s r err herr hmsg
    rcases resolveStatement_error s r err herr with h | h | ⟨_, hc⟩ | ⟨h, _⟩
    · exact absurd (hmsg.symm.trans h) hmsg1
    · exact absurd (hmsg.symm.trans h) hmsg2
    · exact hc
    · exact absurd (hmsg.symm.trans h) hmsg3
  · intro program err herr hmsg
    simp only [Resolver.resolve] at herr
    rcases (bind_eq_error _ _ _).mp herr with h1 | ⟨_, _, h2⟩
    · rcases resolveStatements_error program _ err h1 with h | h | ⟨_, hc⟩ | ⟨h, _⟩
      · exact absurd (hmsg.symm.trans h) hmsg1
      · exact absurd (hmsg.symm.trans h) hmsg2
      · exact hc.2
      · exact absurd (hmsg.symm.trans h) hmsg3
    · cases h2
  · exact resolveStatement_fails_of_this
  · intro program hthis
    simp only [Resolver.resolve]
    exact fails_bind_left _ (resolveStatements_fails_of_this program _ rfl hthis)
  · intro name kw methods r r' hnone hclass
    have hframe := resolveStatement_sameFrame _ r r' hclass
    have hnone' : r'.current_class_type_ = ClassType.NONE := hframe.2.1.trans hnone
    simp only [resolveStatements, hclass, bind, Except.bind]
    simp [resolveStatement, resolveExpression, hnone']
  · intro name method kw hlex
    simp [Resolver.resolve, NameResolver.new, resolveStatements, resolveStatement,
      resolveMethods, resolve_function, declareParams, resolveExpression, declare, define,
      begin_scope, end_scope, resolve_local, resolve_local_loop, UnorderedMap.find,
      UnorderedMap.assign, hlex, bind, Except.bind]

/-- Witness for C6: `class C {} this;` with `this` on line 2. -/
theorem this_outside_class_witness :
    resolveStatements
      [Statement.class_ (identifier "C" 1) [],
        Statement.expression (Expression.this (operator TokenType.THIS "this" 2))]
      (NameResolver.new []) =
      .error (Resolver.error 2 "Can\x27t use \x27this\x27 outside of a class.") :=
  this_outside_class.2.2.2.2.2.2.1 (identifier "C" 1) (operator TokenType.THIS "this" 2) []
    (NameResolver.new []) (NameResolver.mk [[("C", true)]] FunctionType.NONE ClassType.NONE [])
    rfl rfl

end NameResolver


namespace Interpreter

/-! ## Operators of the evaluator -/

theorem double_ne_eq_not_eq (a b : Double) : Double.ne a b = !Double.eq a b := by
  unfold Double.ne Double.eq
  cases a.isNaN <;> cases b.isNaN <;> cases (a.isZero && b.isZero) <;> simp

theorem variant_ne_eq_not_eq (v w : Object) : variant_ne v w = !variant_eq v w := by
  cases v <;> cases w <;> simp [variant_ne, variant_eq, index, double_ne_eq_not_eq, bne]

/-- The number check of the arithmetic and comparison operators, on operands
that evaluate to `vl` and `vr`: the runtime error "Operands must be numbers."
is raised when neither operand is a number, a value is returned when both are,
and `std::bad_variant_access` escapes when exactly one is. -/
theorem binary_number_check (ops : DoubleOps) (left right : Expression) (op : Token)
    (vl vr : Object)
    (hop : op.type_ ∈ [TokenType.MINUS, TokenType.SLASH, TokenType.STAR, TokenType.GREATER,
      TokenType.GREATER_EQUAL, TokenType.LESS, TokenType.LESS_EQUAL])
    (hl : visit ops left = .ok vl) (hr : visit ops right = .ok vr) :
    (holds_double vl = false → holds_double vr = false →
      visit ops (Expression.binary left op right) =
        .error (Exception.RuntimeError op "Operands must be numbers.")) ∧
    (holds_double vl = true → holds_double vr = true →
      ∃ v, visit ops (Expression.binary left op right) = .ok v) ∧
    (holds_double vl ≠ holds_double vr →
      visit ops (Expression.binary left op right) = .error Exception.bad_variant_access) := by
  simp only [List.mem_cons, List.mem_singleton, List.mem_nil_iff, or_false] at hop
  refine ⟨?_, ?_, ?_⟩
  · intro h1 h2
    rcases hop with h | h | h | h | h | h | h <;>
      simp [visit, hl, hr, h, check_number_operand, h1, h2, bind, Except.bind]
  · intro h1 h2
    cases vl <;> simp [holds_double] at h1
    cases vr <;> simp [holds_double] at h2
    rcases hop with h | h | h | h | h | h | h <;>
      simp [visit, hl, hr, h, check_number_operand, holds_double, get_double, bind, Except.bind]
  · intro hne
    cases vl <;> cases vr <;> simp [holds_double] at hne <;>
      rcases hop with h | h | h | h | h | h | h <;>
      simp [visit, hl, hr, h, check_number_operand, holds_double, get_double, bind, Except.bind]

/-- C7 (the code at the failing inputs). For `"a" - 1` and `true < 1` the
check of `check_number_operand` passes, because one operand is a number, and
the following `std::get<double>` on the other operand throws
`std::bad_variant_access`: no `RuntimeError` with "Operands must be numbers."
is raised. -/
theorem binary_mixed_operands_bad_variant_access (ops : DoubleOps) :
    visit ops (Expression.binary (Expression.literal (Object.string "a"))
      (operator TokenType.MINUS "-" 1) (Expression.literal (Object.number Double.one))) =
      .error Exception.bad_variant_access ∧
    visit ops (Expression.binary (Expression.literal (Object.bool true))
      (operator TokenType.LESS "<" 1) (Expression.literal (Object.number Double.one))) =
      .error Exception.bad_variant_access := by
  constructor <;> rfl

/-- C8. Binary `+` on operands that evaluate to `vl` and `vr`: two numbers give
the number that is their sum, two strings give the left string followed by the
right one, and every other combination raises the runtime error "Operands must
be two numbers or two strings." on the operator token. -/
theorem binary_plus (ops : DoubleOps) (left right : Expression) (op : Token) (vl vr : Object)
    (hop : op.type_ = TokenType.PLUS)
    (hl : visit ops left = .ok vl) (hr : visit ops right = .ok vr) :
    (∀ a b, vl = Object.number a → vr = Object.number b →
      visit ops (Expression.binary left op right) = .ok (Object.number (ops.add a b))) ∧
    (∀ s t, vl = Object.string s → vr = Object.string t →
      visit ops (Expression.binary left op right) = .ok (Object.string (s ++ t))) ∧
    (¬ (holds_double vl = true ∧ holds_double vr = true) →
      ¬ (holds_string vl = true ∧ holds_string vr = true) →
      visit ops (Expression.binary left op right) =
        .error (Exception.RuntimeError op "Operands must be two numbers or two strings.")) := by
  refine ⟨?_, ?_, ?_⟩
  · intro a b ha hb
    subst ha hb
    simp [visit, hl, hr, hop, holds_double, get_double, bind, Except.bind]
  · intro s t hs ht
    subst hs ht
    simp [visit, hl, hr, hop, holds_double, holds_string, get_string, bind, Except.bind]
  · intro hnum hstr
    cases vl <;> cases vr <;>
      simp_all [visit, holds_double, holds_string, bind, Except.bind]

/-- Witness for C8: `"a" + "b"` gives `"ab"`. -/
theorem binary_plus_witness :
    visit DoubleOps.sample (Expression.binary (Expression.literal (Object.string "a"))
      (operator TokenType.PLUS "+" 1) (Expression.literal (Object.string "b"))) =
      .ok (Object.string ("a" ++ "b")) :=
  (binary_plus DoubleOps.sample (Expression.literal (Object.string "a")) (Expression.literal (Object.string "b"))
    (operator TokenType.PLUS "+" 1) (Object.string "a") (Object.string "b") rfl rfl rfl).2.1
    "a" "b" rfl rfl

/-- C9. `==` and `!=` on operands that evaluate to `vl` and `vr` never raise:
both return a boolean, the result of `!=` being the negation of the result `e`
of `==`; values of different kinds are unequal, nil equals nil, and two
booleans or two strings are equal exactly when they hold the same value. -/
theorem equality_operators (ops : DoubleOps) (left right : Expression) (eq_op ne_op : Token)
    (vl vr : Object)
    (heq : eq_op.type_ = TokenType.EQUAL_EQUAL) (hne : ne_op.type_ = TokenType.BANG_EQUAL)
    (hl : visit ops left = .ok vl) (hr : visit ops right = .ok vr) :
    ∃ e : Bool,
      visit ops (Expression.binary left eq_op right) = .ok (Object.bool e) ∧
      visit ops (Expression.binary left ne_op right) = .ok (Object.bool (!e)) ∧
      (index vl ≠ index vr → e = false) ∧
      (vl = Object.monostate → vr = Object.monostate → e = true) ∧
      (∀ a b, vl = Object.bool a → vr = Object.bool b → (e = true ↔ a = b)) ∧
      (∀ s t, vl = Object.string s → vr = Object.string t → (e = true ↔ s = t)) := by
  refine ⟨variant_eq vl vr, ?_, ?_, ?_, ?_, ?_, ?_⟩
  · simp [visit, hl, hr, heq, bind, Except.bind]
  · simp [visit, hl, hr, hne, bind, Except.bind, variant_ne_eq_not_eq]
  · intro hindex
    simp [variant_eq, hindex]
  · intro h1 h2
    subst h1 h2
    simp [variant_eq, index]
  · intro a b h1 h2
    subst h1 h2
    simp [variant_eq, index]
  · intro s t h1 h2
    subst h1 h2
    simp [variant_eq, index]

/-- Witness for C9: `nil == false` is false and `nil != false` is true. -/
theorem equality_operators_witness :
    ∃ e : Bool,
      visit DoubleOps.sample (Expression.binary (Expression.literal Object.monostate)
        (operator TokenType.EQUAL_EQUAL "==" 1) (Expression.literal (Object.bool false))) =
        .ok (Object.bool e) ∧
      visit DoubleOps.sample (Expression.binary (Expression.literal Object.monostate)
        (operator TokenType.BANG_EQUAL "!=" 1) (Expression.literal (Object.bool false))) =
        .ok (Object.bool (!e)) ∧
      e = false :=
  let ⟨e, h1, h2, h3, _⟩ := equality_operators DoubleOps.sample
    (Expression.literal Object.monostate) (Expression.literal (Object.bool false))
    (operator TokenType.EQUAL_EQUAL "==" 1) (operator TokenType.BANG_EQUAL "!=" 1)
    Object.monostate (Object.bool false) rfl rfl rfl rfl
  ⟨e, h1, h2, h3 (by decide)⟩

/-- C10. Unary `-` on an operand that evaluates to `v`: a number `d` gives the
negated number, which is `d` with the sign bit flipped and the exponent and
fraction bits kept, so a different double, and negating once more gives `d`
back; nil, a boolean or a string raises the runtime error "Operand must be a
number." (the one-operand message) on the operator token. With the single
operand the test of `check_number_operand` is the test of that operand, whether
it is read with `all_of` or `any_of`. -/
theorem unary_minus (ops : DoubleOps) (right : Expression) (op : Token) (v : Object)
    (hop : op.type_ = TokenType.MINUS) (hr : visit ops right = .ok v) :
    (∀ d, v = Object.number d →
      visit ops (Expression.unary op right) = .ok (Object.number (Double.neg d)) ∧
      visit ops (Expression.unary op right) =
        .ok (Object.number ⟨!d.sign, d.exponent, d.fraction⟩) ∧
      visit ops (Expression.unary op right) ≠ .ok (Object.number d) ∧
      (∀ outer : Token, outer.type_ = TokenType.MINUS →
        visit ops (Expression.unary outer (Expression.unary op right)) =
          .ok (Object.number d))) ∧
    ((v = Object.monostate ∨ (∃ b, v = Object.bool b) ∨ (∃ s, v = Object.string s)) →
      visit ops (Expression.unary op right) =
        .error (Exception.RuntimeError op "Operand must be a number.")) ∧
    (List.all [v] (fun obj => !holds_double obj) = List.any [v] (fun obj => !holds_double obj) ∧
      (check_number_operand op [v] = .ok () ↔ holds_double v = true)) := by
  refine ⟨?_, ?_, ?_, ?_⟩
  · intro d hd
    subst hd
    have hneg : visit ops (Expression.unary op right) = .ok (Object.number (Double.neg d)) := by
      simp [visit, hr, hop, check_number_operand, holds_double, get_double, bind, Except.bind]
    refine ⟨hneg, ?_, ?_, ?_⟩
    · rw [hneg]
      rfl
    · rw [hneg]
      intro h
      simp only [Except.ok.injEq, Object.number.injEq] at h
      have hsign := congrArg Double.sign h
      simp only [Double.neg] at hsign
      cases hb : d.sign <;> simp [hb] at hsign
    · intro outer houter
      have hback : Double.neg (Double.neg d) = d := by
        cases d
        simp [Double.neg]
      simp [visit, hr, hop, houter, check_number_operand, holds_double, get_double, bind,
        Except.bind, hback]
  · intro hkind
    rcases hkind with h | ⟨b, h⟩ | ⟨s, h⟩ <;> subst h <;>
      simp [visit, hr, hop, check_number_operand, holds_double, bind, Except.bind]
  · simp
  · cases hv : holds_double v <;> simp [check_number_operand, hv]

/-- Witness for C10: `-1.0` is the double with the sign bit set and the bits of
1.0, and `-"a"` raises the one-operand message. -/
theorem unary_minus_witness :
    visit DoubleOps.sample (Expression.unary (operator TokenType.MINUS "-" 3)
      (Expression.literal (Object.number Double.one))) =
      .ok (Object.number ⟨!Double.one.sign, Double.one.exponent, Double.one.fraction⟩) ∧
    visit DoubleOps.sample (Expression.unary (operator TokenType.MINUS "-" 3)
      (Expression.literal (Object.string "a"))) =
      .error (Exception.RuntimeError (operator TokenType.MINUS "-" 3)
        "Operand must be a number.") :=
  ⟨((unary_minus DoubleOps.sample (Expression.literal (Object.number Double.one))
      (operator TokenType.MINUS "-" 3) (Object.number Double.one) rfl rfl).1
      Double.one rfl).2.1,
    (unary_minus DoubleOps.sample (Expression.literal (Object.string "a"))
      (operator TokenType.MINUS "-" 3) (Object.string "a") rfl rfl).2.1
      (Or.inr (Or.inr ⟨"a", rfl⟩))⟩

/-- C11. Unary `!` on an operand that evaluates to `v` never raises and
returns a boolean `b`: `b` is true exactly when `v` is nil or the boolean
false, so it is false for the number 0 and for the empty string; applying `!`
again gives the negation of `b`, which is the truthiness of `v`. -/
theorem unary_bang (ops : DoubleOps) (right : Expression) (op outer : Token) (v : Object)
    (hop : op.type_ = TokenType.BANG) (houter : outer.type_ = TokenType.BANG)
    (hr : visit ops right = .ok v) :
    ∃ b : Bool,
      visit ops (Expression.unary op right) = .ok (Object.bool b) ∧
      (b = true ↔ v = Object.monostate ∨ v = Object.bool false) ∧
      (v = Object.number Double.zero → b = false) ∧
      (v = Object.string "" → b = false) ∧
      visit ops (Expression.unary outer (Expression.unary op right)) = .ok (Object.bool (!b)) ∧
      (!b) = is_truthy v := by
  have hne : ¬ (TokenType.BANG = TokenType.MINUS) := by decide
  have hfirst : visit ops (Expression.unary op right) = .ok (Object.bool (!is_truthy v)) := by
    simp [visit, hr, hop, hne, bind, Except.bind]
  refine ⟨!is_truthy v, hfirst, ?_, ?_, ?_, ?_, ?_⟩
  · cases v with
    | monostate => simp [is_truthy]
    | bool b => cases b <;> simp [is_truthy]
    | number d => simp [is_truthy]
    | string s => simp [is_truthy]
  · intro h; subst h; rfl
  · intro h; subst h; rfl
  · rw [visit, hfirst]
    simp [houter, hne, is_truthy, bind, Except.bind]
  · simp

/-- Witness for C11: `!0` is false and `!!0` is true. -/
theorem unary_bang_witness :
    ∃ b : Bool,
      visit DoubleOps.sample (Expression.unary (operator TokenType.BANG "!" 1)
        (Expression.literal (Object.number Double.zero))) = .ok (Object.bool b) ∧
      b = false ∧
      visit DoubleOps.sample (Expression.unary (operator TokenType.BANG "!" 1)
        (Expression.unary (operator TokenType.BANG "!" 1)
          (Expression.literal (Object.number Double.zero)))) = .ok (Object.bool (!b)) :=
  let ⟨b, h1, _, h3, _, h5, _⟩ := unary_bang DoubleOps.sample
    (Expression.literal (Object.number Double.zero)) (operator TokenType.BANG "!" 1)
    (operator TokenType.BANG "!" 1) (Object.number Double.zero) rfl rfl rfl
  ⟨b, h1, h3 rfl, h5⟩

end Interpreter

/-! ## Error reports -/

theorem report_text (cerr head : String) (line : Nat) (message : String) :
    ostream_char
      (ostream_string (ostream_string (ostream_size_t (ostream_string cerr "[line ") line) head)
        message)
      (Char.ofNat 10) =
      cerr ++ ("[line " ++ Nat.repr line ++ head ++ message ++ "\n") := by
  simp only [ostream_char, ostream_string, ostream_size_t, String.push]
  apply String.ext
  simp [String.append]

/-- C12. For every line `L` and message `m`, reporting a resolver error
appends exactly `[line L] Resolver error: m` and a newline to the error
stream, and reporting a runtime error appends exactly `[line L] m` and a
newline, `L` being the stored line in decimal; on an empty stream that text is
the whole output. -/
theorem report_format (line : Nat) (message : String) :
    (∀ cerr : String, (Resolver.error line message).report cerr =
      cerr ++ ("[line " ++ Nat.repr line ++ "] Resolver error: " ++ message ++ "\n")) ∧
    (∀ cerr : String, (RuntimeError.mk line message).report cerr =
      cerr ++ ("[line " ++ Nat.repr line ++ "] " ++ message ++ "\n")) ∧
    (Resolver.error line message).report "" =
      "[line " ++ Nat.repr line ++ "] Resolver error: " ++ message ++ "\n" ∧
    (RuntimeError.mk line message).report "" =
      "[line " ++ Nat.repr line ++ "] " ++ message ++ "\n" ∧
    (Resolver.error 12 "Can\x27t return from top-level code.").report "" =
      "[line 12] Resolver error: Can\x27t return from top-level code.\n" ∧
    (RuntimeError.mk 3 "Operand must be a number.").report "" =
      "[line 3] Operand must be a number.\n" := by
  have h1 : ∀ cerr : String, (Resolver.error line message).report cerr =
      cerr ++ ("[line " ++ Nat.repr line ++ "] Resolver error: " ++ message ++ "\n") :=
    fun cerr => report_text cerr "] Resolver error: " line message
  have h2 : ∀ cerr : String, (RuntimeError.mk line message).report cerr =
      cerr ++ ("[line " ++ Nat.repr line ++ "] " ++ message ++ "\n") :=
    fun cerr => report_text cerr "] " line message
  refine ⟨h1, h2, ?_, ?_, ?_, ?_⟩
  · rw [h1]; simp
  · rw [h2]; simp
  · decide
  · decide

namespace NameResolver

/-! ## Scope-stack balance and flag restoration -/

theorem Extends.of_same_scopes {r r' : NameResolver} (h : r'.scopes_ = r.scopes_) :
    Extends r r' := by
  cases hs : r.scopes_ with
  | nil => exact Or.inl ⟨hs, by rw [h, hs]⟩
  | cons scope rest => exact Or.inr ⟨scope, scope, rest, hs, by rw [h, hs], fun _ _ hk => hk⟩

theorem Extends.same (r : NameResolver) : Extends r r := Extends.of_same_scopes rfl

theorem Extends.chain {a b c : NameResolver} (hab : Extends a b) (hbc : Extends b c) :
    Extends a c := by
  rcases hab with ⟨ha, hb⟩ | ⟨s, s', rest, ha, hb, hext⟩
  · rcases hbc with ⟨_, hc⟩ | ⟨t, _, _, hb', _, _⟩
    · exact Or.inl ⟨ha, hc⟩
    · rw [hb] at hb'; cases hb'
  · rcases hbc with ⟨hb', _⟩ | ⟨t, t', rest', hb', hc, hext'⟩
    · rw [hb] at hb'; cases hb'
    · rw [hb] at hb'
      cases hb'
      exact Or.inr ⟨s, t', rest, ha, hc, fun k b hk => hext' k b (hext k b hk)⟩

theorem declare_define_extends (name : Token) (r r1 r2 : NameResolver)
    (h1 : r.declare name = .ok r1) (h2 : r2.scopes_ = r1.scopes_) :
    Extends r (r2.define name) := by
  unfold declare at h1
  split at h1
  · rename_i hs
    cases h1
    exact Or.inl ⟨hs, by simp [define, h2, hs]⟩
  · rename_i scope rest hs
    split at h1
    · cases h1
    · rename_i hfound
      cases h1
      simp only at h2
      refine Or.inr ⟨scope, (scope.assign name.lexeme_ false).assign name.lexeme_ true, rest, hs,
        by simp [define, h2], ?_⟩
      intro key defined hkey
      have hne : key ≠ name.lexeme_ := by
        intro heq
        rw [heq] at hkey
        simp [hkey] at hfound
      rw [UnorderedMap.find_assign_of_ne _ _ _ _ hne, UnorderedMap.find_assign_of_ne _ _ _ _ hne]
      exact hkey

theorem resolveStatement_block_scopes (ss : List Statement) (r r' : NameResolver)
    (h : resolveStatement (Statement.block ss) r = .ok r') : r'.scopes_ = r.scopes_ := by
  simp only [resolveStatement] at h
  obtain ⟨r1, h1, h⟩ := (bind_eq_ok _ _ _).mp h
  cases h
  have ht := (resolveStatements_sameFrame ss r.begin_scope r1 h1).2.2.1
  simpa [end_scope, begin_scope] using ht

theorem resolve_function_scopes (f : FunctionStatement) (kind : FunctionType)
    (r r' : NameResolver) (h : resolve_function f kind r = .ok r') : r'.scopes_ = r.scopes_ := by
  cases f with
  | mk name params body =>
    simp only [resolve_function] at h
    obtain ⟨r1, h1, h⟩ := (bind_eq_ok _ _ _).mp h
    obtain ⟨r2, h2, h⟩ := (bind_eq_ok _ _ _).mp h
    cases h
    have ht := ((declareParams_sameFrame params _ r1 h1).trans
      (resolveStatements_sameFrame body r1 r2 h2)).2.2.1
    simpa [end_scope, begin_scope] using ht

theorem resolveMethods_scopes : ∀ (ms : List FunctionStatement) (r r' : NameResolver),
    resolveMethods ms r = .ok r' → r'.scopes_ = r.scopes_
  | [], r, r', h => by
    simp only [resolveMethods, Except.ok.injEq] at h
    subst h; rfl
  | m :: ms, r, r', h => by
    simp only [resolveMethods] at h
    obtain ⟨r1, h1, h⟩ := (bind_eq_ok _ _ _).mp h
    exact (resolveMethods_scopes ms r1 r' h).trans (resolve_function_scopes m _ r r1 h1)

theorem resolveStatement_function_scopes (f : FunctionStatement) (r r' : NameResolver)
    (h : resolveStatement (Statement.function f) r = .ok r') :
    ∃ r1, r.declare f.name_ = .ok r1 ∧ r'.scopes_ = (r1.define f.name_).scopes_ := by
  simp only [resolveStatement] at h
  obtain ⟨r1, h1, h⟩ := (bind_eq_ok _ _ _).mp h
  exact ⟨r1, h1, resolve_function_scopes f _ _ r' h⟩

theorem resolveStatement_class_scopes (name : Token) (methods : List FunctionStatement)
    (r r' : NameResolver) (h : resolveStatement (Statement.class_ name methods) r = .ok r') :
    ∃ r1, ({ r with current_class_type_ := ClassType.CLASS } : NameResolver).declare name = .ok r1 ∧
      r'.scopes_ = (r1.define name).scopes_ := by
  simp only [resolveStatement] at h
  obtain ⟨r1, h1, h⟩ := (bind_eq_ok _ _ _).mp h
  obtain ⟨r2, h2, h⟩ := (bind_eq_ok _ _ _).mp h
  cases h
  refine ⟨r1, h1, ?_⟩
  have hs := resolveMethods_scopes methods _ r2 h2
  simp only [end_scope, hs, begin_scope, List.tail_cons]

theorem resolveStatement_extends : ∀ (s : Statement) (r r' : NameResolver),
    resolveStatement s r = .ok r' → Extends r r'
  | .monostate, r, r', h => by
    simp only [resolveStatement, Except.ok.injEq] at h
    subst h; exact Extends.same r
  | .expression e, r, r', h => by
    simp only [resolveStatement] at h
    exact Extends.of_same_scopes (resolveExpression_scopes e r r' h).1
  | .print e, r, r', h => by
    simp only [resolveStatement] at h
    exact Extends.of_same_scopes (resolveExpression_scopes e r r' h).1
  | .return_ _ value, r, r', h => by
    simp only [resolveStatement] at h
    split at h
    · cases h
    · exact Extends.of_same_scopes (resolveExpression_scopes value r r' h).1
  | .variable name init, r, r', h => by
    simp only [resolveStatement] at h
    obtain ⟨r1, h1, h⟩ := (bind_eq_ok _ _ _).mp h
    obtain ⟨r2, h2, h⟩ := (bind_eq_ok _ _ _).mp h
    cases h
    exact declare_define_extends name r r1 r2 h1 (resolveExpression_scopes init r1 r2 h2).1
  | .block ss, r, r', h => Extends.of_same_scopes (resolveStatement_block_scopes ss r r' h)
  | .function f, r, r', h => by
    obtain ⟨r1, h1, hs⟩ := resolveStatement_function_scopes f r r' h
    exact (declare_define_extends f.name_ r r1 r1 h1 rfl).chain (Extends.of_same_scopes hs)
  | .class_ name methods, r, r', h => by
    obtain ⟨r1, h1, hs⟩ := resolveStatement_class_scopes name methods r r' h
    have hd := declare_define_extends name _ r1 r1 h1 rfl
    exact (Extends.chain (Extends.of_same_scopes rfl) hd).chain (Extends.of_same_scopes hs)
  | .if_ condition then_branch else_branch, r, r', h => by
    rw [resolveStatement_if] at h
    obtain ⟨r1, h1, h⟩ := (bind_eq_ok _ _ _).mp h
    obtain ⟨r2, h2, h⟩ := (bind_eq_ok _ _ _).mp h
    exact ((Extends.of_same_scopes (resolveExpression_scopes condition r r1 h1).1).chain
      (resolveStatement_extends then_branch r1 r2 h2)).chain
      (resolveStatement_extends else_branch r2 r' h)
  | .while_ condition body, r, r', h => by
    simp only [resolveStatement] at h
    obtain ⟨r1, h1, h⟩ := (bind_eq_ok _ _ _).mp h
    exact (Extends.of_same_scopes (resolveExpression_scopes condition r r1 h1).1).chain
      (resolveStatement_extends body r1 r' h)

theorem resolveStatements_extends : ∀ (ss : List Statement) (r r' : NameResolver),
    resolveStatements ss r = .ok r' → Extends r r'
  | [], r, r', h => by
    simp only [resolveStatements, Except.ok.injEq] at h
    subst h; exact Extends.same r
  | s :: ss, r, r', h => by
    simp only [resolveStatements] at h
    obtain ⟨r1, h1, h⟩ := (bind_eq_ok _ _ _).mp h
    exact (resolveStatement_extends s r r1 h1).chain (resolveStatements_extends ss r1 r' h)

end NameResolver

namespace NameResolver

/-- C13. When resolving a statement completes without error, the scope stack
has the same depth as before, the scopes below the innermost one are the same,
and the innermost scope keeps every binding it had (it may only have gained
names). Scopes are opened and closed in LIFO order: the scope a block opens is
the innermost one when the block's statements are done and the block leaves
the stack exactly as it found it, as do `resolve_function` and the loop over
the methods of a class; a function or class statement leaves the stack as it
was after declaring and defining its name. -/
theorem scope_stack_balance (s : Statement) (r r' : NameResolver)
    (h : resolveStatement s r = .ok r') :
    r'.scopes_.length = r.scopes_.length ∧
    r'.scopes_.tail = r.scopes_.tail ∧
    (∀ scope rest, r.scopes_ = scope :: rest →
      ∃ scope', r'.scopes_ = scope' :: rest ∧
        ∀ key defined, scope.find key = some defined → scope'.find key = some defined) ∧
    (∀ ss, s = Statement.block ss →
      ∃ r1 opened, resolveStatements ss r.begin_scope = .ok r1 ∧
        r1.scopes_ = opened :: r.scopes_ ∧ r' = r1.end_scope ∧ r'.scopes_ = r.scopes_) ∧
    (∀ f, s = Statement.function f →
      ∃ r1, r.declare f.name_ = .ok r1 ∧ r'.scopes_ = (r1.define f.name_).scopes_) ∧
    (∀ name methods, s = Statement.class_ name methods →
      ∃ r1, ({ r with current_class_type_ := ClassType.CLASS } : NameResolver).declare name =
          .ok r1 ∧ r'.scopes_ = (r1.define name).scopes_) ∧
    (∀ (f : FunctionStatement) (kind : FunctionType) (q q' : NameResolver),
      resolve_function f kind q = .ok q' → q'.scopes_ = q.scopes_) ∧
    (∀ (ms : List FunctionStatement) (q q' : NameResolver),
      resolveMethods ms q = .ok q' → q'.scopes_ = q.scopes_) := by
  have hframe := resolveStatement_sameFrame s r r' h
  refine ⟨hframe.2.2.2, hframe.2.2.1, ?_, ?_, ?_, ?_, resolve_function_scopes,
    resolveMethods_scopes⟩
  · intro scope rest hs
    rcases resolveStatement_extends s r r' h with ⟨hnil, _⟩ | ⟨t, t', rest', ht, ht', hext⟩
    · rw [hs] at hnil; cases hnil
    · rw [hs] at ht
      cases ht
      exact ⟨t', ht', hext⟩
  · intro ss hblock
    subst hblock
    have hscopes := resolveStatement_block_scopes ss r r' h
    simp only [resolveStatement] at h
    obtain ⟨r1, h1, h2⟩ := (bind_eq_ok _ _ _).mp h
    cases h2
    have hf := resolveStatements_sameFrame ss r.begin_scope r1 h1
    have hlen : r1.scopes_.length = r.scopes_.length + 1 := by
      simpa [begin_scope] using hf.2.2.2
    have htail : r1.scopes_.tail = r.scopes_ := by
      simpa [begin_scope] using hf.2.2.1
    cases hr1 : r1.scopes_ with
    | nil => rw [hr1] at hlen; simp at hlen
    | cons opened rest =>
      rw [hr1] at htail
      simp only [List.tail_cons] at htail
      exact ⟨r1, opened, h1, by rw [hr1, htail], rfl, hscopes⟩
  · intro f hfun
    subst hfun
    exact resolveStatement_function_scopes f r r' h
  · intro name methods hclass
    subst hclass
    exact resolveStatement_class_scopes name methods r r' h

/-- Witness for C13: `{ var a; }` inside a function body scope. -/
theorem scope_stack_balance_witness :
    (NameResolver.mk [[("p", true)], [("f", true)]] FunctionType.FUNCTION ClassType.NONE
      []).scopes_.length = 2 ∧
    (NameResolver.mk [[("p", true)], [("f", true)]] FunctionType.FUNCTION ClassType.NONE
      []).scopes_.tail = [[("f", true)]] :=
  have h := scope_stack_balance
    (Statement.block [Statement.variable (identifier "a" 1) Expression.monostate])
    (NameResolver.mk [[("p", true)], [("f", true)]] FunctionType.FUNCTION ClassType.NONE [])
    (NameResolver.mk [[("p", true)], [("f", true)]] FunctionType.FUNCTION ClassType.NONE [])
    rfl
  ⟨h.1, h.2.1⟩

/-- C14. When resolving a statement completes without error, the
enclosing-function-kind flag and the enclosing-class-kind flag have the values
they had before; the same holds for a statement list, for `resolve_function`
with any kind (so for functions nested in functions and for methods inside a
function) and for the methods of a class (so for classes nested in methods). -/
theorem flags_restored (s : Statement) (r r' : NameResolver)
    (h : resolveStatement s r = .ok r') :
    r'.current_function_type_ = r.current_function_type_ ∧
    r'.current_class_type_ = r.current_class_type_ ∧
    (∀ (ss : List Statement) (q q' : NameResolver), resolveStatements ss q = .ok q' →
      q'.current_function_type_ = q.current_function_type_ ∧
      q'.current_class_type_ = q.current_class_type_) ∧
    (∀ (f : FunctionStatement) (kind : FunctionType) (q q' : NameResolver),
      resolve_function f kind q = .ok q' →
      q'.current_function_type_ = q.current_function_type_ ∧
      q'.current_class_type_ = q.current_class_type_) ∧
    (∀ (ms : List FunctionStatement) (q q' : NameResolver), resolveMethods ms q = .ok q' →
      q'.current_function_type_ = q.current_function_type_ ∧
      q'.current_class_type_ = q.current_class_type_) :=
  have hframe := resolveStatement_sameFrame s r r' h
  ⟨hframe.1, hframe.2.1,
    fun ss q q' hq => let hf := resolveStatements_sameFrame ss q q' hq; ⟨hf.1, hf.2.1⟩,
    fun f kind q q' hq => let hf := resolve_function_sameFrame f kind q q' hq; ⟨hf.1, hf.2.1⟩,
    fun ms q q' hq => let hf := resolveMethods_sameFrame ms q q' hq; ⟨hf.1, hf.2.1⟩⟩

/-- Witness for C14: `fun f() { class C { m() { fun g() { return; } } } }`
resolved at the top level leaves both flags `NONE`. -/
theorem flags_restored_witness :
    (NameResolver.mk [[("f", true)]] FunctionType.NONE ClassType.NONE []).current_function_type_ =
      (NameResolver.new []).current_function_type_ ∧
    (NameResolver.mk [[("f", true)]] FunctionType.NONE ClassType.NONE []).current_class_type_ =
      (NameResolver.new []).current_class_type_ :=
  have h := flags_restored
    (Statement.function (FunctionStatement.mk (identifier "f" 1) []
      [Statement.class_ (identifier "C" 1)
        [FunctionStatement.mk (identifier "m" 1) []
          [Statement.function (FunctionStatement.mk (identifier "g" 1) []
            [Statement.return_ (operator TokenType.RETURN "return" 1) Expression.monostate])]]]))
    (NameResolver.new [])
    (NameResolver.mk [[("f", true)]] FunctionType.NONE ClassType.NONE [])
    rfl
  ⟨h.1, h.2.1⟩

end NameResolver

namespace NameResolver

/-! ## Every `this` inside a class is resolved -/

theorem declare_resolution (name : Token) (r r' : NameResolver) (h : r.declare name = .ok r') :
    r'.resolution_ = r.resolution_ := by
  unfold declare at h
  split at h
  · cases h; rfl
  · split at h
    · cases h
    · cases h; rfl

theorem define_resolution (name : Token) (r : NameResolver) :
    (r.define name).resolution_ = r.resolution_ := by
  unfold define
  split <;> rfl

theorem declareParams_resolution : ∀ (params : List Token) (r r' : NameResolver),
    declareParams params r = .ok r' → r'.resolution_ = r.resolution_
  | [], r, r', h => by
    simp only [declareParams, Except.ok.injEq] at h
    subst h; rfl
  | param :: rest, r, r', h => by
    simp only [declareParams] at h
    obtain ⟨r1, h1, h2⟩ := (bind_eq_ok _ _ _).mp h
    rw [declareParams_resolution rest _ r' h2, define_resolution, declare_resolution param r r1 h1]

theorem declare_extends (name : Token) (r r' : NameResolver) (h : r.declare name = .ok r') :
    Extends r r' := by
  unfold declare at h
  split at h
  · cases h; exact Extends.same r
  · rename_i scope rest hs
    split at h
    · cases h
    · rename_i hfound
      cases h
      refine Or.inr ⟨scope, scope.assign name.lexeme_ false, rest, hs, rfl, ?_⟩
      intro key defined hkey
      have hne : key ≠ name.lexeme_ := by
        intro heq
        rw [heq] at hkey
        simp [hkey] at hfound
      rw [UnorderedMap.find_assign_of_ne _ _ _ _ hne]
      exact hkey

theorem BindsThis.grow {r r' : NameResolver} (h : r.BindsThis) (hext : Extends r r') :
    r'.BindsThis := by
  obtain ⟨scope, hmem, hfound⟩ := h
  rcases hext with ⟨hnil, _⟩ | ⟨s, s', rest, hs, hs', hse⟩
  · rw [hnil] at hmem; cases hmem
  · rw [hs] at hmem
    rcases List.mem_cons.mp hmem with rfl | hrest
    · refine ⟨s', by rw [hs']; exact List.mem_cons_self _ _, ?_⟩
      cases hf : UnorderedMap.find scope "this" with
      | none => rw [hf] at hfound; cases hfound
      | some b => rw [hse "this" b hf]; rfl
    · exact ⟨scope, by rw [hs']; exact List.mem_cons_of_mem _ hrest, hfound⟩

theorem BindsThis.push {r r' : NameResolver} (h : r.BindsThis)
    (htail : r'.scopes_.tail = r.scopes_) : r'.BindsThis := by
  obtain ⟨scope, hmem, hfound⟩ := h
  rw [← htail] at hmem
  exact ⟨scope, List.mem_of_mem_tail hmem, hfound⟩

theorem ThisBound.of_extends {r r' : NameResolver} (h : r.ThisBound) (hext : Extends r r')
    (hclass : r'.current_class_type_ = r.current_class_type_) : r'.ThisBound :=
  fun hc => (h (hclass.symm.trans hc)).grow hext

theorem ThisBound.of_tail {r r' : NameResolver} (h : r.ThisBound)
    (htail : r'.scopes_.tail = r.scopes_)
    (hclass : r'.current_class_type_ = r.current_class_type_) : r'.ThisBound :=
  fun hc => (h (hclass.symm.trans hc)).push htail

theorem resolve_local_grows (name : Token) (r : NameResolver) (t : Token)
    (h : (r.resolution_.find t).isSome) : ((r.resolve_local name).resolution_.find t).isSome := by
  unfold resolve_local
  cases resolve_local_loop name.lexeme_ r.scopes_ 0 with
  | none => exact h
  | some k =>
    by_cases ht : t = name
    · subst ht
      simp [UnorderedMap.find_assign_self]
    · simp only [UnorderedMap.find_assign_of_ne _ _ _ _ ht]
      exact h

theorem Resolved.nil (r : NameResolver) : Resolved r r [] :=
  ⟨fun _ h => h, fun _ hmem => by cases hmem⟩

theorem Resolved.of_table_eq {r r' : NameResolver} (h : r'.resolution_ = r.resolution_) :
    Resolved r r' [] :=
  ⟨fun _ ht => by rw [h]; exact ht, fun _ hmem => by cases hmem⟩

theorem Resolved.seq {a b c : NameResolver} {ts us : List Token} (hab : Resolved a b ts)
    (hbc : Resolved b c us) : Resolved a c (ts ++ us) := by
  refine ⟨fun t ht => hbc.1 t (hab.1 t ht), fun kw hmem hlex => ?_⟩
  rcases List.mem_append.mp hmem with h | h
  · exact hbc.1 kw (hab.2 kw h hlex)
  · exact hbc.2 kw h hlex

theorem Resolved.left {a b c : NameResolver} {ts : List Token} (hab : Resolved a b ts)
    (hbc : Resolved b c []) : Resolved a c ts := by
  have h := hab.seq hbc
  simpa using h

theorem Resolved.right {a b c : NameResolver} {ts : List Token} (hab : Resolved a b [])
    (hbc : Resolved b c ts) : Resolved a c ts := by
  have h := hab.seq hbc
  simpa using h

theorem resolve_local_resolved (name : Token) (r : NameResolver) :
    Resolved r (r.resolve_local name) [] :=
  ⟨fun t h => resolve_local_grows name r t h, fun _ hmem => by cases hmem⟩

theorem ThisBound.of_expression {e : Expression} {r r' : NameResolver} (h : r.ThisBound)
    (he : resolveExpression e r = .ok r') : r'.ThisBound :=
  let ⟨hs, _, hc⟩ := resolveExpression_scopes e r r' he
  h.of_extends (Extends.of_same_scopes hs) hc

mutual
theorem resolveExpression_this : ∀ (e : Expression) (r r' : NameResolver), r.ThisBound →
    resolveExpression e r = .ok r' → Resolved r r' (thisTokens e)
  | .monostate, r, r', _, h => by
    simp only [resolveExpression, Except.ok.injEq] at h
    subst h; exact Resolved.nil r
  | .literal _, r, r', _, h => by
    simp only [resolveExpression, Except.ok.injEq] at h
    subst h; exact Resolved.nil r
  | .this kw, r, r', hb, h => by
    simp only [resolveExpression] at h
    split at h
    · cases h
    · rename_i hflag
      cases h
      refine ⟨fun t ht => resolve_local_grows kw r t ht, fun t hmem hlex => ?_⟩
      simp only [thisTokens, List.mem_singleton] at hmem
      subst hmem
      have hclass : r.current_class_type_ = ClassType.CLASS := by
        cases hc : r.current_class_type_ with
        | NONE => exact absurd hc hflag
        | CLASS => rfl
      obtain ⟨k, _, _, _, _, hloop⟩ :=
        resolve_local_loop_some "this" r.scopes_ 0 (hb hclass)
      simp [resolve_local, hlex, hloop, UnorderedMap.find_assign_self]
  | .variable name, r, r', _, h => by
    simp only [resolveExpression] at h
    split at h
    · cases h; exact resolve_local_resolved name r
    · split at h
      · cases h
      · cases h; exact resolve_local_resolved name r
  | .assignment name value, r, r', hb, h => by
    simp only [resolveExpression] at h
    obtain ⟨r1, h1, h2⟩ := (bind_eq_ok _ _ _).mp h
    cases h2
    exact (resolveExpression_this value r r1 hb h1).left (resolve_local_resolved name r1)
  | .binary left _ right, r, r', hb, h => by
    simp only [resolveExpression] at h
    obtain ⟨r1, h1, h2⟩ := (bind_eq_ok _ _ _).mp h
    exact (resolveExpression_this left r r1 hb h1).seq
      (resolveExpression_this right r1 r' (hb.of_expression h1) h2)
  | .call callee _ args, r, r', hb, h => by
    simp only [resolveExpression] at h
    obtain ⟨r1, h1, h2⟩ := (bind_eq_ok _ _ _).mp h
    exact (resolveExpression_this callee r r1 hb h1).seq
      (resolveExpressions_this args r1 r' (hb.of_expression h1) h2)
  | .get object _, r, r', hb, h => by
    simp only [resolveExpression] at h
    exact resolveExpression_this object r r' hb h
  | .grouping e, r, r', hb, h => by
    simp only [resolveExpression] at h
    exact resolveExpression_this e r r' hb h
  | .logical left _ right, r, r', hb, h => by
    simp only [resolveExpression] at h
    obtain ⟨r1, h1, h2⟩ := (bind_eq_ok _ _ _).mp h
    exact (resolveExpression_this left r r1 hb h1).seq
      (resolveExpression_this right r1 r' (hb.of_expression h1) h2)
  | .set object _ value, r, r', hb, h => by
    simp only [resolveExpression] at h
    obtain ⟨r1, h1, h2⟩ := (bind_eq_ok _ _ _).mp h
    exact (resolveExpression_this value r r1 hb h1).seq
      (resolveExpression_this object r1 r' (hb.of_expression h1) h2)
  | .unary _ right, r, r', hb, h => by
    simp only [resolveExpression] at h
    exact resolveExpression_this right r r' hb h
theorem resolveExpressions_this : ∀ (es : List Expression) (r r' : NameResolver), r.ThisBound →
    resolveExpressions es r = .ok r' → Resolved r r' (thisTokensList es)
  | [], r, r', _, h => by
    simp only [resolveExpressions, Except.ok.injEq] at h
    subst h; exact Resolved.nil r
  | e :: es, r, r', hb, h => by
    simp only [resolveExpressions] at h
    obtain ⟨r1, h1, h2⟩ := (bind_eq_ok _ _ _).mp h
    exact (resolveExpression_this e r r1 hb h1).seq
      (resolveExpressions_this es r1 r' (hb.of_expression h1) h2)
end

theorem ThisBound.of_statement {s : Statement} {r r' : NameResolver} (h : r.ThisBound)
    (hs : resolveStatement s r = .ok r') : r'.ThisBound :=
  h.of_extends (resolveStatement_extends s r r' hs) (resolveStatement_sameFrame s r r' hs).2.1

mutual
theorem resolveStatement_this : ∀ (s : Statement) (r r' : NameResolver), r.ThisBound →
    resolveStatement s r = .ok r' → Resolved r r' (thisTokensStatement s)
  | .monostate, r, r', _, h => by
    simp only [resolveStatement, Except.ok.injEq] at h
    subst h; exact Resolved.nil r
  | .expression e, r, r', hb, h => by
    simp only [resolveStatement] at h
    exact resolveExpression_this e r r' hb h
  | .print e, r, r', hb, h => by
    simp only [resolveStatement] at h
    exact resolveExpression_this e r r' hb h
  | .return_ _ value, r, r', hb, h => by
    simp only [resolveStatement] at h
    split at h
    · cases h
    · exact resolveExpression_this value r r' hb h
  | .variable name init, r, r', hb, h => by
    simp only [resolveStatement] at h
    obtain ⟨r1, h1, h⟩ := (bind_eq_ok _ _ _).mp h
    obtain ⟨r2, h2, h⟩ := (bind_eq_ok _ _ _).mp h
    cases h
    have hb1 : r1.ThisBound :=
      hb.of_extends (declare_extends name r r1 h1) (declare_sameFrame name r r1 h1).2.1
    exact ((Resolved.of_table_eq (declare_resolution name r r1 h1)).right
      (resolveExpression_this init r1 r2 hb1 h2)).left
      (Resolved.of_table_eq (define_resolution name r2))
  | .block ss, r, r', hb, h => by
    simp only [resolveStatement] at h
    obtain ⟨r1, h1, h⟩ := (bind_eq_ok _ _ _).mp h
    cases h
    have hb0 : r.begin_scope.ThisBound := hb.of_tail rfl rfl
    exact (resolveStatements_this ss r.begin_scope r1 hb0 h1).left (Resolved.of_table_eq rfl)
  | .function f, r, r', hb, h => by
    simp only [resolveStatement] at h
    obtain ⟨r1, h1, h⟩ := (bind_eq_ok _ _ _).mp h
    have hb2 : (r1.define f.name_).ThisBound :=
      hb.of_extends (declare_define_extends f.name_ r r1 r1 h1 rfl)
        ((declare_sameFrame _ r r1 h1).trans (define_sameFrame f.name_ r1)).2.1
    have htable : (r1.define f.name_).resolution_ = r.resolution_ := by
      rw [define_resolution, declare_resolution _ r r1 h1]
    exact (Resolved.of_table_eq htable).right
      (resolve_function_this f FunctionType.FUNCTION _ r' hb2 h)
  | .class_ name methods, r, r', _, h => by
    simp only [resolveStatement] at h
    obtain ⟨r1, h1, h⟩ := (bind_eq_ok _ _ _).mp h
    obtain ⟨r2, h2, h⟩ := (bind_eq_ok _ _ _).mp h
    cases h
    have htable : (r1.define name).resolution_ = r.resolution_ := by
      rw [define_resolution, declare_resolution _ _ r1 h1]
    have hb4 : ({ (r1.define name).begin_scope with
        scopes_ := match (r1.define name).begin_scope.scopes_ with
          | [] => []
          | scope :: rest => UnorderedMap.assign scope "this" true :: rest } :
        NameResolver).ThisBound :=
      fun _ => ⟨[("this", true)], by simp [begin_scope, UnorderedMap.assign], by decide⟩
    have hm := resolveMethods_this methods _ r2 hb4 h2
    exact ((Resolved.of_table_eq htable).right hm).left (Resolved.of_table_eq rfl)
  | .if_ condition then_branch else_branch, r, r', hb, h => by
    rw [resolveStatement_if] at h
    obtain ⟨r1, h1, h⟩ := (bind_eq_ok _ _ _).mp h
    obtain ⟨r2, h2, h⟩ := (bind_eq_ok _ _ _).mp h
    have hb1 := hb.of_expression h1
    exact (resolveExpression_this condition r r1 hb h1).seq
      ((resolveStatement_this then_branch r1 r2 hb1 h2).seq
        (resolveStatement_this else_branch r2 r' (hb1.of_statement h2) h))
  | .while_ condition body, r, r', hb, h => by
    simp only [resolveStatement] at h
    obtain ⟨r1, h1, h⟩ := (bind_eq_ok _ _ _).mp h
    exact (resolveExpression_this condition r r1 hb h1).seq
      (resolveStatement_this body r1 r' (hb.of_expression h1) h)
theorem resolveStatements_this : ∀ (ss : List Statement) (r r' : NameResolver), r.ThisBound →
    resolveStatements ss r = .ok r' → Resolved r r' (thisTokensStatements ss)
  | [], r, r', _, h => by
    simp only [resolveStatements, Except.ok.injEq] at h
    subst h; exact Resolved.nil r
  | s :: ss, r, r', hb, h => by
    simp only [resolveStatements] at h
    obtain ⟨r1, h1, h⟩ := (bind_eq_ok _ _ _).mp h
    exact (resolveStatement_this s r r1 hb h1).seq
      (resolveStatements_this ss r1 r' (hb.of_statement h1) h)
theorem resolve_function_this : ∀ (f : FunctionStatement) (kind : FunctionType)
    (r r' : NameResolver), r.ThisBound → resolve_function f kind r = .ok r' →
    Resolved r r' (thisTokensFunction f)
  | .mk _ params body, kind, r, r', hb, h => by
    simp only [resolve_function] at h
    obtain ⟨r1, h1, h⟩ := (bind_eq_ok _ _ _).mp h
    obtain ⟨r2, h2, h⟩ := (bind_eq_ok _ _ _).mp h
    cases h
    have hf := declareParams_sameFrame params _ r1 h1
    have hb1 : r1.ThisBound := hb.of_tail (by simpa [begin_scope] using hf.2.2.1)
      (by simpa [begin_scope] using hf.2.1)
    have htable : r1.resolution_ = r.resolution_ := by
      rw [declareParams_resolution params _ r1 h1]; rfl
    exact ((Resolved.of_table_eq htable).right (resolveStatements_this body r1 r2 hb1 h2)).left
      (Resolved.of_table_eq rfl)
theorem resolveMethods_this : ∀ (ms : List FunctionStatement) (r r' : NameResolver),
    r.ThisBound → resolveMethods ms r = .ok r' → Resolved r r' (thisTokensMethods ms)
  | [], r, r', _, h => by
    simp only [resolveMethods, Except.ok.injEq] at h
    subst h; exact Resolved.nil r
  | m :: ms, r, r', hb, h => by
    simp only [resolveMethods] at h
    obtain ⟨r1, h1, h⟩ := (bind_eq_ok _ _ _).mp h
    have hb1 : r1.ThisBound :=
      hb.of_extends (Extends.of_same_scopes (resolve_function_scopes m _ r r1 h1))
        (resolve_function_sameFrame m _ r r1 h1).2.1
    exact (resolve_function_this m FunctionType.METHOD r r1 hb h1).seq
      (resolveMethods_this ms r1 r' hb1 h)
end

theorem resolve_nested_this (kw : Token) :
    ∀ (depth k : Nat) (r : NameResolver),
      r.current_class_type_ = ClassType.CLASS →
      resolve_local_loop kw.lexeme_ r.scopes_ 0 = some k →
      resolveStatement (nestBlocks depth (Statement.expression (Expression.this kw))) r =
        .ok { r with resolution_ := r.resolution_.assign kw (k + depth) }
  | 0, k, r, hclass, hloop => by
    simp [nestBlocks, resolveStatement, resolveExpression, hclass, resolve_local, hloop]
  | depth + 1, k, r, hclass, hloop => by
    have hloop1 : resolve_local_loop kw.lexeme_ r.begin_scope.scopes_ 0 = some (k + 1) := by
      simp only [begin_scope, resolve_local_loop, UnorderedMap.find, Option.isSome_none,
        Bool.false_eq_true, if_false]
      rw [resolve_local_loop_shift, hloop]
      simp [Nat.add_comm]
    have ih := resolve_nested_this kw depth (k + 1) r.begin_scope hclass hloop1
    rw [nestBlocks, resolveStatement_block_singleton, ih]
    simp [Except.map, begin_scope, end_scope, Nat.add_assoc, Nat.add_comm 1 depth]

/-- C15. Whenever `Resolver::resolve` succeeds, every this-reference of the
program (its keyword token having the lexeme `this`) has an entry in the
returned table. The reason is the invariant "when the class flag is `CLASS`,
some scope of the stack binds `this`": it holds initially, every successfully
resolved statement keeps it and, under it, gives an entry to each of its
this-references, and a this-reference resolved under it with the flag `CLASS`
is recorded with the position of the innermost scope that binds `this`. A
`this` inside `depth` nested blocks of a method body gets `depth + 1`, and one
in a function (not itself named `this`) nested in the method body gets 2. -/
theorem this_always_resolved :
    (∀ (program : List Statement) (table : UnorderedMap Token Nat),
      Resolver.resolve program = .ok table →
      ∀ kw ∈ thisTokensStatements program, kw.lexeme_ = "this" → (table.find kw).isSome) ∧
    (NameResolver.new []).ThisBound ∧
    (∀ (s : Statement) (r r' : NameResolver), r.ThisBound → resolveStatement s r = .ok r' →
      r'.ThisBound ∧
      ∀ kw ∈ thisTokensStatement s, kw.lexeme_ = "this" → (r'.resolution_.find kw).isSome) ∧
    (∀ (r : NameResolver) (kw : Token), r.ThisBound →
      r.current_class_type_ = ClassType.CLASS → kw.lexeme_ = "this" →
      ∃ k scope, r.scopes_[k]? = some scope ∧ (scope.find "this").isSome ∧
        (∀ inner ∈ r.scopes_.take k, inner.find "this" = none) ∧
        resolveExpression (Expression.this kw) r =
          .ok { r with resolution_ := r.resolution_.assign kw k }) ∧
    (∀ (name method kw : Token) (depth : Nat), kw.lexeme_ = "this" →
      Resolver.resolve [Statement.class_ name [FunctionStatement.mk method []
        [nestBlocks depth (Statement.expression (Expression.this kw))]]] =
        .ok [(kw, depth + 1)]) ∧
    (∀ name method inner kw : Token, kw.lexeme_ = "this" → inner.lexeme_ ≠ "this" →
      Resolver.resolve [Statement.class_ name [FunctionStatement.mk method []
        [Statement.function (FunctionStatement.mk inner []
          [Statement.expression (Expression.this kw)])]]] =
        .ok [(kw, 2)]) := by
  have hinit : (NameResolver.new []).ThisBound := fun hc => by cases hc
  refine ⟨?_, hinit, ?_, ?_, ?_, ?_⟩
  · intro program table h kw hmem hlex
    simp only [Resolver.resolve] at h
    obtain ⟨r1, h1, h2⟩ := (bind_eq_ok _ _ _).mp h
    cases h2
    exact (resolveStatements_this program _ r1 hinit h1).2 kw hmem hlex
  · intro s r r' hb h
    exact ⟨hb.of_statement h, (resolveStatement_this s r r' hb h).2⟩
  · intro r kw hb hclass hlex
    obtain ⟨k, scope, hk, hfound, hinner, hloop⟩ :=
      resolve_local_loop_some "this" r.scopes_ 0 (hb hclass)
    refine ⟨k, scope, hk, hfound, hinner, ?_⟩
    simp [resolveExpression, hclass, resolve_local, hlex, hloop]
  · intro name method kw depth hlex
    have hnested := resolve_nested_this kw depth 1
      (NameResolver.mk [[], [("this", true)], [(name.lexeme_, true)]] FunctionType.METHOD
        ClassType.CLASS [])
      rfl (by simp [hlex, resolve_local_loop, UnorderedMap.find])
    simp only [Resolver.resolve, NameResolver.new, resolveStatements, resolveStatement,
      resolveMethods, resolve_function, declareParams, declare, define, begin_scope,
      UnorderedMap.find, UnorderedMap.assign, bind, Except.bind, Option.isSome_none,
      Bool.false_eq_true, if_false, if_true]
    rw [hnested]
    simp [end_scope, UnorderedMap.assign, Nat.add_comm]
  · intro name method inner kw hlex hinner
    simp [Resolver.resolve, NameResolver.new, resolveStatements, resolveStatement,
      resolveMethods, resolve_function, declareParams, resolveExpression, declare, define,
      begin_scope, end_scope, resolve_local, resolve_local_loop, FunctionStatement.name_,
      UnorderedMap.find, UnorderedMap.assign, hlex, hinner, bind, Except.bind]

/-- Witness for C15: `class C { m() { { this; } } }` gives the entry 2. -/
theorem this_always_resolved_witness :
    Resolver.resolve [Statement.class_ (identifier "C" 1)
      [FunctionStatement.mk (identifier "m" 1) []
        [nestBlocks 1 (Statement.expression
          (Expression.this (operator TokenType.THIS "this" 1)))]]] =
      .ok [(operator TokenType.THIS "this" 1, 1 + 1)] :=
  this_always_resolved.2.2.2.2.1 (identifier "C" 1) (identifier "m" 1)
    (operator TokenType.THIS "this" 1) 1 rfl

end NameResolver

namespace NameResolver

/-! ## Function declarations -/

theorem resolveStatements_append : ∀ (pre post : List Statement) (r : NameResolver),
    resolveStatements (pre ++ post) r = (resolveStatements pre r >>= resolveStatements post)
  | [], post, r => by simp [resolveStatements, bind, Except.bind]
  | s :: pre, post, r => by
    simp only [List.cons_append, resolveStatements]
    cases h : resolveStatement s r with
    | error e => simp [bind, Except.bind]
    | ok r1 =>
      have ih := resolveStatements_append pre post r1
      simp only [bind, Except.bind] at ih ⊢
      exact ih

theorem declareParams_ok : ∀ (params : List Token) (r : NameResolver) (scope : Scope)
    (rest : List Scope), r.scopes_ = scope :: rest →
    (∀ p ∈ params, scope.find p.lexeme_ = none) →
    (params.map (fun p => p.lexeme_)).Nodup →
    ∃ scope' : Scope, declareParams params r = .ok { r with scopes_ := scope' :: rest } ∧
      ∀ key, scope'.find key =
        if key ∈ params.map (fun p => p.lexeme_) then some true else scope.find key
  | [], r, scope, rest, hs, _, _ => by
    refine ⟨scope, ?_, fun key => by simp⟩
    simp only [declareParams]
    rw [← hs]
  | param :: params, r, scope, rest, hs, hfresh, hnodup => by
    have hp : scope.find param.lexeme_ = none := hfresh param (List.mem_cons_self _ _)
    simp only [List.map_cons, List.nodup_cons] at hnodup
    have hfresh' : ∀ p ∈ params,
        ((scope.assign param.lexeme_ false).assign param.lexeme_ true).find p.lexeme_ = none := by
      intro p hmem
      have hne : p.lexeme_ ≠ param.lexeme_ := by
        intro heq
        exact hnodup.1 (heq ▸ List.mem_map_of_mem (fun p => p.lexeme_) hmem)
      rw [UnorderedMap.find_assign_of_ne _ _ _ _ hne, UnorderedMap.find_assign_of_ne _ _ _ _ hne]
      exact hfresh p (List.mem_cons_of_mem _ hmem)
    obtain ⟨scope', hok, hfind⟩ := declareParams_ok params
      { r with scopes_ := (scope.assign param.lexeme_ false).assign param.lexeme_ true :: rest }
      _ rest rfl hfresh' hnodup.2
    refine ⟨scope', ?_, ?_⟩
    · simp only [declareParams, declare, hs, hp, define, bind, Except.bind, Option.isSome_none,
        Bool.false_eq_true, if_false]
      exact hok
    · intro key
      rw [hfind key]
      by_cases hk : key = param.lexeme_
      · subst hk
        simp [UnorderedMap.find_assign_self]
      · simp only [List.map_cons, List.mem_cons, hk, false_or]
        rw [UnorderedMap.find_assign_of_ne _ _ _ _ hk, UnorderedMap.find_assign_of_ne _ _ _ _ hk]

/-- C16. A function declaration `fun name(params) { body }` resolved in a
state whose innermost scope does not contain `name`, the parameters being
pairwise distinct: the body is resolved in the state `inner` in which `name`
is declared and defined in the enclosing scope and one new innermost scope
holds exactly the parameters, all defined, and the statement's result is that
of the body with the new scope closed and the function flag restored. After
any body-level statements `pre` that resolve, a reference to a parameter is
recorded with hop count 0, and a reference to `name`, when the innermost scope
then holds no binding of that name (no parameter or body-level local is named
so), resolves without error with hop count 1. -/
theorem function_declaration_scopes (name : Token) (params : List Token) (body : List Statement)
    (r : NameResolver) (scope : Scope) (rest : List Scope)
    (hscopes : r.scopes_ = scope :: rest) (hfresh : scope.find name.lexeme_ = none)
    (hdistinct : (params.map (fun p => p.lexeme_)).Nodup) :
    ∃ (paramScope : Scope) (inner : NameResolver),
      inner = { scopes_ := paramScope ::
                  (scope.assign name.lexeme_ false).assign name.lexeme_ true :: rest,
                current_function_type_ := FunctionType.FUNCTION,
                current_class_type_ := r.current_class_type_,
                resolution_ := r.resolution_ } ∧
      (∀ key, paramScope.find key =
        if key ∈ params.map (fun p => p.lexeme_) then some true else none) ∧
      ((scope.assign name.lexeme_ false).assign name.lexeme_ true).find name.lexeme_ =
        some true ∧
      resolveStatement (Statement.function (FunctionStatement.mk name params body)) r =
        (resolveStatements body inner).map
          (fun r2 => { r2.end_scope with current_function_type_ := r.current_function_type_ }) ∧
      (∀ (pre : List Statement) (after : NameResolver) (ref : Token),
        resolveStatements pre inner = .ok after →
        ref.lexeme_ ∈ params.map (fun p => p.lexeme_) →
        resolveStatements (pre ++ [Statement.expression (Expression.variable ref)]) inner =
          .ok { after with resolution_ := after.resolution_.assign ref 0 }) ∧
      (∀ (pre : List Statement) (after : NameResolver) (ref : Token),
        resolveStatements pre inner = .ok after →
        ref.lexeme_ = name.lexeme_ →
        (∀ innermost below, after.scopes_ = innermost :: below →
          innermost.find name.lexeme_ = none) →
        resolveStatements (pre ++ [Statement.expression (Expression.variable ref)]) inner =
          .ok { after with resolution_ := after.resolution_.assign ref 1 }) := by
  obtain ⟨paramScope, hparams, hfind⟩ := declareParams_ok params
    { scopes_ := [] :: (scope.assign name.lexeme_ false).assign name.lexeme_ true :: rest,
      current_function_type_ := FunctionType.FUNCTION,
      current_class_type_ := r.current_class_type_,
      resolution_ := r.resolution_ }
    [] _ rfl (fun _ _ => rfl) hdistinct
  have hfind' : ∀ key, paramScope.find key =
      if key ∈ params.map (fun p => p.lexeme_) then some true else none := by
    intro key
    rw [hfind key]
    simp [UnorderedMap.find]
  refine ⟨paramScope, _, rfl, hfind', UnorderedMap.find_assign_self _ _ _, ?_, ?_, ?_⟩
  · simp only [resolveStatement, resolve_function, FunctionStatement.name_, declare, hscopes,
      hfresh, define, begin_scope, bind, Except.bind, Option.isSome_none, Bool.false_eq_true,
      if_false]
    rw [hparams]
    simp only [Except.map]
  · intro pre after ref hpre hmem
    rw [resolveStatements_append, hpre]
    rcases resolveStatements_extends pre _ after hpre with ⟨hnil, _⟩ | ⟨s, s', below, hs, hs', hext⟩
    · cases hnil
    · simp only [List.cons.injEq] at hs
      have hhead : s'.find ref.lexeme_ = some true := by
        apply hext
        rw [← hs.1, hfind' ref.lexeme_]
        simp only [hmem, if_true]
      simp [resolveStatements, resolveStatement, resolveExpression, hs', hhead, resolve_local,
        resolve_local_loop, bind, Except.bind]
  · intro pre after ref hpre hlex hlocal
    rw [resolveStatements_append, hpre]
    rcases resolveStatements_extends pre _ after hpre with ⟨hnil, _⟩ | ⟨s, s', below, hs, hs', hext⟩
    · cases hnil
    · simp only [List.cons.injEq] at hs
      have hhead : s'.find ref.lexeme_ = none := by
        rw [hlex]
        exact hlocal s' below hs'
      have henclosing :
          ((scope.assign name.lexeme_ false).assign name.lexeme_ true).find ref.lexeme_ =
            some true := by
        rw [hlex]
        exact UnorderedMap.find_assign_self _ _ _
      simp [resolveStatements, resolveStatement, resolveExpression, hs', ← hs.2, hhead,
        henclosing, resolve_local, resolve_local_loop, bind, Except.bind]

/-- Witness for C16: `fun f(a, b) { b; }` at the top level records 0 for `b`. -/
theorem function_declaration_scopes_witness :
    ∃ (paramScope : Scope) (inner : NameResolver),
      (∀ key, paramScope.find key =
        if key ∈ [identifier "a" 1, identifier "b" 1].map (fun p => p.lexeme_) then some true
        else none) ∧
      resolveStatements ([] ++ [Statement.expression (Expression.variable (identifier "b" 2))])
        inner = .ok { inner with resolution_ := inner.resolution_.assign (identifier "b" 2) 0 } :=
  let ⟨paramScope, inner, _, h2, _, _, h5, _⟩ := function_declaration_scopes (identifier "f" 1)
    [identifier "a" 1, identifier "b" 1] [] (NameResolver.new []) [] [] rfl rfl (by decide)
  ⟨paramScope, inner, h2, h5 [] inner (identifier "b" 2) rfl (by decide)⟩

end NameResolver

namespace NameResolver

/-! ## Shadowing initializers and top-level redeclarations -/

/-- C17 (as amended). The resolver rejects `var a; { var a = a; }`: a
declaration in an inner block whose initializer refers to the declared name
fails with "Can't read local variable in its own initializer." at the line of
the reference, whatever the enclosing scopes contain, so also when a variable
of that name is declared and defined at the top level or in an enclosing
scope. -/
theorem shadowing_self_initializer_rejected (outer inner ref : Token)
    (hlex : inner.lexeme_ = ref.lexeme_) :
    Resolver.resolve [Statement.variable outer Expression.monostate,
      Statement.block [Statement.variable inner (Expression.variable ref)]] =
      .error (Resolver.error ref.line_ "Can\x27t read local variable in its own initializer.") ∧
    (∀ r : NameResolver,
      resolveStatement (Statement.block [Statement.variable inner (Expression.variable ref)]) r =
        .error (Resolver.error ref.line_
          "Can\x27t read local variable in its own initializer.")) := by
  have hblock : ∀ r : NameResolver,
      resolveStatement (Statement.block [Statement.variable inner (Expression.variable ref)]) r =
        .error (Resolver.error ref.line_
          "Can\x27t read local variable in its own initializer.") := by
    intro r
    have h := resolve_nested_self_initializer inner ref hlex 0 r.begin_scope
      ⟨[], r.scopes_, rfl, rfl⟩
    rw [resolveStatement_block_singleton]
    simp only [nestBlocks] at h
    rw [h]
    rfl
  refine ⟨?_, hblock⟩
  simp only [Resolver.resolve, resolveStatements, bind, Except.bind]
  cases hfirst : resolveStatement (Statement.variable outer Expression.monostate)
      (NameResolver.new []) with
  | error e =>
    simp [resolveStatement, resolveExpression, declare, NameResolver.new, UnorderedMap.find,
      bind, Except.bind] at hfirst
  | ok r1 => simp [hblock r1]

/-- Witness for C17 (as amended): `var a; { var a = a; }` on lines 1 and 2. -/
theorem shadowing_self_initializer_rejected_witness :
    Resolver.resolve [Statement.variable (identifier "a" 1) Expression.monostate,
      Statement.block [Statement.variable (identifier "a" 2)
        (Expression.variable (identifier "a" 2))]] =
      .error (Resolver.error 2 "Can\x27t read local variable in its own initializer.") :=
  (shadowing_self_initializer_rejected (identifier "a" 1) (identifier "a" 2) (identifier "a" 2)
    rfl).1

/-- C17 as stated fails: resolving `var a; { var a = a; }` does not complete;
it raises the static self-reference error. -/
theorem shadowing_self_initializer_fails :
    ¬ ∃ table, Resolver.resolve [Statement.variable (identifier "a" 1) Expression.monostate,
      Statement.block [Statement.variable (identifier "a" 2)
        (Expression.variable (identifier "a" 2))]] = .ok table := by
  intro ⟨table, h⟩
  have herr : Resolver.resolve [Statement.variable (identifier "a" 1) Expression.monostate,
      Statement.block [Statement.variable (identifier "a" 2)
        (Expression.variable (identifier "a" 2))]] =
      .error (Resolver.error 2 "Can\x27t read local variable in its own initializer.") := rfl
  rw [herr] at h
  cases h

theorem define_binds (name : Token) (r : NameResolver) (hne : r.scopes_ ≠ []) :
    ∃ scope rest, (r.define name).scopes_ = scope :: rest ∧
      scope.find name.lexeme_ = some true := by
  unfold define
  split
  · rename_i hs
    exact absurd hs hne
  · rename_i scope rest _
    exact ⟨_, rest, rfl, UnorderedMap.find_assign_self _ _ _⟩

theorem scopes_ne_nil_of_sameFrame {r r' : NameResolver} (h : SameFrame r r')
    (hne : r.scopes_ ≠ []) : r'.scopes_ ≠ [] := by
  intro hnil
  have hlen := h.2.2.2
  rw [hnil] at hlen
  exact hne (List.length_eq_zero.mp hlen.symm)

theorem declaration_binds : ∀ (s : Statement) (name : Token) (r r' : NameResolver),
    declaredName s = some name → r.scopes_ ≠ [] → resolveStatement s r = .ok r' →
    ∃ scope rest, r'.scopes_ = scope :: rest ∧ scope.find name.lexeme_ = some true
  | .variable n init, name, r, r', hname, hne, h => by
    simp only [declaredName, Option.some.injEq] at hname
    subst hname
    simp only [resolveStatement] at h
    obtain ⟨r1, h1, h⟩ := (bind_eq_ok _ _ _).mp h
    obtain ⟨r2, h2, h⟩ := (bind_eq_ok _ _ _).mp h
    cases h
    exact define_binds n r2 (scopes_ne_nil_of_sameFrame
      ((declare_sameFrame n r r1 h1).trans (resolveExpression_sameFrame init r1 r2 h2)) hne)
  | .function f, name, r, r', hname, hne, h => by
    simp only [declaredName, Option.some.injEq] at hname
    subst hname
    obtain ⟨r1, h1, hs⟩ := resolveStatement_function_scopes f r r' h
    rw [hs]
    exact define_binds f.name_ r1 (scopes_ne_nil_of_sameFrame (declare_sameFrame _ r r1 h1) hne)
  | .class_ n methods, name, r, r', hname, hne, h => by
    simp only [declaredName, Option.some.injEq] at hname
    subst hname
    obtain ⟨r1, h1, hs⟩ := resolveStatement_class_scopes n methods r r' h
    rw [hs]
    exact define_binds n r1 (scopes_ne_nil_of_sameFrame (declare_sameFrame _ _ r1 h1) hne)
  | .monostate, _, _, _, hname, _, _ => by simp [declaredName] at hname
  | .expression _, _, _, _, hname, _, _ => by simp [declaredName] at hname
  | .print _, _, _, _, hname, _, _ => by simp [declaredName] at hname
  | .return_ _ _, _, _, _, hname, _, _ => by simp [declaredName] at hname
  | .block _, _, _, _, hname, _, _ => by simp [declaredName] at hname
  | .if_ _ _ _, _, _, _, hname, _, _ => by simp [declaredName] at hname
  | .while_ _ _, _, _, _, hname, _, _ => by simp [declaredName] at hname

theorem redeclaration_fails : ∀ (s : Statement) (name : Token) (r : NameResolver)
    (scope : Scope) (rest : List Scope), declaredName s = some name →
    r.scopes_ = scope :: rest → (scope.find name.lexeme_).isSome = true →
    resolveStatement s r = .error (Resolver.error name.line_
      "Already a variable with this name declared in this scope.")
  | .variable n init, name, r, scope, rest, hname, hs, hfound => by
    simp only [declaredName, Option.some.injEq] at hname
    subst hname
    simp [resolveStatement, declare, hs, hfound, bind, Except.bind]
  | .function f, name, r, scope, rest, hname, hs, hfound => by
    simp only [declaredName, Option.some.injEq] at hname
    subst hname
    simp [resolveStatement, declare, hs, hfound, bind, Except.bind]
  | .class_ n methods, name, r, scope, rest, hname, hs, hfound => by
    simp only [declaredName, Option.some.injEq] at hname
    subst hname
    simp [resolveStatement, declare, hs, hfound, bind, Except.bind]
  | .monostate, _, _, _, _, hname, _, _ => by simp [declaredName] at hname
  | .expression _, _, _, _, _, hname, _, _ => by simp [declaredName] at hname
  | .print _, _, _, _, _, hname, _, _ => by simp [declaredName] at hname
  | .return_ _ _, _, _, _, _, hname, _, _ => by simp [declaredName] at hname
  | .block _, _, _, _, _, hname, _, _ => by simp [declaredName] at hname
  | .if_ _ _ _, _, _, _, _, hname, _, _ => by simp [declaredName] at hname
  | .while_ _ _, _, _, _, _, hname, _, _ => by simp [declaredName] at hname

/-- C18. The visitor starts with exactly one open, empty scope, which makes the
top level a scope of its own: when `first` and `second` are variable, function
or class declarations (in any combination) of the same name, a program that
has `second` after `first` at the top level never resolves, and when the
statements up to `second` resolve, the error is "Already a variable with this
name declared in this scope." at the line of the second name. So it is for
`var x; var x;` and for `var f; fun f() {}`. -/
theorem top_level_redeclaration (first second : Statement) (name1 name2 : Token)
    (hfirst : declaredName first = some name1) (hsecond : declaredName second = some name2)
    (hlex : name1.lexeme_ = name2.lexeme_) :
    (∀ resolution, (NameResolver.new resolution).scopes_ = [[]]) ∧
    (∀ (mid post : List Statement) (r1 : NameResolver),
      resolveStatements (first :: mid) (NameResolver.new []) = .ok r1 →
      Resolver.resolve (first :: mid ++ second :: post) =
        .error (Resolver.error name2.line_
          "Already a variable with this name declared in this scope.")) ∧
    (∀ mid post : List Statement,
      ∃ err, Resolver.resolve (first :: mid ++ second :: post) = .error err) ∧
    (∀ x1 x2 : Token, x1.lexeme_ = x2.lexeme_ →
      Resolver.resolve [Statement.variable x1 Expression.monostate,
        Statement.variable x2 Expression.monostate] =
        .error (Resolver.error x2.line_
          "Already a variable with this name declared in this scope.")) ∧
    (∀ (x f : Token) (params : List Token) (body : List Statement), x.lexeme_ = f.lexeme_ →
      Resolver.resolve [Statement.variable x Expression.monostate,
        Statement.function (FunctionStatement.mk f params body)] =
        .error (Resolver.error f.line_
          "Already a variable with this name declared in this scope.")) := by
  have hmain : ∀ (mid post : List Statement) (r1 : NameResolver),
      resolveStatements (first :: mid) (NameResolver.new []) = .ok r1 →
      Resolver.resolve (first :: mid ++ second :: post) =
        .error (Resolver.error name2.line_
          "Already a variable with this name declared in this scope.") := by
    intro mid post r1 hprefix
    have hprefix' := hprefix
    simp only [resolveStatements] at hprefix'
    obtain ⟨ra, ha, hmid⟩ := (bind_eq_ok _ _ _).mp hprefix'
    obtain ⟨scope, rest, hscopes, hbound⟩ :=
      declaration_binds first name1 _ ra hfirst (by simp [NameResolver.new]) ha
    have hbound1 : ∃ scope1 rest1, r1.scopes_ = scope1 :: rest1 ∧
        (scope1.find name2.lexeme_).isSome = true := by
      rcases resolveStatements_extends mid ra r1 hmid with ⟨hnil, _⟩ | ⟨s, s', below, hs, hs', hext⟩
      · rw [hscopes] at hnil; cases hnil
      · rw [hscopes] at hs
        cases hs
        refine ⟨s', _, hs', ?_⟩
        rw [← hlex, hext _ _ hbound]
        rfl
    obtain ⟨scope1, rest1, hscopes1, hfound1⟩ := hbound1
    have hfail := redeclaration_fails second name2 r1 scope1 rest1 hsecond hscopes1 hfound1
    have happ : first :: mid ++ second :: post = (first :: mid) ++ (second :: post) := by simp
    rw [Resolver.resolve, happ, resolveStatements_append, hprefix]
    simp [resolveStatements, hfail, bind, Except.bind]
  refine ⟨fun _ => rfl, hmain, ?_, ?_, ?_⟩
  · intro mid post
    cases hprefix : resolveStatements (first :: mid) (NameResolver.new []) with
    | ok r1 => exact ⟨_, hmain mid post r1 hprefix⟩
    | error e =>
      have happ : first :: mid ++ second :: post = (first :: mid) ++ (second :: post) := by simp
      refine ⟨e, ?_⟩
      rw [Resolver.resolve, happ, resolveStatements_append, hprefix]
      rfl
  · intro x1 x2 hx
    simp [Resolver.resolve, NameResolver.new, resolveStatements, resolveStatement,
      resolveExpression, declare, define, UnorderedMap.find, UnorderedMap.assign, hx,
      bind, Except.bind]
  · intro x f params body hx
    simp [Resolver.resolve, NameResolver.new, resolveStatements, resolveStatement,
      resolveExpression, declare, define, FunctionStatement.name_, UnorderedMap.find,
      UnorderedMap.assign, hx, bind, Except.bind]

/-- Witness for C18: `class f {} fun f() {}` with the names on lines 1 and 2. -/
theorem top_level_redeclaration_witness :
    Resolver.resolve (Statement.class_ (identifier "f" 1) [] :: [] ++
      Statement.function (FunctionStatement.mk (identifier "f" 2) [] []) :: []) =
      .error (Resolver.error 2 "Already a variable with this name declared in this scope.") :=
  (top_level_redeclaration (Statement.class_ (identifier "f" 1) [])
    (Statement.function (FunctionStatement.mk (identifier "f" 2) [] []))
    (identifier "f" 1) (identifier "f" 2) rfl rfl rfl).2.1 [] []
    (NameResolver.mk [[("f", true)]] FunctionType.NONE ClassType.NONE []) rfl

end NameResolver

namespace Scanner

/-! ## Cursor movements and the line counter -/

theorem Cursor.is_at_end_eq_false (c : Cursor) :
    c.is_at_end = false ↔ c.current_ < c.source_.length := by
  simp [Cursor.is_at_end]

theorem Cursor.is_at_end_eq_true (c : Cursor) :
    c.is_at_end = true ↔ c.source_.length ≤ c.current_ := by
  simp [Cursor.is_at_end]

theorem Cursor.getElem?_current (c : Cursor) (h : c.is_at_end = false) :
    c.source_[c.current_]? = some (c.peek 0) := by
  have hlt := (Cursor.is_at_end_eq_false c).mp h
  simp [Cursor.peek, h, List.getD, List.getElem?_eq_getElem hlt]

theorem Cursor.peek_at_end (c : Cursor) (forward : Nat) (h : c.is_at_end = true) :
    c.peek forward = Char.ofNat 0 := by
  simp [Cursor.peek, h]

theorem count_take_succ (l : List Char) (n : Nat) (x : Char) :
    (l.take (n + 1)).count x = (l.take n).count x + (l[n]?.toList).count x := by
  rw [List.take_succ, List.count_append]

theorem Cursor.LineCounted.skip {c : Cursor} (h : c.LineCounted)
    (hpeek : c.peek 0 ≠ Char.ofNat 10) : c.advance_char.LineCounted := by
  unfold Cursor.LineCounted at h ⊢
  simp only [Cursor.advance_char]
  rw [count_take_succ, h]
  cases hend : c.is_at_end with
  | true =>
    have hle := (Cursor.is_at_end_eq_true c).mp hend
    simp [List.getElem?_eq_none hle]
  | false =>
    rw [Cursor.getElem?_current c hend]
    have hcount : List.count (Char.ofNat 10) [c.peek 0] = 0 :=
      List.count_eq_zero.mpr (by simpa using fun heq => hpeek heq.symm)
    simp [hcount]

theorem Cursor.LineCounted.newline {c : Cursor} (h : c.LineCounted)
    (hchar : c.source_[c.current_]? = some (Char.ofNat 10)) :
    c.advance_char.advance_line.LineCounted ∧ c.advance_line.advance_char.LineCounted := by
  unfold Cursor.LineCounted at h ⊢
  simp only [Cursor.advance_char, Cursor.advance_line]
  rw [count_take_succ, h, hchar]
  simp [Nat.add_assoc]

/-! ## Loops -/

theorem while_loop_invariant (J : Cursor → Prop) (cond : Cursor → Bool) (body : Cursor → Cursor)
    (hbody : ∀ c, J c → cond c = true → J (body c)) :
    ∀ (fuel : Nat) (c : Cursor), J c → J (while_loop cond body fuel c)
  | 0, c, h => h
  | fuel + 1, c, h => by
    simp only [while_loop]
    split
    · rename_i hc
      exact while_loop_invariant J cond body hbody fuel (body c) (hbody c h hc)
    · exact h

theorem while_loop_exit (cond : Cursor → Bool) (body : Cursor → Cursor)
    (hcond : ∀ c, cond c = true → c.is_at_end = false)
    (hbody : ∀ c, (body c).source_ = c.source_ ∧ (body c).current_ = c.current_ + 1) :
    ∀ (fuel : Nat) (c : Cursor), c.remaining ≤ fuel → cond (while_loop cond body fuel c) = false
  | 0, c, h => by
    simp only [while_loop]
    cases hc : cond c with
    | false => rfl
    | true =>
      have hlt := (Cursor.is_at_end_eq_false c).mp (hcond c hc)
      simp only [Cursor.remaining] at h
      omega
  | fuel + 1, c, h => by
    simp only [while_loop]
    split
    · rename_i hc
      apply while_loop_exit cond body hcond hbody fuel (body c)
      have hlt := (Cursor.is_at_end_eq_false c).mp (hcond c hc)
      simp only [Cursor.remaining, (hbody c).1, (hbody c).2] at h ⊢
      omega
    · rename_i hc
      simpa using hc

end Scanner

namespace Scanner

theorem isDigit_nul : (Char.ofNat 0).isDigit = false := by decide

theorem is_word_char_nul : is_word_char (Char.ofNat 0) = false := by decide

/-- The bound of the loops is enough: started with the number of characters
left, each loop of the scanner stops because its condition is false. -/
theorem loops_exit (c : Cursor) :
    ((fun c : Cursor => c.peek 0 != '"' && !c.is_at_end)
      (while_loop (fun c => c.peek 0 != '"' && !c.is_at_end)
        (fun c => (if c.peek 0 == Char.ofNat 10 then c.advance_line else c).advance_char)
        c.remaining c)) = false ∧
    Char.isDigit
      ((while_loop (fun c => (c.peek 0).isDigit) Cursor.advance_char c.remaining c).peek 0)
      = false ∧
    is_word_char
      ((while_loop (fun c => is_word_char (c.peek 0)) Cursor.advance_char c.remaining c).peek 0)
      = false ∧
    ((fun c : Cursor => c.peek 0 != Char.ofNat 10 && !c.is_at_end)
      (while_loop (fun c => c.peek 0 != Char.ofNat 10 && !c.is_at_end) Cursor.advance_char
        c.remaining c)) = false := by
  have hadv : ∀ c : Cursor, c.advance_char.source_ = c.source_ ∧
      c.advance_char.current_ = c.current_ + 1 := fun _ => ⟨rfl, rfl⟩
  have hnul : ∀ (p : Char → Bool), p (Char.ofNat 0) = false →
      ∀ c : Cursor, p (c.peek 0) = true → c.is_at_end = false := by
    intro p hp c hc
    cases hend : c.is_at_end with
    | false => rfl
    | true =>
      rw [Cursor.peek_at_end c 0 hend, hp] at hc
      cases hc
  refine ⟨?_, ?_, ?_, ?_⟩
  · exact while_loop_exit (fun c => c.peek 0 != '"' && !c.is_at_end)
      (fun c => (if c.peek 0 == Char.ofNat 10 then c.advance_line else c).advance_char)
      (fun c hcnd => by
        simp only [Bool.and_eq_true, Bool.not_eq_true'] at hcnd
        exact hcnd.2)
      (fun c => by beta_reduce; split <;> exact ⟨rfl, rfl⟩) c.remaining c (Nat.le_refl _)
  · exact while_loop_exit (fun c => (c.peek 0).isDigit) _ (hnul Char.isDigit isDigit_nul) hadv
      c.remaining c (Nat.le_refl _)
  · exact while_loop_exit (fun c => is_word_char (c.peek 0)) _ (hnul is_word_char is_word_char_nul)
      hadv c.remaining c (Nat.le_refl _)
  · exact while_loop_exit (fun c => c.peek 0 != Char.ofNat 10 && !c.is_at_end)
      Cursor.advance_char
      (fun c hcnd => by
        simp only [Bool.and_eq_true, Bool.not_eq_true'] at hcnd
        exact hcnd.2)
      hadv c.remaining c (Nat.le_refl _)

/-! ## One token -/

theorem Cursor.Follows.start {c : Cursor} (h : c.LineCounted) : c.Follows c :=
  ⟨rfl, Nat.le_refl _, h⟩

theorem Cursor.Follows.step {c c' : Cursor} (h : c.Follows c')
    (hpeek : c'.peek 0 ≠ Char.ofNat 10) : c.Follows c'.advance_char :=
  ⟨h.1, Nat.le_succ_of_le h.2.1, h.2.2.skip hpeek⟩

theorem isDigit_ne_newline (ch : Char) (h : ch.isDigit = true) : ch ≠ Char.ofNat 10 := by
  intro heq
  rw [heq] at h
  revert h
  decide

theorem is_word_char_ne_newline (ch : Char) (h : is_word_char ch = true) :
    ch ≠ Char.ofNat 10 := by
  intro heq
  rw [heq] at h
  revert h
  decide

theorem advance_loop_follows (cond : Cursor → Bool)
    (hcond : ∀ c, cond c = true → c.peek 0 ≠ Char.ofNat 10) (c0 : Cursor) (fuel : Nat)
    (c : Cursor) (h : c0.Follows c) :
    c0.Follows (while_loop cond Cursor.advance_char fuel c) :=
  while_loop_invariant (fun c => c0.Follows c) cond Cursor.advance_char
    (fun c hc hcnd => hc.step (hcond c hcnd)) fuel c h

theorem string_loop_follows (c0 : Cursor) (fuel : Nat) (c : Cursor) (h : c0.Follows c) :
    c0.Follows (while_loop (fun c => c.peek 0 != '"' && !c.is_at_end)
      (fun c => (if c.peek 0 == Char.ofNat 10 then c.advance_line else c).advance_char)
      fuel c) := by
  apply while_loop_invariant (fun c => c0.Follows c) _ _ _ fuel c h
  intro c hc hcnd
  simp only [Bool.and_eq_true, bne_iff_ne, ne_eq, Bool.not_eq_true'] at hcnd
  by_cases hnl : c.peek 0 = Char.ofNat 10
  · have hchar : c.source_[c.current_]? = some (Char.ofNat 10) := by
      rw [Cursor.getElem?_current c hcnd.2, hnl]
    simp only [hnl, beq_self_eq_true, if_true]
    exact ⟨hc.1, Nat.le_succ_of_le hc.2.1, (hc.2.2.newline hchar).2⟩
  · have hbeq : (c.peek 0 == Char.ofNat 10) = false := by simpa using hnl
    simp only [hbeq, Bool.false_eq_true, if_false]
    exact hc.step hnl

theorem handle_string_literal_spec (c : Cursor) (token : Token) (c' : Cursor)
    (hc : c.LineCounted) (h : handle_string_literal c = .ok (token, c')) :
    c.Follows c' ∧ token.type_ = TokenType.STRING := by
  simp only [handle_string_literal] at h
  have hloop := string_loop_follows c c.remaining c (Cursor.Follows.start hc)
  have hexit := while_loop_exit (fun c => c.peek 0 != '"' && !c.is_at_end)
    (fun c => (if c.peek 0 == Char.ofNat 10 then c.advance_line else c).advance_char)
    (fun c hcnd => by
      simp only [Bool.and_eq_true, Bool.not_eq_true'] at hcnd
      exact hcnd.2)
    (fun c => by beta_reduce; split <;> exact ⟨rfl, rfl⟩)
    c.remaining c (Nat.le_refl _)
  split at h
  · cases h
  · rename_i hend
    simp only [Except.ok.injEq, Prod.mk.injEq] at h
    obtain ⟨htok, hcur⟩ := h
    subst hcur
    refine ⟨?_, by rw [← htok]; rfl⟩
    apply hloop.step
    simp only [Bool.not_eq_true] at hend
    simp only [hend, Bool.not_false, Bool.and_true, bne_eq_false_iff_eq] at hexit
    rw [hexit]
    decide

theorem handle_number_literal_spec (env : Externals) (c : Cursor) (token : Token) (c' : Cursor)
    (hc : c.LineCounted) (h : handle_number_literal env c = .ok (token, c')) :
    c.Follows c' ∧ token.type_ = TokenType.NUMBER := by
  simp only [handle_number_literal] at h
  have hdigits : ∀ c : Cursor, (c.peek 0).isDigit = true → c.peek 0 ≠ Char.ofNat 10 :=
    fun c hd => isDigit_ne_newline _ hd
  have hloop := advance_loop_follows (fun c => (c.peek 0).isDigit) hdigits c c.remaining c
    (Cursor.Follows.start hc)
  split at h
  · cases h
  · rename_i value _
    simp only [Except.ok.injEq, Prod.mk.injEq] at h
    obtain ⟨htok, hcur⟩ := h
    subst hcur
    refine ⟨?_, by rw [← htok]; rfl⟩
    split
    · rename_i hdot
      simp only [Bool.and_eq_true, beq_iff_eq] at hdot
      apply advance_loop_follows (fun c => (c.peek 0).isDigit) hdigits
      apply hloop.step
      rw [hdot.1]
      decide
    · exact hloop

theorem handle_identifier_spec (env : Externals) (c : Cursor) (hc : c.LineCounted)
    (hkw : ∀ text type, env.match_keyword_token_type text = some type → type ≠ TokenType.EOFF) :
    c.Follows (handle_identifier env c).2 ∧
      (handle_identifier env c).1.type_ ≠ TokenType.EOFF := by
  simp only [handle_identifier]
  refine ⟨advance_loop_follows _ (fun c hw => is_word_char_ne_newline _ hw) c c.remaining c
    (Cursor.Follows.start hc), ?_⟩
  simp only [make_token]
  cases hk : env.match_keyword_token_type
      (while_loop (fun c => is_word_char (c.peek 0)) Cursor.advance_char c.remaining
        c).take_word with
  | none => simp
  | some type => simpa using hkw _ type hk

theorem single_or_double_char_spec (c : Cursor) (with_equal without_equal : TokenType)
    (hc : c.LineCounted) (hwith : with_equal ≠ TokenType.EOFF)
    (hwithout : without_equal ≠ TokenType.EOFF) :
    c.Follows (single_or_double_char c with_equal without_equal).2 ∧
      (single_or_double_char c with_equal without_equal).1.type_ ≠ TokenType.EOFF := by
  simp only [single_or_double_char]
  split
  · rename_i hm
    refine ⟨?_, hwith⟩
    apply (Cursor.Follows.start hc).step
    simp only [Cursor.match_] at hm
    split at hm
    · cases hm
    · rename_i hn
      simp only [Bool.or_eq_true, bne_iff_ne, ne_eq, not_or, Decidable.not_not,
        Bool.not_eq_true] at hn
      rw [hn.2]
      decide
  · exact ⟨Cursor.Follows.start hc, hwithout⟩

theorem build_special_character_token_spec (c : Cursor) (ch : Char) (token : Token)
    (c' : Cursor) (hc : c.LineCounted)
    (h : build_special_character_token c ch = some (token, c')) :
    c.Follows c' ∧ token.type_ ≠ TokenType.EOFF := by
  have hsingle : ∀ type : TokenType, type ≠ TokenType.EOFF →
      some (single_char c type) = some (token, c') →
      c.Follows c' ∧ token.type_ ≠ TokenType.EOFF := by
    intro type htype heq
    simp only [single_char, Option.some.injEq, Prod.mk.injEq] at heq
    obtain ⟨htok, hcur⟩ := heq
    subst hcur
    exact ⟨Cursor.Follows.start hc, by rw [← htok]; exact htype⟩
  have hdouble : ∀ a b : TokenType, a ≠ TokenType.EOFF → b ≠ TokenType.EOFF →
      some (single_or_double_char c a b) = some (token, c') →
      c.Follows c' ∧ token.type_ ≠ TokenType.EOFF := by
    intro a b ha hb heq
    have hspec := single_or_double_char_spec c a b hc ha hb
    simp only [Option.some.injEq] at heq
    rw [heq] at hspec
    exact hspec
  unfold build_special_character_token at h
  by_cases h0 : (ch == '(') = true
  · rw [if_pos h0] at h
    exact hsingle _ (by decide) h
  rw [if_neg h0] at h
  clear h0
  by_cases h0 : (ch == ')') = true
  · rw [if_pos h0] at h
    exact hsingle _ (by decide) h
  rw [if_neg h0] at h
  clear h0
  by_cases h0 : (ch == Char.ofNat 123) = true
  · rw [if_pos h0] at h
    exact hsingle _ (by decide) h
  rw [if_neg h0] at h
  clear h0
  by_cases h0 : (ch == Char.ofNat 125) = true
  · rw [if_pos h0] at h
    exact hsingle _ (by decide) h
  rw [if_neg h0] at h
  clear h0
  by_cases h0 : (ch == ',') = true
  · rw [if_pos h0] at h
    exact hsingle _ (by decide) h
  rw [if_neg h0] at h
  clear h0
  by_cases h0 : (ch == '.') = true
  · rw [if_pos h0] at h
    exact hsingle _ (by decide) h
  rw [if_neg h0] at h
  clear h0
  by_cases h0 : (ch == '-') = true
  · rw [if_pos h0] at h
    exact hsingle _ (by decide) h
  rw [if_neg h0] at h
  clear h0
  by_cases h0 : (ch == '+') = true
  · rw [if_pos h0] at h
    exact hsingle _ (by decide) h
  rw [if_neg h0] at h
  clear h0
  by_cases h0 : (ch == ';') = true
  · rw [if_pos h0] at h
    exact hsingle _ (by decide) h
  rw [if_neg h0] at h
  clear h0
  by_cases h0 : (ch == '*') = true
  · rw [if_pos h0] at h
    exact hsingle _ (by decide) h
  rw [if_neg h0] at h
  clear h0
  by_cases h0 : (ch == '!') = true
  · rw [if_pos h0] at h
    exact hdouble _ _ (by decide) (by decide) h
  rw [if_neg h0] at h
  clear h0
  by_cases h0 : (ch == '=') = true
  · rw [if_pos h0] at h
    exact hdouble _ _ (by decide) (by decide) h
  rw [if_neg h0] at h
  clear h0
  by_cases h0 : (ch == '<') = true
  · rw [if_pos h0] at h
    exact hdouble _ _ (by decide) (by decide) h
  rw [if_neg h0] at h
  clear h0
  by_cases h0 : (ch == '>') = true
  · rw [if_pos h0] at h
    exact hdouble _ _ (by decide) (by decide) h
  rw [if_neg h0] at h
  clear h0
  cases h

theorem handle_slash_spec (c : Cursor) (hc : c.LineCounted) :
    c.Follows (handle_slash c).2 ∧
      ∀ token, (handle_slash c).1 = some token → token.type_ ≠ TokenType.EOFF := by
  simp only [handle_slash]
  split
  · refine ⟨?_, fun token htok => by cases htok⟩
    apply advance_loop_follows _ _ c c.remaining c (Cursor.Follows.start hc)
    intro c hcnd
    simp only [Bool.and_eq_true, bne_iff_ne, ne_eq] at hcnd
    exact hcnd.1
  · refine ⟨Cursor.Follows.start hc, fun token htok => ?_⟩
    cases htok
    simp [make_token]

end Scanner

namespace Scanner

theorem Cursor.peek_of_take_char (c : Cursor) (ch : Char) (h : c.take_char = some ch) :
    c.is_at_end = false ∧ c.peek 0 = ch := by
  simp only [Cursor.take_char] at h
  have hlt : c.current_ < c.source_.length := by
    by_contra hge
    rw [List.getElem?_eq_none (Nat.le_of_not_lt hge)] at h
    cases h
  have hend := (Cursor.is_at_end_eq_false c).mpr hlt
  have hpeek := Cursor.getElem?_current c hend
  rw [h] at hpeek
  exact ⟨hend, (Option.some.inj hpeek).symm⟩

theorem scan_token_spec (env : Externals) (c : Cursor) (result : Option Token) (c' : Cursor)
    (hc : c.LineCounted)
    (hkw : ∀ text type, env.match_keyword_token_type text = some type → type ≠ TokenType.EOFF)
    (h : scan_token env c = .ok (result, c')) :
    c'.source_ = c.source_ ∧ c.current_ < c'.current_ ∧ c'.LineCounted ∧
      ∀ token, result = some token → token.type_ ≠ TokenType.EOFF := by
  have hfinish : ∀ token? : Option Token, c.advance_char.Follows c' →
      (∀ token, token? = some token → token.type_ ≠ TokenType.EOFF) → result = token? →
      c'.source_ = c.source_ ∧ c.current_ < c'.current_ ∧ c'.LineCounted ∧
        ∀ token, result = some token → token.type_ ≠ TokenType.EOFF := by
    intro token? hf htype hres
    subst hres
    exact ⟨hf.1, Nat.lt_of_succ_le hf.2.1, hf.2.2, htype⟩
  unfold scan_token at h
  cases htake : c.take_char with
  | none => rw [htake] at h; cases h
  | some ch =>
    rw [htake] at h
    dsimp only at h
    obtain ⟨hend, hpeek⟩ := Cursor.peek_of_take_char c ch htake
    have hline : ch ≠ Char.ofNat 10 → c.advance_char.LineCounted :=
      fun hne => hc.skip (by rw [hpeek]; exact hne)
    by_cases h0 : (ch == ' ' || ch == Char.ofNat 13 || ch == Char.ofNat 9) = true
    · rw [if_pos h0] at h
      simp only [Except.ok.injEq, Prod.mk.injEq] at h
      have hne : ch ≠ Char.ofNat 10 := by
        simp only [Bool.or_eq_true, beq_iff_eq] at h0
        rcases h0 with (h1 | h1) | h1 <;> rw [h1] <;> decide
      exact hfinish none (h.2 ▸ Cursor.Follows.start (hline hne)) (fun _ ht => by cases ht) h.1.symm
    rw [if_neg h0] at h
    clear h0
    by_cases h0 : (ch == Char.ofNat 10) = true
    · rw [if_pos h0] at h
      simp only [handle_newline, Except.ok.injEq, Prod.mk.injEq] at h
      have hchar : c.source_[c.current_]? = some (Char.ofNat 10) := by
        rw [Cursor.getElem?_current c hend, hpeek]
        simpa using h0
      have hnl := (hc.newline hchar).1
      refine hfinish none ?_ (fun _ ht => by cases ht) h.1.symm
      rw [← h.2]
      exact ⟨rfl, Nat.le_refl _, hnl⟩
    rw [if_neg h0] at h
    have hne : ch ≠ Char.ofNat 10 := by simpa using h0
    have hc1 := hline hne
    clear h0
    by_cases h0 : (ch == '/') = true
    · rw [if_pos h0] at h
      simp only [Except.ok.injEq] at h
      have hspec := handle_slash_spec c.advance_char hc1
      rw [h] at hspec
      exact hfinish result hspec.1 hspec.2 rfl
    rw [if_neg h0] at h
    clear h0
    by_cases h0 : (ch == '"') = true
    · rw [if_pos h0] at h
      cases hs : handle_string_literal c.advance_char with
      | error e => rw [hs] at h; cases h
      | ok pair =>
        obtain ⟨token, c2⟩ := pair
        rw [hs] at h
        simp only [Except.map, Except.ok.injEq, Prod.mk.injEq] at h
        have hspec := handle_string_literal_spec c.advance_char token c2 hc1 hs
        refine hfinish (some token) (h.2 ▸ hspec.1) (fun t ht => ?_) h.1.symm
        cases ht
        rw [hspec.2]
        decide
    rw [if_neg h0] at h
    clear h0
    by_cases h0 : ch.isDigit = true
    · rw [if_pos h0] at h
      cases hs : handle_number_literal env c.advance_char with
      | error e => rw [hs] at h; cases h
      | ok pair =>
        obtain ⟨token, c2⟩ := pair
        rw [hs] at h
        simp only [Except.map, Except.ok.injEq, Prod.mk.injEq] at h
        have hspec := handle_number_literal_spec env c.advance_char token c2 hc1 hs
        refine hfinish (some token) (h.2 ▸ hspec.1) (fun t ht => ?_) h.1.symm
        cases ht
        rw [hspec.2]
        decide
    rw [if_neg h0] at h
    clear h0
    by_cases h0 : (ch.isAlpha || ch == '_') = true
    · rw [if_pos h0] at h
      simp only [Except.ok.injEq, Prod.mk.injEq] at h
      have hspec := handle_identifier_spec env c.advance_char hc1 hkw
      refine hfinish _ (h.2 ▸ hspec.1) (fun t ht => ?_) h.1.symm
      cases ht
      exact hspec.2
    rw [if_neg h0] at h
    clear h0
    cases hb : build_special_character_token c.advance_char ch with
    | none => rw [hb] at h; cases h
    | some pair =>
      obtain ⟨token, c2⟩ := pair
      rw [hb] at h
      simp only [Except.ok.injEq, Prod.mk.injEq] at h
      have hspec := build_special_character_token_spec c.advance_char ch token c2 hc1 hb
      refine hfinish (some token) (h.2 ▸ hspec.1) (fun t ht => ?_) h.1.symm
      cases ht
      exact hspec.2

end Scanner

namespace Scanner

/-! ## The token list -/

theorem scan_tokens_loop_spec (env : Externals)
    (hkw : ∀ text type, env.match_keyword_token_type text = some type → type ≠ TokenType.EOFF) :
    ∀ (fuel : Nat) (c : Cursor) (tokens tokens' : List Token) (c' : Cursor),
      c.remaining ≤ fuel → c.LineCounted → (∀ t ∈ tokens, t.type_ ≠ TokenType.EOFF) →
      scan_tokens_loop env fuel c tokens = .ok (tokens', c') →
      c'.source_ = c.source_ ∧ c'.is_at_end = true ∧ c'.LineCounted ∧
        ∀ t ∈ tokens', t.type_ ≠ TokenType.EOFF
  | 0, c, tokens, tokens', c', hfuel, hc, htokens, h => by
    simp only [scan_tokens_loop, Except.ok.injEq, Prod.mk.injEq] at h
    obtain ⟨ht, hcur⟩ := h
    subst ht hcur
    refine ⟨rfl, ?_, hc, htokens⟩
    rw [Cursor.is_at_end_eq_true]
    simp only [Cursor.remaining] at hfuel
    omega
  | fuel + 1, c, tokens, tokens', c', hfuel, hc, htokens, h => by
    simp only [scan_tokens_loop] at h
    cases hend : c.is_at_end with
    | true =>
      simp only [hend, Bool.not_true, Bool.false_eq_true, if_false, Except.ok.injEq,
        Prod.mk.injEq] at h
      obtain ⟨ht, hcur⟩ := h
      subst ht hcur
      exact ⟨rfl, hend, hc, htokens⟩
    | false =>
      simp only [hend, Bool.not_false, if_true] at h
      have hc0 : c.reset_start_to_current.LineCounted := hc
      cases hs : scan_token env c.reset_start_to_current with
      | error e => rw [hs] at h; cases h
      | ok pair =>
        obtain ⟨result, c1⟩ := pair
        rw [hs] at h
        obtain ⟨hsrc, hlt, hc1, htype⟩ :=
          scan_token_spec env c.reset_start_to_current result c1 hc0 hkw hs
        have hsrc' : c1.source_ = c.source_ := hsrc
        have hlt' : c.current_ < c1.current_ := hlt
        have hfuel1 : c1.remaining ≤ fuel := by
          simp only [Cursor.remaining, hsrc'] at hfuel ⊢
          omega
        cases result with
        | none =>
          obtain ⟨h1, h2, h3, h4⟩ :=
            scan_tokens_loop_spec env hkw fuel c1 tokens tokens' c' hfuel1 hc1 htokens h
          exact ⟨h1.trans hsrc', h2, h3, h4⟩
        | some token =>
          have htokens1 : ∀ t ∈ tokens ++ [token], t.type_ ≠ TokenType.EOFF := by
            intro t hmem
            rcases List.mem_append.mp hmem with hm | hm
            · exact htokens t hm
            · rw [List.mem_singleton.mp hm]
              exact htype token rfl
          obtain ⟨h1, h2, h3, h4⟩ := scan_tokens_loop_spec env hkw fuel c1 (tokens ++ [token])
            tokens' c' hfuel1 hc1 htokens1 h
          exact ⟨h1.trans hsrc', h2, h3, h4⟩

theorem find_mem_values {κ ν : Type} [DecidableEq κ] :
    ∀ (m : UnorderedMap κ ν) (key : κ) (value : ν), m.find key = some value →
      value ∈ m.map Prod.snd
  | [], _, _, h => by simp [UnorderedMap.find] at h
  | (k, v) :: rest, key, value, h => by
    simp only [UnorderedMap.find] at h
    split at h
    · cases h
      simp
    · exact List.mem_cons_of_mem _ (find_mem_values rest key value h)

theorem sample_keywords (text : String) (type : TokenType)
    (h : Externals.sample.match_keyword_token_type text = some type) :
    type ≠ TokenType.EOFF := by
  have hmem := find_mem_values keywords text type h
  have hall : ∀ t ∈ keywords.map Prod.snd, t ≠ TokenType.EOFF := by decide
  exact hall type hmem

/-- C19. When `scan_tokens` returns a token list for a source text (the
keyword table never yielding the end-of-file type), the list is not empty, its
last token is the end-of-file token with an empty lexeme and no literal, every
token before it has another type, and the line of the end-of-file token is 1
plus the number of newline characters of the whole source, wherever they
stand. -/
theorem scan_tokens_end_of_file (env : Externals) (contents : String) (tokens : List Token)
    (hkw : ∀ text type, env.match_keyword_token_type text = some type → type ≠ TokenType.EOFF)
    (h : scan_tokens env contents = .ok tokens) :
    tokens ≠ [] ∧
    tokens.getLast? = some ⟨TokenType.EOFF, "", Literal.monostate,
      1 + contents.data.count (Char.ofNat 10)⟩ ∧
    ∃ front, tokens = front ++ [⟨TokenType.EOFF, "", Literal.monostate,
        1 + contents.data.count (Char.ofNat 10)⟩] ∧
      ∀ t ∈ front, t.type_ ≠ TokenType.EOFF := by
  simp only [scan_tokens] at h
  cases hloop : scan_tokens_loop env (Cursor.new contents).remaining (Cursor.new contents) [] with
  | error e => rw [hloop] at h; cases h
  | ok pair =>
    obtain ⟨front, c'⟩ := pair
    rw [hloop] at h
    simp only [Except.ok.injEq] at h
    have hstart : (Cursor.new contents).LineCounted := by
      simp [Cursor.LineCounted, Cursor.new]
    obtain ⟨hsrc, hend, hline, htypes⟩ := scan_tokens_loop_spec env hkw _ _ [] front c'
      (Nat.le_refl _) hstart (fun _ hmem => by cases hmem) hloop
    have hcount : c'.at_line = 1 + contents.data.count (Char.ofNat 10) := by
      have hle := (Cursor.is_at_end_eq_true c').mp hend
      have hsrc' : c'.source_ = contents.data := hsrc
      unfold Cursor.LineCounted at hline
      rw [List.take_of_length_le hle, hsrc'] at hline
      exact hline
    rw [hcount] at h
    subst h
    exact ⟨by simp, by simp, front, rfl, htypes⟩

/-- Witness for C19: a string literal over two lines, a comment and a final
newline give the end-of-file token on line 3. -/
theorem scan_tokens_end_of_file_witness :
    ([⟨TokenType.STRING, "\"a\nb\"", Literal.string "a\nb", 2⟩,
      ⟨TokenType.EOFF, "", Literal.monostate, 3⟩] : List Token).getLast? =
      some ⟨TokenType.EOFF, "", Literal.monostate,
        1 + "\"a\nb\" // c\n".data.count (Char.ofNat 10)⟩ :=
  (scan_tokens_end_of_file Externals.sample "\"a\nb\" // c\n"
    [⟨TokenType.STRING, "\"a\nb\"", Literal.string "a\nb", 2⟩,
      ⟨TokenType.EOFF, "", Literal.monostate, 3⟩] sample_keywords rfl).2.1

end Scanner

namespace Scanner

/-! ## String literals -/

theorem while_loop_stop (cond : Cursor → Bool) (body : Cursor → Cursor) (fuel : Nat)
    (c : Cursor) (h : cond c = false) : while_loop cond body fuel c = c := by
  cases fuel with
  | zero => rfl
  | succ fuel => simp [while_loop, h]

theorem Cursor.peek_append (pre tail : List Char) (x : Char) (start line : Nat) :
    (Cursor.mk (pre ++ x :: tail) start pre.length line).is_at_end = false ∧
      (Cursor.mk (pre ++ x :: tail) start pre.length line).peek 0 = x := by
  have hend : (Cursor.mk (pre ++ x :: tail) start pre.length line).is_at_end = false := by
    simp [Cursor.is_at_end]
  refine ⟨hend, ?_⟩
  simp only [Cursor.peek, hend, Bool.false_eq_true, if_false, Nat.add_zero,
    List.getD_eq_getElem?_getD]
  rw [List.getElem?_append_right (Nat.le_refl _)]
  simp

theorem string_loop_exact : ∀ (s pre rest : List Char) (start line fuel : Nat),
    '"' ∉ s → (rest = [] ∨ ∃ tail, rest = '"' :: tail) → s.length ≤ fuel →
    while_loop (fun c => c.peek 0 != '"' && !c.is_at_end)
      (fun c => (if c.peek 0 == Char.ofNat 10 then c.advance_line else c).advance_char)
      fuel (Cursor.mk (pre ++ (s ++ rest)) start pre.length line) =
      Cursor.mk (pre ++ (s ++ rest)) start (pre.length + s.length)
        (line + s.count (Char.ofNat 10))
  | [], pre, rest, start, line, fuel, _, hrest, _ => by
    simp only [List.nil_append, List.length_nil, Nat.add_zero, List.count_nil]
    apply while_loop_stop
    rcases hrest with hnil | ⟨tail, htail⟩
    · subst hnil
      simp [Cursor.is_at_end]
    · subst htail
      have hp := Cursor.peek_append pre tail '"' start line
      simp [hp.2]
  | x :: s, pre, rest, start, line, fuel, hquote, hrest, hfuel => by
    cases fuel with
    | zero => simp at hfuel
    | succ fuel =>
      have hx : x ≠ '"' := fun heq => hquote (heq ▸ List.mem_cons_self _ _)
      have hs : '"' ∉ s := fun hmem => hquote (List.mem_cons_of_mem _ hmem)
      have hp := Cursor.peek_append pre (s ++ rest) x start line
      have hsrc : pre ++ (x :: s ++ rest) = (pre ++ [x]) ++ (s ++ rest) := by simp
      have ih := string_loop_exact s (pre ++ [x]) rest start
        (line + (if x = Char.ofNat 10 then 1 else 0)) fuel hs hrest
        (by simpa using hfuel)
      have hcond : ((Cursor.mk (pre ++ (x :: s ++ rest)) start pre.length line).peek 0 != '"' &&
          !(Cursor.mk (pre ++ (x :: s ++ rest)) start pre.length line).is_at_end) = true := by
        have h1 := hp.1
        have h2 := hp.2
        simp only [List.cons_append] at h1 h2 ⊢
        simp [h1, h2, hx]
      rw [while_loop]
      simp only [hcond, if_true]
      have hbody : (if (Cursor.mk (pre ++ (x :: s ++ rest)) start pre.length line).peek 0 ==
            Char.ofNat 10
          then (Cursor.mk (pre ++ (x :: s ++ rest)) start pre.length line).advance_line
          else Cursor.mk (pre ++ (x :: s ++ rest)) start pre.length line).advance_char =
          Cursor.mk ((pre ++ [x]) ++ (s ++ rest)) start (pre ++ [x]).length
            (line + (if x = Char.ofNat 10 then 1 else 0)) := by
        have h2 := hp.2
        simp only [List.cons_append] at h2 ⊢
        rw [h2]
        by_cases hnl : x = Char.ofNat 10
        · simp [hnl, Cursor.advance_line, Cursor.advance_char]
        · simp [hnl, Cursor.advance_char]
      rw [hbody, ih]
      have hlen : (pre ++ [x]).length + s.length = pre.length + (x :: s).length := by
        simp only [List.length_append, List.length_cons, List.length_nil]
        omega
      have hcount : line + (if x = Char.ofNat 10 then 1 else 0) + s.count (Char.ofNat 10) =
          line + (x :: s).count (Char.ofNat 10) := by
        by_cases hnl : x = Char.ofNat 10
        · subst hnl
          simp only [if_true, List.count_cons_self]
          omega
        · rw [List.count_cons_of_ne (fun heq => hnl heq.symm)]
          simp only [hnl, if_false]
          omega
      rw [hlen, hcount, hsrc]

theorem scan_token_quote (env : Externals) (c : Cursor) (h : c.take_char = some '"') :
    scan_token env c =
      (handle_string_literal c.advance_char).map (fun result => (some result.1, result.2)) := by
  unfold scan_token
  rw [h]
  dsimp only
  rw [if_neg (by decide), if_neg (by decide), if_neg (by decide), if_pos (by decide)]

theorem handle_string_literal_closed (s tail : List Char) (hquote : '"' ∉ s) :
    handle_string_literal (Cursor.mk ('"' :: (s ++ '"' :: tail)) 0 1 1) =
      .ok (⟨TokenType.STRING, String.mk ('"' :: (s ++ ['"'])), Literal.string (String.mk s),
          1 + s.count (Char.ofNat 10)⟩,
        Cursor.mk ('"' :: (s ++ '"' :: tail)) 0 (s.length + 2) (1 + s.count (Char.ofNat 10))) := by
  have hloop := string_loop_exact s ['"'] ('"' :: tail) 0 1 (s.length + tail.length + 1) hquote
    (Or.inr ⟨tail, rfl⟩) (by omega)
  simp only [List.singleton_append, List.length_singleton] at hloop
  have hrem : (Cursor.mk ('"' :: (s ++ '"' :: tail)) 0 1 1).remaining =
      s.length + tail.length + 1 := by
    simp [Cursor.remaining, Nat.add_assoc]
  have htake : List.take (s.length + 2) ('"' :: (s ++ '"' :: tail)) = '"' :: (s ++ ['"']) := by
    have h1 : s.length + 2 = (s.length + 1) + 1 := rfl
    rw [h1, List.take_succ_cons]
    have h2 : s ++ '"' :: tail = (s ++ ['"']) ++ tail := by simp
    rw [h2, List.take_left' (by simp)]
  simp only [handle_string_literal, hrem, hloop]
  have hend : (Cursor.mk ('"' :: (s ++ '"' :: tail)) 0 (1 + s.length)
      (1 + s.count (Char.ofNat 10))).is_at_end = false := by
    simp [Cursor.is_at_end]
    omega
  simp only [hend, Bool.false_eq_true, if_false, Cursor.advance_char, make_token,
    Cursor.take_word, Cursor.at_line, List.drop_zero, Nat.sub_zero, String.length]
  have hcur : 1 + s.length + 1 = s.length + 2 := by omega
  rw [hcur, htake]
  simp

theorem handle_string_literal_open (s : List Char) (hquote : '"' ∉ s) :
    handle_string_literal (Cursor.mk ('"' :: s) 0 1 1) =
      .error (Exception.LoxError (1 + s.count (Char.ofNat 10)) "Unterminated string literal") := by
  have hloop := string_loop_exact s ['"'] [] 0 1 s.length hquote (Or.inl rfl) (Nat.le_refl _)
  simp only [List.singleton_append, List.length_singleton, List.append_nil] at hloop
  have hrem : (Cursor.mk ('"' :: s) 0 1 1).remaining = s.length := by
    simp [Cursor.remaining]
  simp only [handle_string_literal, hrem, hloop]
  have hend : (Cursor.mk ('"' :: s) 0 (1 + s.length)
      (1 + s.count (Char.ofNat 10))).is_at_end = true := by
    simp [Cursor.is_at_end]
    omega
  simp only [hend, if_true, Cursor.at_line]

theorem scan_tokens_loop_at_end (env : Externals) (fuel : Nat) (c : Cursor)
    (tokens : List Token) (h : c.is_at_end = true) :
    scan_tokens_loop env fuel c tokens = .ok (tokens, c) := by
  cases fuel with
  | zero => rfl
  | succ fuel => simp [scan_tokens_loop, h]

theorem scan_tokens_closed_string (env : Externals) (s : List Char) (hquote : '"' ∉ s) :
    scan_tokens env (String.mk ('"' :: (s ++ ['"']))) =
      .ok [⟨TokenType.STRING, String.mk ('"' :: (s ++ ['"'])), Literal.string (String.mk s),
          1 + s.count (Char.ofNat 10)⟩,
        ⟨TokenType.EOFF, "", Literal.monostate, 1 + s.count (Char.ofNat 10)⟩] := by
  have hrem : (Cursor.new (String.mk ('"' :: (s ++ ['"'])))).remaining = (s.length + 1) + 1 := by
    simp [Cursor.remaining, Cursor.new]
  have hstart : (Cursor.new (String.mk ('"' :: (s ++ ['"'])))).reset_start_to_current =
      Cursor.mk ('"' :: (s ++ ['"'])) 0 0 1 := rfl
  have hend0 : (Cursor.new (String.mk ('"' :: (s ++ ['"'])))).is_at_end = false := by
    simp [Cursor.is_at_end, Cursor.new]
  have htoken := scan_token_quote env (Cursor.mk ('"' :: (s ++ ['"'])) 0 0 1)
    (by simp [Cursor.take_char])
  have hstring := handle_string_literal_closed s [] hquote
  have hend1 : (Cursor.mk ('"' :: (s ++ ['"'])) 0 (s.length + 2)
      (1 + s.count (Char.ofNat 10))).is_at_end = true := by
    simp [Cursor.is_at_end]
  simp only [Cursor.advance_char, Nat.zero_add] at htoken
  rw [hstring] at htoken
  simp only [scan_tokens, hrem, scan_tokens_loop, hend0, hstart, htoken, Except.map,
    Bool.not_false, if_true, List.nil_append]
  rw [scan_tokens_loop_at_end env _ _ _ hend1]
  rfl

theorem scan_tokens_open_string (env : Externals) (s : List Char) (hquote : '"' ∉ s) :
    scan_tokens env (String.mk ('"' :: s)) =
      .error (Exception.LoxError (1 + s.count (Char.ofNat 10)) "Unterminated string literal") := by
  have hrem : (Cursor.new (String.mk ('"' :: s))).remaining = s.length + 1 := by
    simp [Cursor.remaining, Cursor.new]
  have hstart : (Cursor.new (String.mk ('"' :: s))).reset_start_to_current =
      Cursor.mk ('"' :: s) 0 0 1 := rfl
  have hend0 : (Cursor.new (String.mk ('"' :: s))).is_at_end = false := by
    simp [Cursor.is_at_end, Cursor.new]
  have htoken := scan_token_quote env (Cursor.mk ('"' :: s) 0 0 1)
    (by simp [Cursor.take_char])
  have hstring := handle_string_literal_open s hquote
  simp only [Cursor.advance_char, Nat.zero_add] at htoken
  rw [hstring] at htoken
  simp only [scan_tokens, hrem, scan_tokens_loop, hend0, hstart, htoken, Except.map,
    Bool.not_false, if_true]

/-- C20. For every string `s` without a double-quote character, scanning the
text `"` + `s` + `"` returns exactly two tokens: a STRING token whose lexeme is
the whole quoted text and whose literal is `s` (on the line the literal ends
on), followed by the end-of-file token; scanning `"` + `s`, without the closing
quote, raises "Unterminated string literal" and returns no tokens. -/
theorem string_literal_round_trip (env : Externals) (s : String) (hquote : '"' ∉ s.data) :
    scan_tokens env ("\"" ++ s ++ "\"") =
      .ok [⟨TokenType.STRING, "\"" ++ s ++ "\"", Literal.string s,
          1 + s.data.count (Char.ofNat 10)⟩,
        ⟨TokenType.EOFF, "", Literal.monostate, 1 + s.data.count (Char.ofNat 10)⟩] ∧
    scan_tokens env ("\"" ++ s) =
      .error (Exception.LoxError (1 + s.data.count (Char.ofNat 10))
        "Unterminated string literal") := by
  have hclosed : "\"" ++ s ++ "\"" = String.mk ('"' :: (s.data ++ ['"'])) := by
    apply String.ext
    simp
  have hopen : "\"" ++ s = String.mk ('"' :: s.data) := by
    apply String.ext
    simp
  rw [hclosed, hopen]
  exact ⟨scan_tokens_closed_string env s.data hquote, scan_tokens_open_string env s.data hquote⟩

/-- Witness for C20: the literal `"a b"`. -/
theorem string_literal_round_trip_witness :
    scan_tokens Externals.sample ("\"" ++ "a b" ++ "\"") =
      .ok [⟨TokenType.STRING, "\"" ++ "a b" ++ "\"", Literal.string "a b",
          1 + "a b".data.count (Char.ofNat 10)⟩,
        ⟨TokenType.EOFF, "", Literal.monostate, 1 + "a b".data.count (Char.ofNat 10)⟩] :=
  (string_literal_round_trip Externals.sample "a b" (by decide)).1

end Scanner

/-! ## The parenthesized lists of the parser -/

namespace Parser

/-- The loop stops at once, whatever the fuel, on a cursor that is not at a
comma. -/
theorem parse_parenthesized_list_loop_stop {T : Type}
    (f : Cursor → Except Exception (T × Cursor)) (fuel : Nat) (cursor : Cursor) (list : List T)
    (h : cursor.match_ TokenType.COMMA = false) :
    parse_parenthesized_list_loop f fuel cursor list = some (.ok (list, cursor)) := by
  cases fuel with
  | zero => simp [parse_parenthesized_list_loop, h]
  | succ n => simp [parse_parenthesized_list_loop, h]

/-- A cursor at a token of the type matches it. -/
theorem Cursor.match_cons (token : Token) (rest : List Token) (type_ : TokenType)
    (h : token.type_ = type_) : Cursor.match_ ⟨token :: rest⟩ type_ = true := by
  simp [Cursor.match_, h]

/-- A cursor at a token of another type does not match. -/
theorem Cursor.match_cons_ne (token : Token) (rest : List Token) (a b : TokenType)
    (h : token.type_ = a) (hab : a ≠ b) : Cursor.match_ ⟨token :: rest⟩ b = false := by
  simp [Cursor.match_, h, hab]

/-- Constituents take at least the separating commas from the tokens. -/
theorem constituents_length {T : Type} {f : Cursor → Except Exception (T × Cursor)}
    {tokens : List Token} {elements : List T} {rest : List Token}
    (h : Constituents f tokens elements rest) :
    elements.length + rest.length ≤ tokens.length + 1 := by
  induction h with
  | last constituent element rest _ =>
    simp only [List.length_cons, List.length_nil, List.length_append]
    omega
  | more constituent element comma tokens elements rest _ _ _ ih =>
    simp only [List.length_cons, List.length_append]
    omega

/-- From a comma before the remaining constituents, the loop appends their
elements in order and stops behind them, on fuel for one round each. -/
theorem parse_parenthesized_list_loop_constituents {T : Type}
    {f : Cursor → Except Exception (T × Cursor)}
    {tokens : List Token} {elements : List T} {rest : List Token}
    (h : Constituents f tokens elements rest)
    (hstop : Cursor.match_ ⟨rest⟩ TokenType.COMMA = false) :
    ∀ (fuel : Nat) (comma : Token) (list : List T),
      comma.type_ = TokenType.COMMA → elements.length ≤ fuel →
      parse_parenthesized_list_loop f fuel ⟨comma :: tokens⟩ list =
        some (.ok (list ++ elements, ⟨rest⟩)) := by
  induction h with
  | last constituent element rest hf =>
    intro fuel comma list hcomma hfuel
    cases fuel with
    | zero => simp at hfuel
    | succ n =>
      simp only [parse_parenthesized_list_loop, Cursor.match_cons comma _ _ hcomma, if_true,
        Cursor.take, hf]
      exact parse_parenthesized_list_loop_stop f n ⟨rest⟩ _ hstop
  | more constituent element comma' tokens elements rest hf hcomma' _ ih =>
    intro fuel comma list hcomma hfuel
    cases fuel with
    | zero => simp at hfuel
    | succ n =>
      simp only [parse_parenthesized_list_loop, Cursor.match_cons comma _ _ hcomma, if_true,
        Cursor.take, hf]
      rw [ih hstop n comma' (list ++ [element]) hcomma'
        (by simp only [List.length_cons] at hfuel; omega)]
      simp

end Parser

namespace Parser

/-- The loop returns or throws on fuel for the tokens left, when the element
parser never leaves more tokens than it was given. -/
theorem parse_parenthesized_list_loop_returns {T : Type}
    (f : Cursor → Except Exception (T × Cursor)) (hf : Consumes f) :
    ∀ (fuel : Nat) (cursor : Cursor) (list : List T), cursor.tokens_.length ≤ fuel →
      parse_parenthesized_list_loop f fuel cursor list ≠ none := by
  intro fuel
  induction fuel with
  | zero =>
    intro cursor list hfuel
    obtain ⟨tokens⟩ := cursor
    have hnil : tokens = [] := List.length_eq_zero.mp (Nat.le_zero.mp hfuel)
    subst hnil
    simp [parse_parenthesized_list_loop, Cursor.match_]
  | succ n ih =>
    intro cursor list hfuel
    obtain ⟨tokens⟩ := cursor
    cases tokens with
    | nil => simp [parse_parenthesized_list_loop, Cursor.match_]
    | cons token rest =>
      simp only [parse_parenthesized_list_loop, Cursor.take]
      split
      · cases hfc : f ⟨rest⟩ with
        | error e => simp
        | ok r =>
          obtain ⟨element, cursor'⟩ := r
          have hlen := hf ⟨rest⟩ element cursor' hfc
          simp only [List.length_cons] at hfuel hlen
          exact ih cursor' _ (by omega)
      · simp

/-- The function returns or throws, when the element parser never leaves more
tokens than it was given: the fuel of the loop is enough. -/
theorem parse_parenthesized_list_returns {T : Type}
    (f : Cursor → Except Exception (T × Cursor)) (hf : Consumes f) (cursor : Cursor) :
    parse_parenthesized_list f cursor ≠ none := by
  unfold parse_parenthesized_list
  cases cursor.take_type TokenType.LEFT_PAREN with
  | error e => simp
  | ok r =>
    obtain ⟨token, cursor'⟩ := r
    simp only
    have hparsed : (if (!cursor'.match_ TokenType.RIGHT_PAREN) = true then
          match f cursor' with
          | .error e => some (.error e)
          | .ok (element, cursor) =>
            parse_parenthesized_list_loop f cursor.tokens_.length cursor [element]
        else some (.ok ([], cursor'))) ≠ none := by
      split
      · cases hfc : f cursor' with
        | error e => simp
        | ok r =>
          obtain ⟨element, cursor''⟩ := r
          exact parse_parenthesized_list_loop_returns f hf _ cursor'' _ (Nat.le_refl _)
      · simp
    revert hparsed
    generalize (if (!cursor'.match_ TokenType.RIGHT_PAREN) = true then
          match f cursor' with
          | .error e => some (.error e)
          | .ok (element, cursor) =>
            parse_parenthesized_list_loop f cursor.tokens_.length cursor [element]
        else some (.ok ([], cursor'))) = parsed
    intro hparsed
    cases parsed with
    | none => exact absurd rfl hparsed
    | some r =>
      cases r with
      | error e => simp
      | ok r =>
        obtain ⟨list, cursor''⟩ := r
        simp only
        split
        · simp
        · split <;> simp

/-- Taking one token at a time accepts copies of a token separated by
commas. -/
theorem constituents_commaSeparated (element comma : Token) (rest : List Token)
    (hcomma : comma.type_ = TokenType.COMMA) :
    ∀ n : Nat, Constituents Cursor.take (commaSeparated element comma n rest)
      (List.replicate (n + 1) element) rest
  | 0 => Constituents.last [element] element rest rfl
  | n + 1 =>
    Constituents.more [element] element comma (commaSeparated element comma n rest)
      (List.replicate (n + 1) element) rest rfl hcomma
      (constituents_commaSeparated element comma rest hcomma n)

/-- Taking one token at a time never leaves more tokens. -/
theorem consumes_take : Consumes Cursor.take := by
  intro cursor element cursor' h
  obtain ⟨tokens⟩ := cursor
  cases tokens with
  | nil => simp [Cursor.take] at h
  | cons token rest =>
    simp only [Cursor.take, Except.ok.injEq, Prod.mk.injEq] at h
    rw [← h.2]
    simp

end Parser

namespace Parser

/-- Behind the opening parenthesis, the first element and the loop give the
elements of the constituents in order and stop at the closing parenthesis. -/
theorem parse_parenthesized_list_elements {T : Type}
    (f : Cursor → Except Exception (T × Cursor)) (rp : Token) (rest : List Token)
    (hrp : rp.type_ = TokenType.RIGHT_PAREN) (tokens : List Token) (elements : List T)
    (h : Constituents f tokens elements (rp :: rest)) :
    (match f ⟨tokens⟩ with
      | .error e => some (.error e)
      | .ok (element, cursor) =>
        parse_parenthesized_list_loop f cursor.tokens_.length cursor [element]) =
      some (.ok (elements, ⟨rp :: rest⟩)) := by
  have hstop : Cursor.match_ ⟨rp :: rest⟩ TokenType.COMMA = false :=
    Cursor.match_cons_ne rp rest _ _ hrp (by decide)
  cases h with
  | last constituent element _ hf =>
    simp only [hf]
    exact parse_parenthesized_list_loop_stop f _ _ _ hstop
  | more constituent element comma tokens' elements' _ hf hcomma hmore =>
    simp only [hf]
    have hlen := constituents_length hmore
    simp only [List.length_cons] at hlen
    exact parse_parenthesized_list_loop_constituents hmore hstop _ comma [element] hcomma
      (by simp only [List.length_cons]; omega)

/-- C21. On `(` followed at once by `)`, `parse_parenthesized_list` returns the
empty list and reports nothing. On `(`, then the constituents of `elements`
(each accepted by the element parser `f`, separated by commas, the first one
not starting with `)`), then `)`, it returns `elements`, whole and in source
order, and leaves the cursor behind the `)`; it reports nothing when there are
fewer than 255 elements, and reports "Can't have more than 255 constituents."
once, at the `)`, when there are 255 or more. -/
theorem parse_parenthesized_list_spec {T : Type}
    (f : Cursor → Except Exception (T × Cursor)) (lp rp : Token) (rest : List Token)
    (hlp : lp.type_ = TokenType.LEFT_PAREN) (hrp : rp.type_ = TokenType.RIGHT_PAREN) :
    parse_parenthesized_list f ⟨lp :: rp :: rest⟩ = some ([], .ok ([], ⟨rest⟩)) ∧
    ∀ (tokens : List Token) (elements : List T),
      Cursor.match_ ⟨tokens⟩ TokenType.RIGHT_PAREN = false →
      Constituents f tokens elements (rp :: rest) →
      (elements.length < 255 →
        parse_parenthesized_list f ⟨lp :: tokens⟩ = some ([], .ok (elements, ⟨rest⟩))) ∧
      (255 ≤ elements.length →
        parse_parenthesized_list f ⟨lp :: tokens⟩ =
          some ([⟨rp, "Can\x27t have more than 255 constituents."⟩],
            .ok (elements, ⟨rest⟩))) := by
  refine ⟨?_, ?_⟩
  · simp [parse_parenthesized_list, Cursor.take_type, Cursor.match_, hlp, hrp]
  · intro tokens elements hfirst h
    have hparsed := parse_parenthesized_list_elements f rp rest hrp tokens elements h
    have hrun : parse_parenthesized_list f ⟨lp :: tokens⟩ =
        some (if elements.length ≥ 255 then
            [⟨rp, "Can\x27t have more than 255 constituents."⟩] else [],
          .ok (elements, ⟨rest⟩)) := by
      simp only [parse_parenthesized_list, Cursor.take_type, hlp, beq_self_eq_true, if_true,
        hfirst, Bool.not_false, hparsed, Cursor.peek, hrp]
      by_cases hsize : elements.length ≥ 255
      · simp only [if_pos hsize]
      · simp only [if_neg hsize]
    constructor
    · intro hsmall
      rw [hrun, if_neg (by omega)]
    · intro hlarge
      rw [hrun, if_pos hlarge]

/-- Witness for C21: 254 and 255 identifiers between parentheses. -/
theorem parse_parenthesized_list_spec_witness :
    parse_parenthesized_list Cursor.take
        ⟨operator TokenType.LEFT_PAREN "(" 1 ::
          commaSeparated (identifier "a" 1) (operator TokenType.COMMA "," 1) 253
            [operator TokenType.RIGHT_PAREN ")" 1]⟩ =
      some ([], .ok (List.replicate 254 (identifier "a" 1), ⟨[]⟩)) ∧
    parse_parenthesized_list Cursor.take
        ⟨operator TokenType.LEFT_PAREN "(" 1 ::
          commaSeparated (identifier "a" 1) (operator TokenType.COMMA "," 1) 254
            [operator TokenType.RIGHT_PAREN ")" 1]⟩ =
      some ([⟨operator TokenType.RIGHT_PAREN ")" 1,
            "Can\x27t have more than 255 constituents."⟩],
        .ok (List.replicate 255 (identifier "a" 1), ⟨[]⟩)) :=
  ⟨((parse_parenthesized_list_spec Cursor.take (operator TokenType.LEFT_PAREN "(" 1)
        (operator TokenType.RIGHT_PAREN ")" 1) [] rfl rfl).2
      (commaSeparated (identifier "a" 1) (operator TokenType.COMMA "," 1) 253
        [operator TokenType.RIGHT_PAREN ")" 1])
      (List.replicate 254 (identifier "a" 1)) rfl
      (constituents_commaSeparated _ _ _ rfl 253)).1
      (by rw [List.length_replicate]; decide),
    ((parse_parenthesized_list_spec Cursor.take (operator TokenType.LEFT_PAREN "(" 1)
        (operator TokenType.RIGHT_PAREN ")" 1) [] rfl rfl).2
      (commaSeparated (identifier "a" 1) (operator TokenType.COMMA "," 1) 254
        [operator TokenType.RIGHT_PAREN ")" 1])
      (List.replicate 255 (identifier "a" 1)) rfl
      (constituents_commaSeparated _ _ _ rfl 254)).2
      (by rw [List.length_replicate])⟩

end Parser

namespace NameResolver

/-! ## References to names declared at the top level -/

theorem Binds.extend {r r' : NameResolver} {name : String} (h : r.Binds name)
    (hext : Extends r r') : r'.Binds name := by
  obtain ⟨scope, hmem, hfound⟩ := h
  rcases hext with ⟨hnil, _⟩ | ⟨s, s', rest, hs, hs', hse⟩
  · rw [hnil] at hmem; cases hmem
  · rw [hs] at hmem
    rcases List.mem_cons.mp hmem with rfl | hrest
    · refine ⟨s', by rw [hs']; exact List.mem_cons_self _ _, ?_⟩
      cases hf : UnorderedMap.find scope name with
      | none => rw [hf] at hfound; cases hfound
      | some b => rw [hse name b hf]; rfl
    · exact ⟨scope, by rw [hs']; exact List.mem_cons_of_mem _ hrest, hfound⟩

theorem Binds.enter {r r' : NameResolver} {name : String} (h : r.Binds name)
    (htail : r'.scopes_.tail = r.scopes_) : r'.Binds name := by
  obtain ⟨scope, hmem, hfound⟩ := h
  rw [← htail] at hmem
  exact ⟨scope, List.mem_of_mem_tail hmem, hfound⟩

theorem Binds.after_expression {e : Expression} {r r' : NameResolver} {name : String}
    (h : r.Binds name) (he : resolveExpression e r = .ok r') : r'.Binds name :=
  h.extend (Extends.of_same_scopes (resolveExpression_scopes e r r' he).1)

theorem Binds.after_statement {s : Statement} {r r' : NameResolver} {name : String}
    (h : r.Binds name) (hs : resolveStatement s r = .ok r') : r'.Binds name :=
  h.extend (resolveStatement_extends s r r' hs)

theorem ResolvedName.empty (r : NameResolver) (name : String) : ResolvedName r r name [] :=
  ⟨fun _ h => h, fun _ hmem => by cases hmem⟩

theorem ResolvedName.of_same_table {r r' : NameResolver} {name : String}
    (h : r'.resolution_ = r.resolution_) : ResolvedName r r' name [] :=
  ⟨fun _ ht => by rw [h]; exact ht, fun _ hmem => by cases hmem⟩

theorem ResolvedName.append {a b c : NameResolver} {name : String} {ts us : List Token}
    (hab : ResolvedName a b name ts) (hbc : ResolvedName b c name us) :
    ResolvedName a c name (ts ++ us) := by
  refine ⟨fun t ht => hbc.1 t (hab.1 t ht), fun ref hmem hlex => ?_⟩
  rcases List.mem_append.mp hmem with h | h
  · exact hbc.1 ref (hab.2 ref h hlex)
  · exact hbc.2 ref h hlex

theorem ResolvedName.before {a b c : NameResolver} {name : String} {ts : List Token}
    (hab : ResolvedName a b name ts) (hbc : ResolvedName b c name []) :
    ResolvedName a c name ts := by
  have h := hab.append hbc
  simpa using h

theorem ResolvedName.after {a b c : NameResolver} {name : String} {ts : List Token}
    (hab : ResolvedName a b name []) (hbc : ResolvedName b c name ts) :
    ResolvedName a c name ts := by
  have h := hab.append hbc
  simpa using h

/-- Looking a token up under a stack that holds its name records an entry for
it and keeps every other entry. -/
theorem resolve_local_binds (ref : Token) (r : NameResolver) (name : String) (h : r.Binds name) :
    ResolvedName r (r.resolve_local ref) name [ref] := by
  refine ⟨fun t ht => resolve_local_grows ref r t ht, fun t hmem hlex => ?_⟩
  simp only [List.mem_singleton] at hmem
  subst hmem
  rw [← hlex] at h
  obtain ⟨k, _, _, _, _, hloop⟩ := resolve_local_loop_some t.lexeme_ r.scopes_ 0 h
  simp [resolve_local, hloop, UnorderedMap.find_assign_self]

mutual
theorem resolveExpression_references : ∀ (e : Expression) (r r' : NameResolver) (name : String),
    r.Binds name → resolveExpression e r = .ok r' → ResolvedName r r' name (referenceTokens e)
  | .monostate, r, r', name, _, h => by
    simp only [resolveExpression, Except.ok.injEq] at h
    subst h; exact ResolvedName.empty r name
  | .literal _, r, r', name, _, h => by
    simp only [resolveExpression, Except.ok.injEq] at h
    subst h; exact ResolvedName.empty r name
  | .this kw, r, r', name, _, h => by
    simp only [resolveExpression] at h
    split at h
    · cases h
    · cases h
      exact ⟨fun t ht => resolve_local_grows kw r t ht, fun _ hmem => by cases hmem⟩
  | .variable ref, r, r', name, hb, h => by
    simp only [resolveExpression] at h
    split at h
    · cases h; exact resolve_local_binds ref r name hb
    · split at h
      · cases h
      · cases h; exact resolve_local_binds ref r name hb
  | .assignment ref value, r, r', name, hb, h => by
    simp only [resolveExpression] at h
    obtain ⟨r1, h1, h2⟩ := (bind_eq_ok _ _ _).mp h
    cases h2
    exact (resolveExpression_references value r r1 name hb h1).append
      (resolve_local_binds ref r1 name (hb.after_expression h1))
  | .binary left _ right, r, r', name, hb, h => by
    simp only [resolveExpression] at h
    obtain ⟨r1, h1, h2⟩ := (bind_eq_ok _ _ _).mp h
    exact (resolveExpression_references left r r1 name hb h1).append
      (resolveExpression_references right r1 r' name (hb.after_expression h1) h2)
  | .call callee _ args, r, r', name, hb, h => by
    simp only [resolveExpression] at h
    obtain ⟨r1, h1, h2⟩ := (bind_eq_ok _ _ _).mp h
    exact (resolveExpression_references callee r r1 name hb h1).append
      (resolveExpressions_references args r1 r' name (hb.after_expression h1) h2)
  | .get object _, r, r', name, hb, h => by
    simp only [resolveExpression] at h
    exact resolveExpression_references object r r' name hb h
  | .grouping e, r, r', name, hb, h => by
    simp only [resolveExpression] at h
    exact resolveExpression_references e r r' name hb h
  | .logical left _ right, r, r', name, hb, h => by
    simp only [resolveExpression] at h
    obtain ⟨r1, h1, h2⟩ := (bind_eq_ok _ _ _).mp h
    exact (resolveExpression_references left r r1 name hb h1).append
      (resolveExpression_references right r1 r' name (hb.after_expression h1) h2)
  | .set object _ value, r, r', name, hb, h => by
    simp only [resolveExpression] at h
    obtain ⟨r1, h1, h2⟩ := (bind_eq_ok _ _ _).mp h
    exact (resolveExpression_references value r r1 name hb h1).append
      (resolveExpression_references object r1 r' name (hb.after_expression h1) h2)
  | .unary _ right, r, r', name, hb, h => by
    simp only [resolveExpression] at h
    exact resolveExpression_references right r r' name hb h
theorem resolveExpressions_references : ∀ (es : List Expression) (r r' : NameResolver)
    (name : String), r.Binds name → resolveExpressions es r = .ok r' →
    ResolvedName r r' name (referenceTokensList es)
  | [], r, r', name, _, h => by
    simp only [resolveExpressions, Except.ok.injEq] at h
    subst h; exact ResolvedName.empty r name
  | e :: es, r, r', name, hb, h => by
    simp only [resolveExpressions] at h
    obtain ⟨r1, h1, h2⟩ := (bind_eq_ok _ _ _).mp h
    exact (resolveExpression_references e r r1 name hb h1).append
      (resolveExpressions_references es r1 r' name (hb.after_expression h1) h2)
end

end NameResolver

namespace NameResolver

mutual
theorem resolveStatement_references : ∀ (s : Statement) (r r' : NameResolver) (name : String),
    r.Binds name → resolveStatement s r = .ok r' →
    ResolvedName r r' name (referenceTokensStatement s)
  | .monostate, r, r', name, _, h => by
    simp only [resolveStatement, Except.ok.injEq] at h
    subst h; exact ResolvedName.empty r name
  | .expression e, r, r', name, hb, h => by
    simp only [resolveStatement] at h
    exact resolveExpression_references e r r' name hb h
  | .print e, r, r', name, hb, h => by
    simp only [resolveStatement] at h
    exact resolveExpression_references e r r' name hb h
  | .return_ _ value, r, r', name, hb, h => by
    simp only [resolveStatement] at h
    split at h
    · cases h
    · exact resolveExpression_references value r r' name hb h
  | .variable decl init, r, r', name, hb, h => by
    simp only [resolveStatement] at h
    obtain ⟨r1, h1, h⟩ := (bind_eq_ok _ _ _).mp h
    obtain ⟨r2, h2, h⟩ := (bind_eq_ok _ _ _).mp h
    cases h
    have hb1 : r1.Binds name := hb.extend (declare_extends decl r r1 h1)
    exact ((ResolvedName.of_same_table (declare_resolution decl r r1 h1)).after
      (resolveExpression_references init r1 r2 name hb1 h2)).before
      (ResolvedName.of_same_table (define_resolution decl r2))
  | .block ss, r, r', name, hb, h => by
    simp only [resolveStatement] at h
    obtain ⟨r1, h1, h⟩ := (bind_eq_ok _ _ _).mp h
    cases h
    have hb0 : r.begin_scope.Binds name := hb.enter rfl
    exact (resolveStatements_references ss r.begin_scope r1 name hb0 h1).before
      (ResolvedName.of_same_table rfl)
  | .function f, r, r', name, hb, h => by
    simp only [resolveStatement] at h
    obtain ⟨r1, h1, h⟩ := (bind_eq_ok _ _ _).mp h
    have hb2 : (r1.define f.name_).Binds name :=
      hb.extend (declare_define_extends f.name_ r r1 r1 h1 rfl)
    have htable : (r1.define f.name_).resolution_ = r.resolution_ := by
      rw [define_resolution, declare_resolution _ r r1 h1]
    exact (ResolvedName.of_same_table htable).after
      (resolve_function_references f FunctionType.FUNCTION _ r' name hb2 h)
  | .class_ cname methods, r, r', name, hb, h => by
    simp only [resolveStatement] at h
    obtain ⟨r1, h1, h⟩ := (bind_eq_ok _ _ _).mp h
    obtain ⟨r2, h2, h⟩ := (bind_eq_ok _ _ _).mp h
    cases h
    have htable : (r1.define cname).resolution_ = r.resolution_ := by
      rw [define_resolution, declare_resolution _ _ r1 h1]
    have hb0 : ({ r with current_class_type_ := ClassType.CLASS } : NameResolver).Binds name :=
      hb.extend (Extends.of_same_scopes rfl)
    have hb3 : (r1.define cname).Binds name :=
      hb0.extend (declare_define_extends cname _ r1 r1 h1 rfl)
    have hb4 : ({ (r1.define cname).begin_scope with
        scopes_ := match (r1.define cname).begin_scope.scopes_ with
          | [] => []
          | scope :: rest => UnorderedMap.assign scope "this" true :: rest } :
        NameResolver).Binds name :=
      hb3.enter (by simp [begin_scope])
    have hm := resolveMethods_references methods _ r2 name hb4 h2
    exact ((ResolvedName.of_same_table htable).after hm).before (ResolvedName.of_same_table rfl)
  | .if_ condition then_branch else_branch, r, r', name, hb, h => by
    rw [resolveStatement_if] at h
    obtain ⟨r1, h1, h⟩ := (bind_eq_ok _ _ _).mp h
    obtain ⟨r2, h2, h⟩ := (bind_eq_ok _ _ _).mp h
    have hb1 := hb.after_expression h1
    exact (resolveExpression_references condition r r1 name hb h1).append
      ((resolveStatement_references then_branch r1 r2 name hb1 h2).append
        (resolveStatement_references else_branch r2 r' name (hb1.after_statement h2) h))
  | .while_ condition body, r, r', name, hb, h => by
    simp only [resolveStatement] at h
    obtain ⟨r1, h1, h⟩ := (bind_eq_ok _ _ _).mp h
    exact (resolveExpression_references condition r r1 name hb h1).append
      (resolveStatement_references body r1 r' name (hb.after_expression h1) h)
theorem resolveStatements_references : ∀ (ss : List Statement) (r r' : NameResolver)
    (name : String), r.Binds name → resolveStatements ss r = .ok r' →
    ResolvedName r r' name (referenceTokensStatements ss)
  | [], r, r', name, _, h => by
    simp only [resolveStatements, Except.ok.injEq] at h
    subst h; exact ResolvedName.empty r name
  | s :: ss, r, r', name, hb, h => by
    simp only [resolveStatements] at h
    obtain ⟨r1, h1, h⟩ := (bind_eq_ok _ _ _).mp h
    exact (resolveStatement_references s r r1 name hb h1).append
      (resolveStatements_references ss r1 r' name (hb.after_statement h1) h)
theorem resolve_function_references : ∀ (f : FunctionStatement) (kind : FunctionType)
    (r r' : NameResolver) (name : String), r.Binds name → resolve_function f kind r = .ok r' →
    ResolvedName r r' name (referenceTokensFunction f)
  | .mk _ params body, kind, r, r', name, hb, h => by
    simp only [resolve_function] at h
    obtain ⟨r1, h1, h⟩ := (bind_eq_ok _ _ _).mp h
    obtain ⟨r2, h2, h⟩ := (bind_eq_ok _ _ _).mp h
    cases h
    have hf := declareParams_sameFrame params _ r1 h1
    have hb1 : r1.Binds name := hb.enter (by simpa [begin_scope] using hf.2.2.1)
    have htable : r1.resolution_ = r.resolution_ := by
      rw [declareParams_resolution params _ r1 h1]; rfl
    exact ((ResolvedName.of_same_table htable).after
      (resolveStatements_references body r1 r2 name hb1 h2)).before
      (ResolvedName.of_same_table rfl)
theorem resolveMethods_references : ∀ (ms : List FunctionStatement) (r r' : NameResolver)
    (name : String), r.Binds name → resolveMethods ms r = .ok r' →
    ResolvedName r r' name (referenceTokensMethods ms)
  | [], r, r', name, _, h => by
    simp only [resolveMethods, Except.ok.injEq] at h
    subst h; exact ResolvedName.empty r name
  | m :: ms, r, r', name, hb, h => by
    simp only [resolveMethods] at h
    obtain ⟨r1, h1, h⟩ := (bind_eq_ok _ _ _).mp h
    have hb1 : r1.Binds name :=
      hb.extend (Extends.of_same_scopes (resolve_function_scopes m _ r r1 h1))
    exact (resolve_function_references m FunctionType.METHOD r r1 name hb h1).append
      (resolveMethods_references ms r1 r' name hb1 h)
end

end NameResolver

namespace NameResolver

end NameResolver

namespace NameResolver

end NameResolver

namespace NameResolver

end NameResolver

end Lox
